import Mathlib

/-!
# JK builder of `gpu/src/device_cuda.cpp` and the rank facade of `gpu/src/mpi_stub`

A shallow embedding of `Device::init_get_jk`, `Device::get_jk` and `Device::fdrv`.

* A `double *` is a flat store `Mem R`: offset (counted in doubles from the pointer) to value.
  Doubles are elements of a commutative ring `R`, so all arithmetic is exact.
* Loops run in index order. The OpenMP regions of the source are independent per iteration; the
  worker that runs iteration `i` of `fdrv` is a parameter `tid i`.
* C `int` values are integers; the sizes computed by `init_get_jk` and the size of `rho` wrap to
  32 bits.
* Stores are total: an access is never checked against the extent of the array it goes through.
  The accesses to the scratch buffers are recorded by a second run of the same steps
  (`get_jk_iterK_acc`), which is shown to compute what `get_jk_iterK` computes.
-/

namespace Mrh

/-! ## Flat memory and loops -/

/-- Flat storage behind a `double *`. -/
abbrev Mem (R : Type) := Nat → R

/-- Assignment `p[i] = v`. -/
def store {R : Type} (p : Mem R) (i : Nat) (v : R) : Mem R :=
  fun j => if j = i then v else p j

/-- Counted loop `for (i = 0; i < n; ++i) body(i)`, iterations in index order. -/
def forLoop {σ : Type} : Nat → (Nat → σ → σ) → σ → σ
  | 0, _, s => s
  | n + 1, body, s => body n (forLoop n body s)

/-- Modelled from the spec: `DevArray2D(p, d0, d1)(i, j)` of `device.h`, a row-major index
calculator over external storage (section 4.2); the extent `d0` takes no part in the offset. -/
def DevArray2D (_d0 d1 i j : Nat) : Nat := i * d1 + j

/-- Modelled from the spec: `DevArray3D(p, d0, d1, d2)(i, j, k)` of `device.h`, a row-major index
calculator over external storage (section 4.2). -/
def DevArray3D (_d0 d1 d2 i j k : Nat) : Nat := (i * d1 + j) * d2 + k

/-! ## Machine integers -/

/-- Value of an integer expression stored in a C `int` (two's complement, 32 bits). -/
@[irreducible]
def wrap32 (x : Int) : Int := (x + 2147483648) % 4294967296 - 2147483648

/-- Conversion of an `int` to `size_t` (64 bits). -/
@[irreducible]
def toSizeT (x : Int) : Nat := (x % 18446744073709551616).toNat

/-- The byte count `n * sizeof(double)` computed in `size_t`. -/
@[irreducible]
def bytesOf (n : Int) : Nat := (toSizeT n * 8) % 18446744073709551616

/-! ## Platform memory manager -/

/-- Allocation and release calls received by the platform memory manager. -/
inductive PMEvent where
  | malloc_host (ptr bytes : Nat)
  | free_host (ptr : Nat)
  | malloc_dev (ptr bytes : Nat)
  | free_dev (ptr : Nat)
  deriving DecidableEq, Repr

/-- State of the platform memory manager: the last address handed out, the contents a block has
when it is handed out (indeterminate, so a parameter), and the calls made so far. -/
structure PM (R : Type) where
  last : Nat
  junk : Nat → Mem R
  trace : List PMEvent

/-- A pointer member of `Device` together with what it points to: address (`0` is `nullptr`),
size in bytes of the block behind it, and the block contents. -/
structure Buf (R : Type) where
  ptr : Nat
  bytes : Nat
  mem : Mem R

/-- The null pointer. -/
def Buf.null {R : Type} [Zero R] : Buf R := ⟨0, 0, fun _ => 0⟩

/-- Number of doubles that fit in the block behind a pointer. -/
def Buf.capacity {R : Type} (b : Buf R) : Nat := b.bytes / 8

/-- Modelled from the spec: `pm->dev_malloc_host(bytes)` of the platform memory manager
(section 4.1, `alloc_host(n)`): a fresh, non-null page-locked block of the requested size. -/
def dev_malloc_host {R : Type} (pm : PM R) (bytes : Nat) : PM R × Buf R :=
  ({ pm with last := pm.last + 1, trace := pm.trace ++ [PMEvent.malloc_host (pm.last + 1) bytes] },
   ⟨pm.last + 1, bytes, pm.junk (pm.last + 1)⟩)

/-- Modelled from the spec: `pm->dev_malloc(bytes)` of the platform memory manager
(section 4.1, `alloc_dev(n)`): a fresh, non-null device block of the requested size. -/
def dev_malloc {R : Type} (pm : PM R) (bytes : Nat) : PM R × Buf R :=
  ({ pm with last := pm.last + 1, trace := pm.trace ++ [PMEvent.malloc_dev (pm.last + 1) bytes] },
   ⟨pm.last + 1, bytes, pm.junk (pm.last + 1)⟩)

/-- Modelled from the spec: `pm->dev_free_host(p)` of the platform memory manager
(section 4.1, `free_host(p)`). -/
def dev_free_host {R : Type} (pm : PM R) (p : Nat) : PM R :=
  { pm with trace := pm.trace ++ [PMEvent.free_host p] }

/-- Modelled from the spec: `pm->dev_free(p)` of the platform memory manager
(section 4.1, `free_dev(p)`). -/
def dev_free {R : Type} (pm : PM R) (p : Nat) : PM R :=
  { pm with trace := pm.trace ++ [PMEvent.free_dev p] }

/-- Modelled from the spec: `pm->dev_push(d_ptr, h_ptr, bytes)` and `pm->dev_push_async` followed
by `pm->dev_stream_wait` (section 4.1, host to device copy): the first `bytes / 8` doubles of the
device block become those of the host pointer. -/
def dev_push {R : Type} (d_ptr h_ptr : Mem R) (bytes : Nat) : Mem R :=
  fun t => if t < bytes / 8 then h_ptr t else d_ptr t

/-- Modelled from the spec: `pm->dev_pull(d_ptr, h_ptr, bytes)` (section 4.5 step 6, synchronous
pull from the device block to the host): the host store after the copy, where the host pointer is
`h_base + h_off`. -/
def dev_pull {R : Type} (d_ptr : Mem R) (h_base : Mem R) (h_off : Nat) (bytes : Nat) : Mem R :=
  fun j => if h_off ≤ j ∧ j < h_off + bytes / 8 then d_ptr (j - h_off) else h_base j

/-! ## Device state -/

/-- Members of `Device` used by the JK builder. -/
structure Device (R : Type) where
  blksize : Int
  num_threads : Int
  size_rho : Int
  size_vj : Int
  size_vk : Int
  size_buf : Int
  size_fdrv : Int
  rho : Buf R
  vj : Buf R
  buf_tmp : Buf R
  buf3 : Buf R
  buf4 : Buf R
  buf_fdrv : Buf R
  d_buf2 : Buf R
  d_buf3 : Buf R
  d_vkk : Buf R
  handle : Nat
  stream : Nat
  pm : PM R

/-- Shape (`py::ssize_t` extents) and data pointer of a `py::array_t<double>` argument
(`request()`). -/
structure PyArray (R : Type) where
  shape : List Int
  ptr : Mem R

/-- Extent `info.shape[i]`. -/
def PyArray.dim {R : Type} (a : PyArray R) (i : Nat) : Int := a.shape.getD i 0

/-! ## `Device::init_get_jk` -/

/-- Line 25: `int _size_vj = info_dmtril.shape[0] * info_eri1.shape[1]`. -/
def _size_vj {R : Type} (_eri1 _dmtril : PyArray R) : Int :=
  wrap32 (_dmtril.dim 0 * _eri1.dim 1)

/-- Line 33: `int _size_vk = nset * nao * nao`. -/
def _size_vk (nset nao : Int) : Int := wrap32 (wrap32 (nset * nao) * nao)

/-- Line 52: `int _size_buf = blksize * nao * nao`. -/
def _size_buf (blksize nao : Int) : Int := wrap32 (wrap32 (blksize * nao) * nao)

/-- Line 78: `int _size_fdrv = 4 * nao * nao * num_threads`. -/
def _size_fdrv (nao num_threads : Int) : Int :=
  wrap32 (wrap32 (wrap32 (4 * nao) * nao) * num_threads)

/-- Line 136: `int _size_rho = info_dmtril.shape[0] * info_eri1.shape[0]`. -/
def _size_rho {R : Type} (_eri1 _dmtril : PyArray R) : Int :=
  wrap32 (_dmtril.dim 0 * _eri1.dim 0)

/-- Lines 25-31: the `vj` scratch is grown when the requested size exceeds the watermark and is
then zeroed up to the requested size. -/
def init_vj {R : Type} [Zero R] (d : Device R) (_eri1 _dmtril : PyArray R) : Device R :=
  let d1 : Device R :=
    if _size_vj _eri1 _dmtril > d.size_vj then
      let pm1 := if d.vj.ptr ≠ 0 then dev_free_host d.pm d.vj.ptr else d.pm
      let r := dev_malloc_host pm1 (bytesOf (_size_vj _eri1 _dmtril))
      { d with size_vj := _size_vj _eri1 _dmtril, vj := r.2, pm := r.1 }
    else d
  { d1 with vj := { d1.vj with
      mem := forLoop (_size_vj _eri1 _dmtril).toNat (fun i p => store p i 0) d1.vj.mem } }

/-- Lines 33-49: the device accumulator `d_vkk`. -/
def init_vk {R : Type} (d : Device R) (nset nao : Int) : Device R :=
  if _size_vk nset nao > d.size_vk then
    let pm1 := if d.d_vkk.ptr ≠ 0 then dev_free d.pm d.d_vkk.ptr else d.pm
    let r := dev_malloc pm1 (bytesOf (_size_vk nset nao))
    { d with size_vk := _size_vk nset nao, d_vkk := r.2, pm := r.1 }
  else d

/-- Lines 52-76: the host slabs `buf_tmp`, `buf3`, `buf4` and the device mirrors `d_buf2`,
`d_buf3`. -/
def init_buf {R : Type} (d : Device R) (nao : Int) : Device R :=
  if _size_buf d.blksize nao > d.size_buf then
    let pm1 := if d.buf_tmp.ptr ≠ 0 then dev_free_host d.pm d.buf_tmp.ptr else d.pm
    let pm2 := if d.buf3.ptr ≠ 0 then dev_free_host pm1 d.buf3.ptr else pm1
    let pm3 := if d.buf4.ptr ≠ 0 then dev_free_host pm2 d.buf4.ptr else pm2
    let r1 := dev_malloc_host pm3 (bytesOf (wrap32 (2 * _size_buf d.blksize nao)))
    let r2 := dev_malloc_host r1.1 (bytesOf (_size_buf d.blksize nao))
    let r3 := dev_malloc_host r2.1 (bytesOf (_size_buf d.blksize nao))
    let pm4 := if d.d_buf2.ptr ≠ 0 then dev_free r3.1 d.d_buf2.ptr else r3.1
    let pm5 := if d.d_buf3.ptr ≠ 0 then dev_free pm4 d.d_buf3.ptr else pm4
    let r4 := dev_malloc pm5 (bytesOf (_size_buf d.blksize nao))
    let r5 := dev_malloc r4.1 (bytesOf (_size_buf d.blksize nao))
    { d with size_buf := _size_buf d.blksize nao, buf_tmp := r1.2, buf3 := r2.2, buf4 := r3.2,
             d_buf2 := r4.2, d_buf3 := r5.2, pm := r5.1 }
  else d

/-- Lines 78-83: the per-worker scratch of `fdrv`. -/
def init_fdrv {R : Type} (d : Device R) (nao : Int) : Device R :=
  if _size_fdrv nao d.num_threads > d.size_fdrv then
    let pm1 := if d.buf_fdrv.ptr ≠ 0 then dev_free_host d.pm d.buf_fdrv.ptr else d.pm
    let r := dev_malloc_host pm1 (bytesOf (_size_fdrv nao d.num_threads))
    { d with size_fdrv := _size_fdrv nao d.num_threads, buf_fdrv := r.2, pm := r.1 }
  else d

/-- Lines 87-100: the BLAS handle (`cublasCreate`) and the stream (`pm->dev_stream_create`) are
created when still null; a created handle or stream is the non-null value `1`. -/
def init_handle_stream {R : Type} (d : Device R) : Device R :=
  let d1 : Device R := if d.handle = 0 then { d with handle := 1 } else d
  if d1.stream = 0 then { d1 with stream := 1 } else d1

/-- The method `Device::init_get_jk(_eri1, _dmtril, _blksize, nset, nao)`. -/
def init_get_jk {R : Type} [Zero R] (d : Device R) (_eri1 _dmtril : PyArray R)
    (_blksize nset nao : Int) : Device R :=
  let d0 : Device R := { d with blksize := _blksize }
  init_handle_stream (init_fdrv (init_buf (init_vk (init_vj d0 _eri1 _dmtril) nset nao) nao) nao)

/-! ## BLAS -/

/-- Modelled from the spec: the BLAS routine `dsymm_` called with `SIDE = 'L'`, `UPLO = 'U'`
(section 4.4 step 3): `C := alpha * A * B + beta * C` on column-major operands, where `A` is a
symmetric `m x m` matrix of which only the upper triangle (`A[r + c * lda]`, `r ≤ c`) is read,
`B` and `C` are `m x n`, and `C` starts at `c_base + c_off`. -/
def dsymm_LU {R : Type} [CommRing R] (m n : Nat) (alpha : R) (A : Mem R) (lda : Nat)
    (B : Mem R) (ldb : Nat) (beta : R) (c_base : Mem R) (c_off : Nat) (ldc : Nat) : Mem R :=
  forLoop n (fun j C => forLoop m (fun i C =>
    store C (c_off + (i + j * ldc))
      (alpha * forLoop m (fun t acc =>
          acc + (if t ≤ i then A (t + i * lda) else A (i + t * lda)) * B (t + j * ldb)) 0
        + beta * C (c_off + (i + j * ldc)))) C) c_base

/-- Modelled from the spec: `cublasDgemm` called with `CUBLAS_OP_N`, `CUBLAS_OP_N`
(section 4.5 step 5): `C := alpha * A * B + beta * C` on column-major operands, `A` is `m x k`
with leading dimension `lda`, `B` is `k x n` with leading dimension `ldb`, `C` is `m x n` with
leading dimension `ldc`. -/
def cublasDgemm_NN {R : Type} [CommRing R] (m n k : Nat) (alpha : R) (A : Mem R) (lda : Nat)
    (B : Mem R) (ldb : Nat) (beta : R) (C : Mem R) (ldc : Nat) : Mem R :=
  forLoop n (fun j C => forLoop m (fun i C =>
    store C (i + j * ldc)
      (alpha * forLoop k (fun l acc => acc + A (i + l * lda) * B (l + j * ldb)) 0
        + beta * C (i + j * ldc))) C) C

/-! ## `Device::fdrv` -/

/-- Line 368: the assignment `buf[_i*nao+_j] = tril[_ij]` followed by `_ij++`, where
`tril = vin + nao2 * i` and `buf = _buf + b_off`; the state is the store behind `_buf` and the
running counter `_ij`. -/
def fdrv_unpack_step {R : Type} (vin : Mem R) (nao nao2 i b_off : Nat) (_i _j : Nat)
    (s : Mem R × Nat) : Mem R × Nat :=
  (store s.1 (b_off + (_i * nao + _j)) (vin (nao2 * i + s.2)), s.2 + 1)

/-- Lines 367-368: the packed row is copied to `buf[_i * nao + _j]` for `_j ≤ _i`. -/
def fdrv_unpack {R : Type} (vin : Mem R) (nao nao2 i : Nat) (_buf : Mem R) (b_off : Nat) :
    Mem R × Nat :=
  forLoop nao (fun _i s => forLoop (_i + 1) (fun _j s =>
    fdrv_unpack_step vin nao nao2 i b_off _i _j s) s) (_buf, 0)

/-- Lines 361-382: iteration `i` of the loop of `fdrv`, run by worker `it`; the state is the
pair of stores behind `vout` and `_buf`. -/
def fdrv_iter {R : Type} [CommRing R] (vin mo_coeff : Mem R) (nao bra_start bra_count : Nat)
    (it i : Nat) (st : Mem R × Mem R) : Mem R × Mem R :=
  let ij_pair := bra_count * nao
  let nao2 := nao * (nao + 1) / 2
  let b_off := it * 4 * nao * nao
  let buf := (fdrv_unpack vin nao nao2 i st.2 b_off).1
  (dsymm_LU nao bra_count 1 (fun t => buf (b_off + t)) nao
      (fun t => mo_coeff (bra_start * nao + t)) nao 0 st.1 (ij_pair * i) nao,
   buf)

/-- The method `Device::fdrv(vout, vin, mo_coeff, nij, nao, orbs_slice, ao_loc, nbas, _buf)`:
returns the stores behind `vout` and `_buf`. `tid i` is the worker (`omp_get_thread_num()`) that
runs iteration `i`; `ao_loc` and `nbas` are only recorded and are left out. -/
def fdrv {R : Type} [CommRing R] (tid : Nat → Nat) (vout vin mo_coeff : Mem R) (nij nao : Nat)
    (orbs_slice : Nat → Nat) (_buf : Mem R) : Mem R × Mem R :=
  let bra_start := orbs_slice 0
  let bra_count := orbs_slice 1 - orbs_slice 0
  forLoop nij (fun i st => fdrv_iter vin mo_coeff nao bra_start bra_count (tid i) i st)
    (vout, _buf)

/-! ## `Device::get_jk`

Index arithmetic inside `get_jk` and `fdrv` is on naturals: the indices address arrays that exist
in memory, so they do not overflow. -/

/-- Lines 136-141: the `rho` scratch is grown when the requested size exceeds the watermark. -/
def get_jk_rho_alloc {R : Type} (d : Device R) (_eri1 _dmtril : PyArray R) : Device R :=
  if _size_rho _eri1 _dmtril > d.size_rho then
    let pm1 := if d.rho.ptr ≠ 0 then dev_free_host d.pm d.rho.ptr else d.pm
    let r := dev_malloc_host pm1 (bytesOf (_size_rho _eri1 _dmtril))
    { d with size_rho := _size_rho _eri1 _dmtril, rho := r.2, pm := r.1 }
  else d

/-- Lines 169-175: `rho = numpy.einsum('ix,px->ip', dmtril, eri1)`. -/
def get_jk_rho {R : Type} [CommRing R] (naux nao nset : Nat) (eri1 dmtril rho : Mem R) : Mem R :=
  let nao_pair := nao * (nao + 1) / 2
  forLoop nset (fun i rho => forLoop naux (fun j rho =>
    let val := forLoop nao_pair (fun k val =>
      val + dmtril (DevArray2D nset nao_pair i k) * eri1 (DevArray2D naux nao_pair j k)) 0
    store rho (DevArray2D nset naux i j) val) rho) rho

/-- Lines 185-192: `vj += numpy.einsum('ip,px->ix', rho, eri1)`. -/
def get_jk_vj {R : Type} [CommRing R] (naux nao nset : Nat) (eri1 rho vj : Mem R) : Mem R :=
  let nao_pair := nao * (nao + 1) / 2
  forLoop nset (fun i vj => forLoop nao_pair (fun j vj =>
    let val := forLoop naux (fun k val =>
      val + rho (DevArray2D nset naux i k) * eri1 (DevArray2D naux nao_pair k j)) 0
    store vj (DevArray2D nset nao_pair i j) (vj (DevArray2D nset nao_pair i j) + val)) vj) vj

/-- Lines 249-251: the two assignments `da_buf2(i,j,k) = eri1_[indx]`,
`da_buf2(i,k,j) = eri1_[indx]` followed by `indx++`, where `eri1_ = eri1 + i * nao_pair` and
`buf2 = buf_tmp + off2`; the state is the store behind `buf_tmp` and the running counter `indx`. -/
def get_jk_unpack_step {R : Type} (blksize nao : Nat) (eri1 : Mem R) (off2 i : Nat) (j k : Nat)
    (s : Mem R × Nat) : Mem R × Nat :=
  let nao_pair := nao * (nao + 1) / 2
  let p1 := store s.1 (off2 + DevArray3D blksize nao nao i j k) (eri1 (i * nao_pair + s.2))
  let p2 := store p1 (off2 + DevArray3D blksize nao nao i k j) (eri1 (i * nao_pair + s.2))
  (p2, s.2 + 1)

/-- Lines 242-252: `buf2 = lib.unpack_tril(eri1, out=buf[1])` for one packed row; the lower
triangle is written to both triangles of the slab. -/
def get_jk_unpack_row {R : Type} (blksize nao : Nat) (eri1 : Mem R) (off2 i : Nat)
    (buf_tmp : Mem R) : Mem R × Nat :=
  forLoop nao (fun j s => forLoop (j + 1) (fun k s =>
    get_jk_unpack_step blksize nao eri1 off2 i j k s) s) (buf_tmp, 0)

/-- Lines 235-254: the unpack loop over the auxiliary index. -/
def get_jk_unpack {R : Type} (blksize naux nao : Nat) (eri1 : Mem R) (buf_tmp : Mem R) : Mem R :=
  let off2 := blksize * nao * nao
  forLoop naux (fun i p => (get_jk_unpack_row blksize nao eri1 off2 i p).1) buf_tmp

/-- Lines 267-274: `buf3 = buf1.reshape(-1,nao).T`, written as `da_buf3(k,i,j) = da_buf1(i,j,k)`. -/
def get_jk_permute {R : Type} (naux nao : Nat) (buf_tmp buf3 : Mem R) : Mem R :=
  forLoop naux (fun i p => forLoop nao (fun j p => forLoop nao (fun k p =>
    store p (DevArray3D nao naux nao k i j) (buf_tmp (DevArray3D naux nao nao i j k))) p) p) buf3

/-- Lines 202-337: iteration `indxK` of the loop over the density matrices; the state is the
device object and the store behind the caller's `vk`. -/
def get_jk_iterK {R : Type} [CommRing R] (tid : Nat → Nat) (naux nao nset : Nat) (eri1 : Mem R)
    (_dms_list : Nat → Mem R) (count : Int) (indxK : Nat) (st : Device R × Mem R) :
    Device R × Mem R :=
  let d := st.1
  let vk := st.2
  let orbs_slice : Nat → Nat := fun t => if t = 1 ∨ t = 3 then nao else 0
  let dms := _dms_list indxK
  let r := fdrv tid d.buf_tmp.mem eri1 dms naux nao orbs_slice d.buf_fdrv.mem
  let blksize := d.blksize.toNat
  let off2 := blksize * nao * nao
  let buf_tmp := get_jk_unpack blksize naux nao eri1 r.1
  let buf3 := get_jk_permute naux nao buf_tmp d.buf3.mem
  let alpha : R := 1
  let beta : R := if count = 0 then 0 else 1
  let m := nao
  let n := nao
  let k := naux * nao
  let lda := naux * nao
  let ldb := nao
  let ldc := nset * nao
  let vkk_off := indxK * nao
  let d_buf2 := dev_push d.d_buf2.mem (fun t => buf_tmp (off2 + t)) (blksize * nao * nao * 8)
  let d_buf3 := dev_push d.d_buf3.mem buf3 (blksize * nao * nao * 8)
  let d_vkk := dev_push d.d_vkk.mem (fun t => vk (vkk_off + t)) (nset * nao * nao * 8)
  let d_vkk1 := cublasDgemm_NN m n k alpha d_buf2 ldb d_buf3 lda beta d_vkk ldc
  let vk1 := dev_pull d_vkk1 vk vkk_off (nset * nao * nao * 8)
  ({ d with buf_tmp := { d.buf_tmp with mem := buf_tmp },
            buf_fdrv := { d.buf_fdrv with mem := r.2 },
            buf3 := { d.buf3 with mem := buf3 },
            d_buf2 := { d.d_buf2 with mem := d_buf2 },
            d_buf3 := { d.d_buf3 with mem := d_buf3 },
            d_vkk := { d.d_vkk with mem := d_vkk1 } },
   vk1)

/-- Result of `get_jk`: the device object and the stores behind the caller's `_vj` and `_vk`. -/
structure JKResult (R : Type) where
  dev : Device R
  vj : Mem R
  vk : Mem R

/-- The method `Device::get_jk(naux, nao, nset, _eri1, _dmtril, _dms_list, _vj, _vk, count)`.
The branch on `with_j` is taken: the constant is `true`. -/
def get_jk {R : Type} [CommRing R] (d : Device R) (tid : Nat → Nat) (naux nao nset : Nat)
    (_eri1 _dmtril : PyArray R) (_dms_list : Nat → Mem R) (_vj _vk : PyArray R) (count : Int) :
    JKResult R :=
  let eri1 := _eri1.ptr
  let dmtril := _dmtril.ptr
  let vj := _vj.ptr
  let vk := _vk.ptr
  let d1 := get_jk_rho_alloc d _eri1 _dmtril
  let rho := get_jk_rho naux nao nset eri1 dmtril d1.rho.mem
  let vj1 := get_jk_vj naux nao nset eri1 rho vj
  let d2 : Device R := { d1 with rho := { d1.rho with mem := rho } }
  let r := forLoop nset (fun indxK st =>
    get_jk_iterK tid naux nao nset eri1 _dms_list count indxK st) (d2, vk)
  ⟨r.1, vj1, r.2⟩

/-! ## Concrete inputs -/

/-- A store that holds the listed values at offsets `0, 1, ...` and zero elsewhere. -/
def Mem.ofList {R : Type} [Zero R] (l : List R) : Mem R := fun i => l.getD i 0

/-- A device object with nothing allocated: every watermark is zero, every pointer is null, and
`T` workers. -/
def Device.empty (R : Type) [Zero R] (T : Int) : Device R :=
  { blksize := 0, num_threads := T, size_rho := 0, size_vj := 0, size_vk := 0, size_buf := 0,
    size_fdrv := 0, rho := Buf.null, vj := Buf.null, buf_tmp := Buf.null, buf3 := Buf.null,
    buf4 := Buf.null, buf_fdrv := Buf.null, d_buf2 := Buf.null, d_buf3 := Buf.null,
    d_vkk := Buf.null, handle := 0, stream := 0, pm := ⟨0, fun _ _ => 0, []⟩ }

/-! ## Symmetric packing -/

/-- Packed offset of the pair `(a, b)` of a symmetric matrix, `pair(i,j) = i(i+1)/2 + j` for
`i ≥ j` (array layouts, section 6 of the specification). -/
def pairIndex (a b : Nat) : Nat :=
  if b ≤ a then a * (a + 1) / 2 + b else b * (b + 1) / 2 + a

/-- Entry `[a, b]` of the symmetric `N x N` unpack of the packed row `i` of a `(rows, P)`
array. -/
def unpackSym {R : Type} (packed : Mem R) (P i a b : Nat) : R := packed (i * P + pairIndex a b)

/-! ## Matrices of the exchange block -/

/-- Entry `[a, b]` of density matrix `k` of the list passed to `get_jk` (row-major `N x N`). -/
def dmsEntry {R : Type} (_dms_list : Nat → Mem R) (nao k a b : Nat) : R :=
  _dms_list k (a * nao + b)

/-- Product of `N x N` matrices given as functions of row and column. -/
def matMul {R : Type} [CommRing R] (N : Nat) (A B : Nat → Nat → R) (a b : Nat) : R :=
  ∑ t in Finset.range N, A a t * B t b

/-- Transpose of a matrix given as a function of row and column. -/
def matT {R : Type} (A : Nat → Nat → R) (a b : Nat) : R := A b a

/-- The block that iteration `k` of Phase K adds: `Σ_i transpose(D_k * E_i) * E_i`, the product
`buf1.reshape(-1,nao).T · buf2.reshape(-1,nao)` of the reference comment in `get_jk`, where `E_i`
is the symmetric unpack of `ERI[i, :]`. -/
def kBlock {R : Type} [CommRing R] (naux nao : Nat) (eri1 : Mem R) (_dms_list : Nat → Mem R)
    (k a b : Nat) : R :=
  ∑ i in Finset.range naux,
    matMul nao (matT (matMul nao (dmsEntry _dms_list nao k)
        (unpackSym eri1 (nao * (nao + 1) / 2) i)))
      (unpackSym eri1 (nao * (nao + 1) / 2) i) a b

/-- The exchange block as the specification words it (section 8, K correctness):
`VK[s] = Σ_i (D_s · E_i) · E_i`, ordinary `N x N` products, `E_i` the symmetric unpack of
`ERI[i, :]`. -/
def kSpec {R : Type} [CommRing R] (naux nao : Nat) (eri1 : Mem R) (_dms_list : Nat → Mem R)
    (s a b : Nat) : R :=
  ∑ i in Finset.range naux,
    matMul nao (matMul nao (dmsEntry _dms_list nao s) (unpackSym eri1 (nao * (nao + 1) / 2) i))
      (unpackSym eri1 (nao * (nao + 1) / 2) i) a b

/-! ## Pool invariant -/

/-- Pool invariant: every scratch block is at least as large as its recorded watermark (the
block of `buf_tmp` holds two slabs). It holds for a device object with nothing allocated and is
kept by `init_get_jk`. -/
def PoolInv {R : Type} (d : Device R) : Prop :=
  d.size_vj ≤ (d.vj.capacity : Int) ∧ d.size_vk ≤ (d.d_vkk.capacity : Int) ∧
  2 * d.size_buf ≤ (d.buf_tmp.capacity : Int) ∧ d.size_buf ≤ (d.buf3.capacity : Int) ∧
  d.size_buf ≤ (d.buf4.capacity : Int) ∧ d.size_buf ≤ (d.d_buf2.capacity : Int) ∧
  d.size_buf ≤ (d.d_buf3.capacity : Int) ∧ d.size_fdrv ≤ (d.buf_fdrv.capacity : Int)

/-! ## Rank facade (`mpi_stub/mpi.cpp`, `mpi_stub/mpi.h`) -/

/-- The macro `MPI_COMM_WORLD` of `mpi.h`. -/
def MPI_COMM_WORLD : Int := 0

/-- What a call of the facade can change: the `int` behind its output pointer, the text printed
so far, and the exit status once `exit` has been called (`none` while the process runs). -/
structure MpiState where
  out : Int
  printed : List String
  exited : Option Int

/-- The function `MPI_Comm_rank(int comm, int * rnk)`; `out` is `*rnk`. -/
def MPI_Comm_rank (comm : Int) (st : MpiState) : MpiState :=
  if comm ≠ 0 then
    { st with
      printed := st.printed ++ ["LIBGPU :: MPI_Comm_rank() :: Error: comm != 0  are you trying to run MPI-enabled run with the mpi_stub.a library?\n"],
      exited := some 1 }
  else { st with out := 0 }

/-- The function `MPI_Comm_size(int comm, int * nrnk)`; `out` is `*nrnk`. -/
def MPI_Comm_size (comm : Int) (st : MpiState) : MpiState :=
  if comm ≠ 0 then
    { st with
      printed := st.printed ++ ["LIBGPU :: MPI_Comm_rank() :: Error: comm != 0  are you trying to run MPI-enabled run with the mpi_stub.a library?\n"],
      exited := some 1 }
  else { st with out := 1 }

/-! ## The GEMM path of one iteration and its reference -/

/-- Lines 267-326: the permutation, the transfers, the GEMM and the pull of iteration `indxK`,
as a function of the buffers they work on; the result is the store behind the caller's `vk`.
These are the steps `get_jk_iterK` runs after `fdrv` and the unpack. -/
def get_jk_gemm_stage {R : Type} [CommRing R] (naux nao nset blksize : Nat) (count : Int)
    (indxK : Nat) (buf_tmp buf3 d_buf2 d_buf3 d_vkk vk : Mem R) : Mem R :=
  let off2 := blksize * nao * nao
  let buf3 := get_jk_permute naux nao buf_tmp buf3
  let alpha : R := 1
  let beta : R := if count = 0 then 0 else 1
  let m := nao
  let n := nao
  let k := naux * nao
  let lda := naux * nao
  let ldb := nao
  let ldc := nset * nao
  let vkk_off := indxK * nao
  let d_buf2 := dev_push d_buf2 (fun t => buf_tmp (off2 + t)) (blksize * nao * nao * 8)
  let d_buf3 := dev_push d_buf3 buf3 (blksize * nao * nao * 8)
  let d_vkk := dev_push d_vkk (fun t => vk (vkk_off + t)) (nset * nao * nao * 8)
  let d_vkk1 := cublasDgemm_NN m n k alpha d_buf2 ldb d_buf3 lda beta d_vkk ldc
  dev_pull d_vkk1 vk vkk_off (nset * nao * nao * 8)

/-- The row-major reference named in the comment of the source,
`vk[k] += lib.dot(buf1.reshape(-1,nao).T, buf2.reshape(-1,nao))`: entry `[a, b]` of
`beta · VK_old + transpose(reshape(buf1, (n_aux·N, N))) · reshape(buf2, (n_aux·N, N))`. -/
def refGemm {R : Type} [CommRing R] (beta : R) (vk buf1 buf2 : Mem R) (naux nao a b : Nat) : R :=
  beta * vk (a * nao + b) + ∑ l in Finset.range (naux * nao), buf1 (l * nao + a) * buf2 (l * nao + b)

/-! ## Scratch accesses

The scratch part of one iteration of Phase K once more, this time recording every index through
which `buf_tmp`, `buf3` and `buf_fdrv` are read or written. The values are computed as before;
an index expression of the source occurs once and gives both the value and the record. -/

/-- The scratch pointers of `Device` whose accesses are recorded; `buf_fdrv it` stands for the
accesses that worker `it` makes through `_buf` in `fdrv` (line 363). -/
inductive Scratch where
  | buf_tmp
  | buf3
  | buf_fdrv (it : Nat)
  deriving DecidableEq, Repr

/-- One recorded access: the buffer, the index in doubles from the start of the buffer, and
whether it is a store. -/
structure Access where
  buf : Scratch
  idx : Nat
  write : Bool
  deriving DecidableEq, Repr

/-- A load `p[i]` through the scratch pointer `b`: the value and the extended record. -/
def loadAcc {R : Type} (b : Scratch) (p : Mem R) (i : Nat) (log : List Access) :
    R × List Access :=
  (p i, log ++ [⟨b, i, false⟩])

/-- A store `p[i] = v` through the scratch pointer `b`: the store and the extended record. -/
def storeAcc {R : Type} (b : Scratch) (p : Mem R) (i : Nat) (v : R) (log : List Access) :
    Mem R × List Access :=
  (store p i v, log ++ [⟨b, i, true⟩])

/-- Modelled from the spec: the cells `dsymm_` touches when called with `SIDE = 'L'`,
`UPLO = 'U'` (section 4.4: the symmetric multiply reads only the upper half of `A`): it reads
`A[r + c * lda]` for `r ≤ c < m` and writes `C[i + j * ldc]` for `i < m`, `j < n`. `A` is
`a_base + a_off` behind the scratch pointer `a_id`, `C` is `c_base + c_off` behind `c_id`; the
operand `B` is not a scratch buffer. -/
def dsymm_LU_acc {R : Type} [CommRing R] (a_id c_id : Scratch) (m n : Nat) (alpha : R)
    (a_base : Mem R) (a_off : Nat) (lda : Nat) (B : Mem R) (ldb : Nat) (beta : R)
    (c_base : Mem R) (c_off : Nat) (ldc : Nat) (log : List Access) : Mem R × List Access :=
  (dsymm_LU m n alpha (fun t => a_base (a_off + t)) lda B ldb beta c_base c_off ldc,
   log
    ++ (List.range m).flatMap (fun c => (List.range (c + 1)).map (fun r =>
        (⟨a_id, a_off + (r + c * lda), false⟩ : Access)))
    ++ (List.range n).flatMap (fun j => (List.range m).map (fun i =>
        (⟨c_id, c_off + (i + j * ldc), true⟩ : Access))))

/-- Modelled from the spec: the host cells `pm->dev_push(d_ptr, h_ptr, bytes)` reads
(section 4.1, host to device copy), the first `bytes / 8` doubles behind
`h_ptr = h_base + h_off`, a pointer into the scratch buffer `h_id`. -/
def dev_push_acc {R : Type} (h_id : Scratch) (d_ptr h_base : Mem R) (h_off : Nat) (bytes : Nat)
    (log : List Access) : Mem R × List Access :=
  (dev_push d_ptr (fun t => h_base (h_off + t)) bytes,
   log ++ (List.range (bytes / 8)).map (fun t => (⟨h_id, h_off + t, false⟩ : Access)))

/-- Line 368 with its access recorded: `buf[_i*nao+_j] = tril[_ij]`, `_ij++`, where
`buf = _buf + b_off` is the pointer of worker `it`. -/
def fdrv_unpack_step_acc {R : Type} (vin : Mem R) (nao nao2 i it b_off : Nat) (_i _j : Nat)
    (s : (Mem R × Nat) × List Access) : (Mem R × Nat) × List Access :=
  let w := storeAcc (Scratch.buf_fdrv it) s.1.1 (b_off + (_i * nao + _j))
    (vin (nao2 * i + s.1.2)) s.2
  ((w.1, s.1.2 + 1), w.2)

/-- Lines 367-368 with their accesses recorded. -/
def fdrv_unpack_acc {R : Type} (vin : Mem R) (nao nao2 i it : Nat) (_buf : Mem R) (b_off : Nat)
    (log : List Access) : (Mem R × Nat) × List Access :=
  forLoop nao (fun _i s => forLoop (_i + 1) (fun _j s =>
    fdrv_unpack_step_acc vin nao nao2 i it b_off _i _j s) s) ((_buf, 0), log)

/-- Lines 361-382 with their scratch accesses recorded: iteration `i` of the loop of `fdrv`, run
by worker `it`; `vout` points into the scratch buffer `vout_id`. -/
def fdrv_iter_acc {R : Type} [CommRing R] (vout_id : Scratch) (vin mo_coeff : Mem R)
    (nao bra_start bra_count : Nat) (it i : Nat) (st : (Mem R × Mem R) × List Access) :
    (Mem R × Mem R) × List Access :=
  let ij_pair := bra_count * nao
  let nao2 := nao * (nao + 1) / 2
  let b_off := it * 4 * nao * nao
  let u := fdrv_unpack_acc vin nao nao2 i it st.1.2 b_off st.2
  let r := dsymm_LU_acc (Scratch.buf_fdrv it) vout_id nao bra_count 1 u.1.1 b_off nao
    (fun t => mo_coeff (bra_start * nao + t)) nao 0 st.1.1 (ij_pair * i) nao u.2
  ((r.1, u.1.1), r.2)

/-- The method `Device::fdrv` with its scratch accesses recorded; `vout` points into the scratch
buffer `vout_id` (`get_jk` passes `buf1 = buf_tmp`). -/
def fdrv_acc {R : Type} [CommRing R] (tid : Nat → Nat) (vout_id : Scratch)
    (vout vin mo_coeff : Mem R) (nij nao : Nat) (orbs_slice : Nat → Nat) (_buf : Mem R)
    (log : List Access) : (Mem R × Mem R) × List Access :=
  let bra_start := orbs_slice 0
  let bra_count := orbs_slice 1 - orbs_slice 0
  forLoop nij (fun i st => fdrv_iter_acc vout_id vin mo_coeff nao bra_start bra_count (tid i) i st)
    ((vout, _buf), log)

/-- Lines 249-251 with their accesses recorded: `da_buf2(i,j,k) = eri1_[indx]`,
`da_buf2(i,k,j) = eri1_[indx]`, `indx++`, where `buf2 = buf_tmp + off2`. -/
def get_jk_unpack_step_acc {R : Type} (blksize nao : Nat) (eri1 : Mem R) (off2 i : Nat)
    (j k : Nat) (s : (Mem R × Nat) × List Access) : (Mem R × Nat) × List Access :=
  let nao_pair := nao * (nao + 1) / 2
  let w1 := storeAcc Scratch.buf_tmp s.1.1 (off2 + DevArray3D blksize nao nao i j k)
    (eri1 (i * nao_pair + s.1.2)) s.2
  let w2 := storeAcc Scratch.buf_tmp w1.1 (off2 + DevArray3D blksize nao nao i k j)
    (eri1 (i * nao_pair + s.1.2)) w1.2
  ((w2.1, s.1.2 + 1), w2.2)

/-- Lines 242-252 with their accesses recorded. -/
def get_jk_unpack_row_acc {R : Type} (blksize nao : Nat) (eri1 : Mem R) (off2 i : Nat)
    (buf_tmp : Mem R) (log : List Access) : (Mem R × Nat) × List Access :=
  forLoop nao (fun j s => forLoop (j + 1) (fun k s =>
    get_jk_unpack_step_acc blksize nao eri1 off2 i j k s) s) ((buf_tmp, 0), log)

/-- Lines 235-254 with their accesses recorded. -/
def get_jk_unpack_acc {R : Type} (blksize naux nao : Nat) (eri1 : Mem R) (buf_tmp : Mem R)
    (log : List Access) : Mem R × List Access :=
  let off2 := blksize * nao * nao
  forLoop naux (fun i s =>
    let r := get_jk_unpack_row_acc blksize nao eri1 off2 i s.1 s.2
    (r.1.1, r.2)) (buf_tmp, log)

/-- Lines 267-274 with their accesses recorded: `da_buf3(k,i,j) = da_buf1(i,j,k)`, a load from
`buf_tmp` and a store to `buf3`. -/
def get_jk_permute_acc {R : Type} (naux nao : Nat) (buf_tmp buf3 : Mem R) (log : List Access) :
    Mem R × List Access :=
  forLoop naux (fun i s => forLoop nao (fun j s => forLoop nao (fun k s =>
    let v := loadAcc Scratch.buf_tmp buf_tmp (DevArray3D naux nao nao i j k) s.2
    storeAcc Scratch.buf3 s.1 (DevArray3D nao naux nao k i j) v.1 v.2) s) s) (buf3, log)

/-- Lines 202-337 with the accesses to `buf_tmp`, `buf3` and `buf_fdrv` recorded: iteration
`indxK` of the loop over the density matrices. The record starts empty; accesses to the caller's
arrays and to the device blocks are not recorded. -/
def get_jk_iterK_acc {R : Type} [CommRing R] (tid : Nat → Nat) (naux nao nset : Nat)
    (eri1 : Mem R) (_dms_list : Nat → Mem R) (count : Int) (indxK : Nat)
    (st : Device R × Mem R) : (Device R × Mem R) × List Access :=
  let d := st.1
  let vk := st.2
  let orbs_slice : Nat → Nat := fun t => if t = 1 ∨ t = 3 then nao else 0
  let dms := _dms_list indxK
  let r := fdrv_acc tid Scratch.buf_tmp d.buf_tmp.mem eri1 dms naux nao orbs_slice
    d.buf_fdrv.mem []
  let blksize := d.blksize.toNat
  let off2 := blksize * nao * nao
  let u := get_jk_unpack_acc blksize naux nao eri1 r.1.1 r.2
  let buf_tmp := u.1
  let p := get_jk_permute_acc naux nao buf_tmp d.buf3.mem u.2
  let buf3 := p.1
  let alpha : R := 1
  let beta : R := if count = 0 then 0 else 1
  let m := nao
  let n := nao
  let k := naux * nao
  let lda := naux * nao
  let ldb := nao
  let ldc := nset * nao
  let vkk_off := indxK * nao
  let t2 := dev_push_acc Scratch.buf_tmp d.d_buf2.mem buf_tmp off2 (blksize * nao * nao * 8) p.2
  let t3 := dev_push_acc Scratch.buf3 d.d_buf3.mem buf3 0 (blksize * nao * nao * 8) t2.2
  let d_vkk := dev_push d.d_vkk.mem (fun t => vk (vkk_off + t)) (nset * nao * nao * 8)
  let d_vkk1 := cublasDgemm_NN m n k alpha t2.1 ldb t3.1 lda beta d_vkk ldc
  let vk1 := dev_pull d_vkk1 vk vkk_off (nset * nao * nao * 8)
  (({ d with buf_tmp := { d.buf_tmp with mem := buf_tmp },
             buf_fdrv := { d.buf_fdrv with mem := r.1.2 },
             buf3 := { d.buf3 with mem := buf3 },
             d_buf2 := { d.d_buf2 with mem := t2.1 },
             d_buf3 := { d.d_buf3 with mem := t3.1 },
             d_vkk := { d.d_vkk with mem := d_vkk1 } },
    vk1), t3.2)

/-! ## Loops and index arithmetic -/

theorem forLoop_succ {σ : Type} (n : Nat) (body : Nat → σ → σ) (s : σ) :
    forLoop (n + 1) body s = body n (forLoop n body s) := rfl

theorem forLoop_sum {R : Type} [CommRing R] (n : Nat) (f : Nat → R) :
    forLoop n (fun k val => val + f k) 0 = ∑ k in Finset.range n, f k := by
  induction n with
  | zero => simp [forLoop]
  | succ n ih => rw [forLoop_succ, ih, Finset.sum_range_succ]

theorem forLoop_proj_frame {σ α : Type} (π : σ → α) (n : Nat) (body : Nat → σ → σ) (s0 : σ)
    (h : ∀ j, j < n → ∀ s, π (body j s) = π s) : π (forLoop n body s0) = π s0 := by
  induction n with
  | zero => rfl
  | succ n ih =>
    rw [forLoop_succ, h n (Nat.lt_succ_self n)]
    exact ih (fun j hj s => h j (Nat.lt_succ_of_lt hj) s)

theorem forLoop_proj_at {σ α : Type} (π : σ → α) (n : Nat) (body : Nat → σ → σ) (s0 : σ)
    (i : Nat) (hi : i < n) (h : ∀ j, i < j → j < n → ∀ s, π (body j s) = π s) :
    π (forLoop n body s0) = π (body i (forLoop i body s0)) := by
  induction n with
  | zero => omega
  | succ n ih =>
    rw [forLoop_succ]
    rcases Nat.lt_or_ge i n with hlt | hge
    · rw [h n hlt (Nat.lt_succ_self n)]
      exact ih hlt (fun j hij hj s => h j hij (Nat.lt_succ_of_lt hj) s)
    · have : i = n := by omega
      subst this; rfl

theorem idx2_inj {d i j i' j' : Nat} (hj : j < d) (hj' : j' < d)
    (h : i * d + j = i' * d + j') : i = i' ∧ j = j' := by
  have h1 : (i * d + j) / d = i := by
    rw [Nat.add_comm, Nat.add_mul_div_right _ _ (by omega), Nat.div_eq_of_lt hj, Nat.zero_add]
  have h2 : (i' * d + j') / d = i' := by
    rw [Nat.add_comm, Nat.add_mul_div_right _ _ (by omega), Nat.div_eq_of_lt hj', Nat.zero_add]
  have hi : i = i' := by rw [← h1, ← h2, h]
  subst hi
  exact ⟨rfl, by omega⟩

theorem store_same {R : Type} (p : Mem R) (i : Nat) (v : R) : store p i v i = v := by
  simp [store]

theorem store_other {R : Type} (p : Mem R) (i j : Nat) (v : R) (h : j ≠ i) :
    store p i v j = p j := by
  simp [store, h]

/-- Closed form of the first contraction. -/
theorem get_jk_rho_at {R : Type} [CommRing R] (naux nao nset : Nat) (eri1 dmtril rho : Mem R)
    (s i : Nat) (hs : s < nset) (hi : i < naux) :
    get_jk_rho naux nao nset eri1 dmtril rho (s * naux + i)
      = ∑ p in Finset.range (nao * (nao + 1) / 2),
          dmtril (s * (nao * (nao + 1) / 2) + p) * eri1 (i * (nao * (nao + 1) / 2) + p) := by
  unfold get_jk_rho
  simp only [DevArray2D]
  rw [forLoop_proj_at (fun m : Mem R => m (s * naux + i)) nset _ _ s hs]
  · rw [forLoop_proj_at (fun m : Mem R => m (s * naux + i)) naux _ _ i hi]
    · simp only [store_same, forLoop_sum]
    · intro j hij hj m
      rw [store_other]
      omega
  · intro s' hss' hs' m
    apply forLoop_proj_frame (fun m : Mem R => m (s * naux + i))
    intro j hj m'
    rw [store_other]
    intro h
    have := idx2_inj hi hj h
    omega

/-! ## Phase J -/

/-- Closed form of the second contraction: the value is added to what `vj` held. -/
theorem get_jk_vj_at {R : Type} [CommRing R] (naux nao nset : Nat) (eri1 rho vj : Mem R)
    (s p : Nat) (hs : s < nset) (hp : p < nao * (nao + 1) / 2) :
    get_jk_vj naux nao nset eri1 rho vj (s * (nao * (nao + 1) / 2) + p)
      = vj (s * (nao * (nao + 1) / 2) + p)
        + ∑ k in Finset.range naux, rho (s * naux + k) * eri1 (k * (nao * (nao + 1) / 2) + p) := by
  unfold get_jk_vj
  simp only [DevArray2D]
  have hrow : ∀ (s' : Nat) (m : Mem R), s' ≠ s →
      forLoop (nao * (nao + 1) / 2) (fun j vj => store vj (s' * (nao * (nao + 1) / 2) + j)
        (vj (s' * (nao * (nao + 1) / 2) + j)
          + forLoop naux (fun k val => val + rho (s' * naux + k)
              * eri1 (k * (nao * (nao + 1) / 2) + j)) 0)) m (s * (nao * (nao + 1) / 2) + p)
        = m (s * (nao * (nao + 1) / 2) + p) := by
    intro s' m hne
    apply forLoop_proj_frame (fun m : Mem R => m (s * (nao * (nao + 1) / 2) + p))
    intro j hj m'
    rw [store_other]
    intro h
    have := idx2_inj hp hj h
    omega
  rw [forLoop_proj_at (fun m : Mem R => m (s * (nao * (nao + 1) / 2) + p)) nset _ _ s hs]
  · rw [forLoop_proj_at (fun m : Mem R => m (s * (nao * (nao + 1) / 2) + p)) _ _ _ p hp]
    · rw [store_same, forLoop_sum]
      congr 1
      rw [forLoop_proj_frame (fun m : Mem R => m (s * (nao * (nao + 1) / 2) + p))]
      · apply forLoop_proj_frame (fun m : Mem R => m (s * (nao * (nao + 1) / 2) + p))
        intro s' hs' m
        exact hrow s' m (by omega)
      · intro j hj m
        rw [store_other]
        omega
    · intro j hij hj m
      rw [store_other]
      omega
  · intro s' hss' hs' m
    exact hrow s' m (by omega)

theorem get_jk_iterK_rho {R : Type} [CommRing R] (tid : Nat → Nat) (naux nao nset : Nat)
    (eri1 : Mem R) (_dms_list : Nat → Mem R) (count : Int) (indxK : Nat)
    (st : Device R × Mem R) :
    (get_jk_iterK tid naux nao nset eri1 _dms_list count indxK st).1.rho = st.1.rho := rfl

theorem get_jk_iterK_blksize {R : Type} [CommRing R] (tid : Nat → Nat) (naux nao nset : Nat)
    (eri1 : Mem R) (_dms_list : Nat → Mem R) (count : Int) (indxK : Nat)
    (st : Device R × Mem R) :
    (get_jk_iterK tid naux nao nset eri1 _dms_list count indxK st).1.blksize = st.1.blksize := rfl

theorem get_jk_dev_rho {R : Type} [CommRing R] (d : Device R) (tid : Nat → Nat)
    (naux nao nset : Nat) (_eri1 _dmtril : PyArray R) (_dms_list : Nat → Mem R)
    (_vj _vk : PyArray R) (count : Int) :
    (get_jk d tid naux nao nset _eri1 _dmtril _dms_list _vj _vk count).dev.rho.mem
      = get_jk_rho naux nao nset _eri1.ptr _dmtril.ptr (get_jk_rho_alloc d _eri1 _dmtril).rho.mem := by
  unfold get_jk
  simp only
  rw [forLoop_proj_frame (fun st : Device R × Mem R => st.1.rho)]
  intro j _ s
  exact get_jk_iterK_rho tid naux nao nset _eri1.ptr _dms_list count j s

theorem get_jk_vj_eq {R : Type} [CommRing R] (d : Device R) (tid : Nat → Nat)
    (naux nao nset : Nat) (_eri1 _dmtril : PyArray R) (_dms_list : Nat → Mem R)
    (_vj _vk : PyArray R) (count : Int) :
    (get_jk d tid naux nao nset _eri1 _dmtril _dms_list _vj _vk count).vj
      = get_jk_vj naux nao nset _eri1.ptr
          (get_jk_rho naux nao nset _eri1.ptr _dmtril.ptr (get_jk_rho_alloc d _eri1 _dmtril).rho.mem)
          _vj.ptr := rfl

/-! ## Claims on Phase J -/

/-- C1: Phase J of `get_jk` builds `rho[s,i] = Σ_p DM_tril[s,p] * ERI[i,p]` and adds
`Σ_i rho[s,i] * ERI[i,p]` to what the caller's `VJ[s,p]` held before the call, for every shape,
every input and every initial `VJ` (row-major layouts, `P = N(N+1)/2`). -/
theorem get_jk_phaseJ_accumulates {R : Type} [CommRing R] (d : Device R) (tid : Nat → Nat)
    (naux nao nset : Nat) (_eri1 _dmtril : PyArray R) (_dms_list : Nat → Mem R)
    (_vj _vk : PyArray R) (count : Int) :
    (∀ s i, s < nset → i < naux →
      (get_jk d tid naux nao nset _eri1 _dmtril _dms_list _vj _vk count).dev.rho.mem (s * naux + i)
        = ∑ p in Finset.range (nao * (nao + 1) / 2),
            _dmtril.ptr (s * (nao * (nao + 1) / 2) + p)
              * _eri1.ptr (i * (nao * (nao + 1) / 2) + p)) ∧
    (∀ s p, s < nset → p < nao * (nao + 1) / 2 →
      (get_jk d tid naux nao nset _eri1 _dmtril _dms_list _vj _vk count).vj
          (s * (nao * (nao + 1) / 2) + p)
        = _vj.ptr (s * (nao * (nao + 1) / 2) + p)
          + ∑ i in Finset.range naux,
              (get_jk d tid naux nao nset _eri1 _dmtril _dms_list _vj _vk count).dev.rho.mem
                  (s * naux + i)
                * _eri1.ptr (i * (nao * (nao + 1) / 2) + p)) := by
  refine ⟨fun s i hs hi => ?_, fun s p hs hp => ?_⟩
  · rw [get_jk_dev_rho]
    exact get_jk_rho_at naux nao nset _ _ _ s i hs hi
  · rw [get_jk_vj_eq, get_jk_dev_rho]
    exact get_jk_vj_at naux nao nset _ _ _ s p hs hp

/-- C1, the scenario `S = 1, N = 2, n_aux = 1`, `ERI = [[1,0,1]]`, `DM_tril = [[2,0,2]]`, `VJ`
zero before the call: `rho = [[4]]` and `VJ = [[4,0,4]]`. -/
theorem get_jk_phaseJ_accumulates_witness :
    (get_jk (Device.empty ℤ 1) (fun _ => 0) 1 2 1 ⟨[1, 3], Mem.ofList [1, 0, 1]⟩
        ⟨[1, 3], Mem.ofList [2, 0, 2]⟩ (fun _ => Mem.ofList [2, 0, 0, 2])
        ⟨[1, 3], Mem.ofList [0, 0, 0]⟩ ⟨[1, 2, 2], Mem.ofList [0, 0, 0, 0]⟩ 0).dev.rho.mem 0 = 4 ∧
    (get_jk (Device.empty ℤ 1) (fun _ => 0) 1 2 1 ⟨[1, 3], Mem.ofList [1, 0, 1]⟩
        ⟨[1, 3], Mem.ofList [2, 0, 2]⟩ (fun _ => Mem.ofList [2, 0, 0, 2])
        ⟨[1, 3], Mem.ofList [0, 0, 0]⟩ ⟨[1, 2, 2], Mem.ofList [0, 0, 0, 0]⟩ 0).vj 0 = 4 ∧
    (get_jk (Device.empty ℤ 1) (fun _ => 0) 1 2 1 ⟨[1, 3], Mem.ofList [1, 0, 1]⟩
        ⟨[1, 3], Mem.ofList [2, 0, 2]⟩ (fun _ => Mem.ofList [2, 0, 0, 2])
        ⟨[1, 3], Mem.ofList [0, 0, 0]⟩ ⟨[1, 2, 2], Mem.ofList [0, 0, 0, 0]⟩ 0).vj 1 = 0 ∧
    (get_jk (Device.empty ℤ 1) (fun _ => 0) 1 2 1 ⟨[1, 3], Mem.ofList [1, 0, 1]⟩
        ⟨[1, 3], Mem.ofList [2, 0, 2]⟩ (fun _ => Mem.ofList [2, 0, 0, 2])
        ⟨[1, 3], Mem.ofList [0, 0, 0]⟩ ⟨[1, 2, 2], Mem.ofList [0, 0, 0, 0]⟩ 0).vj 2 = 4 := by
  have h := get_jk_phaseJ_accumulates (Device.empty ℤ 1) (fun _ => 0) 1 2 1
    ⟨[1, 3], Mem.ofList [1, 0, 1]⟩ ⟨[1, 3], Mem.ofList [2, 0, 2]⟩ (fun _ => Mem.ofList [2, 0, 0, 2])
    ⟨[1, 3], Mem.ofList [0, 0, 0]⟩ ⟨[1, 2, 2], Mem.ofList [0, 0, 0, 0]⟩ 0
  have hr := h.1 0 0 (by decide) (by decide)
  have h0 := h.2 0 0 (by decide) (by decide)
  have h1 := h.2 0 1 (by decide) (by decide)
  have h2 := h.2 0 2 (by decide) (by decide)
  simp only [Nat.zero_mul, Nat.zero_add] at hr
  have hr4 : (get_jk (Device.empty ℤ 1) (fun _ => 0) 1 2 1 ⟨[1, 3], Mem.ofList [1, 0, 1]⟩
        ⟨[1, 3], Mem.ofList [2, 0, 2]⟩ (fun _ => Mem.ofList [2, 0, 0, 2])
        ⟨[1, 3], Mem.ofList [0, 0, 0]⟩ ⟨[1, 2, 2], Mem.ofList [0, 0, 0, 0]⟩ 0).dev.rho.mem 0 = 4 := by
    rw [hr]; simp [Finset.sum_range_succ, Mem.ofList]
  simp only [Finset.sum_range_one, Nat.zero_mul, Nat.zero_add, hr4] at h0 h1 h2
  refine ⟨hr4, ?_, ?_, ?_⟩
  · rw [h0]; simp [Mem.ofList]
  · rw [h1]; simp [Mem.ofList]
  · rw [h2]; simp [Mem.ofList]

/-- C3 as stated fails: with `S = 1, N = 1, n_aux = 1`, `ERI = [[1]]`, `DM_tril = [[1]]` and a
caller `VJ = [[5]]`, `init_get_jk` followed by `get_jk` leaves `VJ = [[6]]`, while the oracle
`Σ_i ERI[i,p] * Σ_q DM_tril[s,q] * ERI[i,q]` is `1`. -/
theorem get_jk_vj_oracle_counterexample :
    (get_jk (init_get_jk (Device.empty ℤ 1) ⟨[1, 1], Mem.ofList [1]⟩ ⟨[1, 1], Mem.ofList [1]⟩ 1 1 1)
        (fun _ => 0) 1 1 1 ⟨[1, 1], Mem.ofList [1]⟩ ⟨[1, 1], Mem.ofList [1]⟩
        (fun _ => Mem.ofList [1]) ⟨[1, 1], Mem.ofList [5]⟩ ⟨[1, 1, 1], Mem.ofList [0]⟩ 0).vj 0 = 6 ∧
    (∑ i in Finset.range 1, (Mem.ofList [1] : Mem ℤ) (i * 1 + 0)
        * ∑ q in Finset.range 1, (Mem.ofList [1] : Mem ℤ) (0 * 1 + q)
            * (Mem.ofList [1] : Mem ℤ) (i * 1 + q)) = 1 := by
  constructor
  · rw [get_jk_vj_eq]
    have h := get_jk_vj_at (R := ℤ) 1 1 1 (Mem.ofList [1])
      (get_jk_rho 1 1 1 (Mem.ofList [1]) (Mem.ofList [1])
        (get_jk_rho_alloc (init_get_jk (Device.empty ℤ 1) ⟨[1, 1], Mem.ofList [1]⟩
          ⟨[1, 1], Mem.ofList [1]⟩ 1 1 1) ⟨[1, 1], Mem.ofList [1]⟩
          ⟨[1, 1], Mem.ofList [1]⟩).rho.mem)
      (Mem.ofList [5]) 0 0 (by decide) (by decide)
    have hr := get_jk_rho_at (R := ℤ) 1 1 1 (Mem.ofList [1]) (Mem.ofList [1])
        (get_jk_rho_alloc (init_get_jk (Device.empty ℤ 1) ⟨[1, 1], Mem.ofList [1]⟩
          ⟨[1, 1], Mem.ofList [1]⟩ 1 1 1) ⟨[1, 1], Mem.ofList [1]⟩
          ⟨[1, 1], Mem.ofList [1]⟩).rho.mem 0 0 (by decide) (by decide)
    simp only [Nat.zero_mul, Nat.zero_add, Finset.sum_range_one, Nat.reduceMul, Nat.reduceAdd,
      Nat.reduceDiv] at h hr
    rw [hr] at h
    simp only [Mem.ofList] at h
    simpa using h
  · simp [Mem.ofList]

/-- C3 as amended: after `init_get_jk` followed by one `get_jk` the caller's array holds what it
held before the call plus the oracle,
`VJ[s,p] = VJ_before[s,p] + Σ_i ERI[i,p] * Σ_q DM_tril[s,q] * ERI[i,q]`; `init_get_jk` zeroes the
device object's own `vj` scratch, not the array passed to `get_jk`. -/
theorem get_jk_vj_oracle_plus_before {R : Type} [CommRing R] (d : Device R) (tid : Nat → Nat)
    (naux nao nset : Nat) (_blksize : Int) (_eri1 _dmtril : PyArray R) (_dms_list : Nat → Mem R)
    (_vj _vk : PyArray R) (count : Int) (s p : Nat) (hs : s < nset)
    (hp : p < nao * (nao + 1) / 2) :
    (get_jk (init_get_jk d _eri1 _dmtril _blksize nset nao) tid naux nao nset _eri1 _dmtril
        _dms_list _vj _vk count).vj (s * (nao * (nao + 1) / 2) + p)
      = _vj.ptr (s * (nao * (nao + 1) / 2) + p)
        + ∑ i in Finset.range naux, _eri1.ptr (i * (nao * (nao + 1) / 2) + p)
            * ∑ q in Finset.range (nao * (nao + 1) / 2),
                _dmtril.ptr (s * (nao * (nao + 1) / 2) + q)
                  * _eri1.ptr (i * (nao * (nao + 1) / 2) + q) := by
  rw [get_jk_vj_eq, get_jk_vj_at naux nao nset _ _ _ s p hs hp]
  congr 1
  apply Finset.sum_congr rfl
  intro i hi
  rw [get_jk_rho_at naux nao nset _ _ _ s i hs (Finset.mem_range.mp hi), mul_comm]

/-- C3 as amended, at `S = 1, N = 1, n_aux = 1` with `VJ = [[5]]` before the call. -/
theorem get_jk_vj_oracle_plus_before_witness :
    (0 < 1 ∧ 0 < 1 * (1 + 1) / 2) ∧
    (get_jk (init_get_jk (Device.empty ℤ 1) ⟨[1, 1], Mem.ofList [1]⟩ ⟨[1, 1], Mem.ofList [1]⟩ 1
          ((1 : Nat) : Int) ((1 : Nat) : Int))
        (fun _ => 0) 1 1 1 ⟨[1, 1], Mem.ofList [1]⟩ ⟨[1, 1], Mem.ofList [1]⟩
        (fun _ => Mem.ofList [1]) ⟨[1, 1], Mem.ofList [5]⟩ ⟨[1, 1, 1], Mem.ofList [0]⟩ 0).vj
        (0 * (1 * (1 + 1) / 2) + 0)
      = (Mem.ofList [5] : Mem ℤ) (0 * (1 * (1 + 1) / 2) + 0)
        + ∑ i in Finset.range 1, (Mem.ofList [1] : Mem ℤ) (i * (1 * (1 + 1) / 2) + 0)
            * ∑ q in Finset.range (1 * (1 + 1) / 2),
                (Mem.ofList [1] : Mem ℤ) (0 * (1 * (1 + 1) / 2) + q)
                  * (Mem.ofList [1] : Mem ℤ) (i * (1 * (1 + 1) / 2) + q) :=
  ⟨⟨by decide, by decide⟩,
   get_jk_vj_oracle_plus_before (Device.empty ℤ 1) (fun _ => 0) 1 1 1 1 ⟨[1, 1], Mem.ofList [1]⟩
     ⟨[1, 1], Mem.ofList [1]⟩ (fun _ => Mem.ofList [1]) ⟨[1, 1], Mem.ofList [5]⟩
     ⟨[1, 1, 1], Mem.ofList [0]⟩ 0 0 0 (by decide) (by decide)⟩

theorem tri_succ (n : Nat) : (n + 1) * (n + 1 + 1) / 2 = n * (n + 1) / 2 + (n + 1) := by
  have h : (n + 1) * (n + 1 + 1) = n * (n + 1) + 2 * (n + 1) := by ring
  rw [h, Nat.add_mul_div_left _ _ (by decide : 0 < 2)]

theorem idx3_inj {d i j k i' j' k' : Nat} (hj : j < d) (hj' : j' < d) (hk : k < d) (hk' : k' < d)
    (h : (i * d + j) * d + k = (i' * d + j') * d + k') : i = i' ∧ j = j' ∧ k = k' := by
  have h1 := idx2_inj hk hk' h
  have h2 := idx2_inj hj hj' h1.1
  exact ⟨h2.1, h2.2, h1.2⟩

/-- Loop nest `for j < n, for k ≤ j`: the last step that can touch what `π` observes. -/
theorem triLoop_at {σ α : Type} (π : σ → α) (n : Nat) (step : Nat → Nat → σ → σ) (s0 : σ)
    (a b : Nat) (ha : a < n) (hb : b ≤ a)
    (h : ∀ j k s, j < n → k ≤ j → (a < j ∨ (j = a ∧ b < k)) → π (step j k s) = π s) :
    π (forLoop n (fun j s => forLoop (j + 1) (fun k s => step j k s) s) s0)
      = π (step a b (forLoop b (fun k s => step a k s)
          (forLoop a (fun j s => forLoop (j + 1) (fun k s => step j k s) s) s0))) := by
  rw [forLoop_proj_at π n _ s0 a ha]
  · rw [forLoop_proj_at π (a + 1) _ _ b (by omega)]
    intro k hbk hk s
    exact h a k s ha (by omega) (Or.inr ⟨rfl, hbk⟩)
  · intro j haj hj s
    apply forLoop_proj_frame π
    intro k hk s'
    exact h j k s' hj (by omega) (Or.inl haj)

/-- Loop nest `for j < n, for k ≤ j`: what no step touches is kept. -/
theorem triLoop_frame {σ α : Type} (π : σ → α) (n : Nat) (step : Nat → Nat → σ → σ) (s0 : σ)
    (h : ∀ j k s, j < n → k ≤ j → π (step j k s) = π s) :
    π (forLoop n (fun j s => forLoop (j + 1) (fun k s => step j k s) s) s0) = π s0 := by
  apply forLoop_proj_frame π
  intro j hj s
  apply forLoop_proj_frame π
  intro k hk s'
  exact h j k s' hj (by omega)

/-- Loop nest `for j < n, for k ≤ j` with a counter incremented at every step. -/
theorem triLoop_counter {σ : Type} (c : σ → Nat) (step : Nat → Nat → σ → σ)
    (hc : ∀ j k s, c (step j k s) = c s + 1) (s0 : σ) (a b : Nat) :
    c (forLoop b (fun k s => step a k s)
        (forLoop a (fun j s => forLoop (j + 1) (fun k s => step j k s) s) s0))
      = c s0 + (a * (a + 1) / 2 + b) := by
  have hin : ∀ (j n : Nat) (s : σ), c (forLoop n (fun k s => step j k s) s) = c s + n := by
    intro j n s
    induction n with
    | zero => rfl
    | succ n ih => rw [forLoop_succ, hc, ih]; omega
  have hout : ∀ (n : Nat), c (forLoop n (fun j s => forLoop (j + 1) (fun k s => step j k s) s) s0)
      = c s0 + n * (n + 1) / 2 := by
    intro n
    induction n with
    | zero => simp [forLoop]
    | succ n ih => rw [forLoop_succ, hin, ih, tri_succ]; omega
  rw [hin, hout]; omega

/-! ## Unpack of the packed tensor -/

theorem get_jk_unpack_step_counter {R : Type} (blksize nao : Nat) (eri1 : Mem R) (off2 i j k : Nat)
    (s : Mem R × Nat) : (get_jk_unpack_step blksize nao eri1 off2 i j k s).2 = s.2 + 1 := rfl

theorem get_jk_unpack_step_frame {R : Type} (blksize nao : Nat) (eri1 : Mem R)
    (off2 i j k off : Nat) (s : Mem R × Nat)
    (h1 : off ≠ off2 + ((i * nao + j) * nao + k)) (h2 : off ≠ off2 + ((i * nao + k) * nao + j)) :
    (get_jk_unpack_step blksize nao eri1 off2 i j k s).1 off = s.1 off := by
  simp only [get_jk_unpack_step, DevArray3D]
  rw [store_other _ _ _ _ h2, store_other _ _ _ _ h1]

theorem get_jk_unpack_step_lower {R : Type} (blksize nao : Nat) (eri1 : Mem R)
    (off2 i j k : Nat) (s : Mem R × Nat) :
    (get_jk_unpack_step blksize nao eri1 off2 i j k s).1 (off2 + ((i * nao + j) * nao + k))
      = eri1 (i * (nao * (nao + 1) / 2) + s.2) := by
  simp only [get_jk_unpack_step, DevArray3D]
  by_cases heq : off2 + ((i * nao + j) * nao + k) = off2 + ((i * nao + k) * nao + j)
  · rw [heq, store_same]
  · rw [store_other _ _ _ _ heq, store_same]

theorem get_jk_unpack_step_upper {R : Type} (blksize nao : Nat) (eri1 : Mem R)
    (off2 i j k : Nat) (s : Mem R × Nat) :
    (get_jk_unpack_step blksize nao eri1 off2 i j k s).1 (off2 + ((i * nao + k) * nao + j))
      = eri1 (i * (nao * (nao + 1) / 2) + s.2) := by
  simp only [get_jk_unpack_step, DevArray3D]
  rw [store_same]

/-- One packed row unpacked: both triangle entries of the pair `(a, b)`, `b ≤ a`. -/
theorem get_jk_unpack_row_at {R : Type} (blksize nao : Nat) (eri1 : Mem R) (off2 i : Nat)
    (p : Mem R) (a b : Nat) (ha : a < nao) (hb : b ≤ a) :
    (get_jk_unpack_row blksize nao eri1 off2 i p).1 (off2 + ((i * nao + a) * nao + b))
        = eri1 (i * (nao * (nao + 1) / 2) + (a * (a + 1) / 2 + b)) ∧
    (get_jk_unpack_row blksize nao eri1 off2 i p).1 (off2 + ((i * nao + b) * nao + a))
        = eri1 (i * (nao * (nao + 1) / 2) + (a * (a + 1) / 2 + b)) := by
  have hcnt := triLoop_counter (fun s : Mem R × Nat => s.2)
    (get_jk_unpack_step blksize nao eri1 off2 i)
    (get_jk_unpack_step_counter blksize nao eri1 off2 i) (p, 0) a b
  simp only [Nat.zero_add] at hcnt
  constructor
  · unfold get_jk_unpack_row
    rw [triLoop_at (fun s : Mem R × Nat => s.1 (off2 + ((i * nao + a) * nao + b))) nao
      (get_jk_unpack_step blksize nao eri1 off2 i) (p, 0) a b ha hb]
    · rw [get_jk_unpack_step_lower, hcnt]
    · intro j k s hj hk hlater
      apply get_jk_unpack_step_frame
      · intro h
        have := idx3_inj (d := nao) ha hj (by omega) (by omega) (Nat.add_left_cancel h)
        omega
      · intro h
        have := idx3_inj (d := nao) ha (by omega) (by omega) hj (Nat.add_left_cancel h)
        omega
  · unfold get_jk_unpack_row
    rw [triLoop_at (fun s : Mem R × Nat => s.1 (off2 + ((i * nao + b) * nao + a))) nao
      (get_jk_unpack_step blksize nao eri1 off2 i) (p, 0) a b ha hb]
    · rw [get_jk_unpack_step_upper, hcnt]
    · intro j k s hj hk hlater
      apply get_jk_unpack_step_frame
      · intro h
        have := idx3_inj (d := nao) (by omega) hj ha (by omega) (Nat.add_left_cancel h)
        omega
      · intro h
        have := idx3_inj (d := nao) (by omega) (by omega) ha hj (Nat.add_left_cancel h)
        omega

theorem get_jk_unpack_row_frame {R : Type} (blksize nao : Nat) (eri1 : Mem R) (off2 i : Nat)
    (p : Mem R) (off : Nat)
    (h : ∀ j k, j < nao → k < nao → off ≠ off2 + ((i * nao + j) * nao + k)) :
    (get_jk_unpack_row blksize nao eri1 off2 i p).1 off = p off := by
  unfold get_jk_unpack_row
  rw [triLoop_frame (fun s : Mem R × Nat => s.1 off) nao
    (get_jk_unpack_step blksize nao eri1 off2 i) (p, 0)]
  intro j k s hj hk
  exact get_jk_unpack_step_frame blksize nao eri1 off2 i j k off s
    (h j k hj (by omega)) (h k j (by omega) hj)

/-- Closed form of the unpack loop: slab `i` of `buf2` holds the symmetric unpack of row `i`. -/
theorem get_jk_unpack_at {R : Type} (blksize naux nao : Nat) (eri1 p : Mem R) (i a b : Nat)
    (hi : i < naux) (ha : a < nao) (hb : b < nao) :
    get_jk_unpack blksize naux nao eri1 p (blksize * nao * nao + ((i * nao + a) * nao + b))
      = unpackSym eri1 (nao * (nao + 1) / 2) i a b := by
  unfold get_jk_unpack
  rw [forLoop_proj_at (fun m : Mem R => m (blksize * nao * nao + ((i * nao + a) * nao + b)))
    naux _ p i hi]
  · unfold unpackSym pairIndex
    by_cases hab : b ≤ a
    · rw [if_pos hab]
      exact (get_jk_unpack_row_at blksize nao eri1 _ i _ a b ha hab).1
    · rw [if_neg hab]
      exact (get_jk_unpack_row_at blksize nao eri1 _ i _ b a hb (by omega)).2
  · intro i' hii' hi' m
    apply get_jk_unpack_row_frame
    intro j k hj hk h
    have := idx3_inj (d := nao) ha hj hb hk (Nat.add_left_cancel h)
    omega

/-- The unpack loop writes only at or above `buf2 = buf_tmp + blksize * nao * nao`. -/
theorem get_jk_unpack_below {R : Type} (blksize naux nao : Nat) (eri1 p : Mem R) (off : Nat)
    (h : off < blksize * nao * nao) :
    get_jk_unpack blksize naux nao eri1 p off = p off := by
  unfold get_jk_unpack
  apply forLoop_proj_frame (fun m : Mem R => m off)
  intro i _ m
  apply get_jk_unpack_row_frame
  intro j k _ _
  omega


/-- C6: unpack round-trip. If row `i` of `ERI` holds the packing
`ERI[i, a(a+1)/2 + b] = M[a,b]` (`b ≤ a < N`) of a symmetric matrix `M`, the unpack loop of
`get_jk` leaves `buf2[i, a, b] = M[a, b]` for all `a, b < N`, and the running counter `indx`
equals `a(a+1)/2 + b` when the loop reaches position `(a, b)`. -/
theorem get_jk_unpack_roundtrip {R : Type} (blksize naux nao : Nat) (eri1 p : Mem R)
    (M : Nat → Nat → R) (i : Nat) (hi : i < naux)
    (hsym : ∀ a b, a < nao → b < nao → M a b = M b a)
    (hpack : ∀ a b, a < nao → b ≤ a →
      eri1 (i * (nao * (nao + 1) / 2) + (a * (a + 1) / 2 + b)) = M a b) :
    (∀ a b, a < nao → b < nao →
      get_jk_unpack blksize naux nao eri1 p
        (blksize * nao * nao + DevArray3D blksize nao nao i a b) = M a b) ∧
    (∀ a b (q : Mem R), a < nao → b ≤ a →
      (forLoop b (fun k s => get_jk_unpack_step blksize nao eri1 (blksize * nao * nao) i a k s)
        (forLoop a (fun j s => forLoop (j + 1) (fun k s =>
          get_jk_unpack_step blksize nao eri1 (blksize * nao * nao) i j k s) s) (q, 0))).2
        = a * (a + 1) / 2 + b) := by
  constructor
  · intro a b ha hb
    simp only [DevArray3D]
    rw [get_jk_unpack_at blksize naux nao eri1 p i a b hi ha hb]
    unfold unpackSym pairIndex
    by_cases hab : b ≤ a
    · rw [if_pos hab]; exact hpack a b ha hab
    · rw [if_neg hab, hpack b a hb (by omega)]; exact hsym b a hb ha
  · intro a b q _ _
    have hcnt := triLoop_counter (fun s : Mem R × Nat => s.2)
      (get_jk_unpack_step blksize nao eri1 (blksize * nao * nao) i)
      (get_jk_unpack_step_counter blksize nao eri1 (blksize * nao * nao) i) (q, 0) a b
    simp only [Nat.zero_add] at hcnt
    exact hcnt

/-- C6 at `N = 2`, `M = [[0,1],[1,2]]` packed as `[0,1,2]`, one auxiliary row, `B = 1`. -/
theorem get_jk_unpack_roundtrip_witness :
    (∀ a b, a < 2 → b < 2 →
      get_jk_unpack 1 1 2 (Mem.ofList [0, 1, 2]) (fun _ => (7 : ℤ))
        (1 * 2 * 2 + DevArray3D 1 2 2 0 a b) = ((a + b : Nat) : ℤ)) ∧
    (∀ a b (q : Mem ℤ), a < 2 → b ≤ a →
      (forLoop b (fun k s => get_jk_unpack_step 1 2 (Mem.ofList [0, 1, 2]) (1 * 2 * 2) 0 a k s)
        (forLoop a (fun j s => forLoop (j + 1) (fun k s =>
          get_jk_unpack_step 1 2 (Mem.ofList [0, 1, 2]) (1 * 2 * 2) 0 j k s) s) (q, 0))).2
        = a * (a + 1) / 2 + b) :=
  get_jk_unpack_roundtrip 1 1 2 (Mem.ofList [0, 1, 2]) (fun _ => (7 : ℤ))
    (fun a b => ((a + b : Nat) : ℤ)) 0 (by decide)
    (by intro a b _ _; show ((a + b : Nat) : ℤ) = ((b + a : Nat) : ℤ); rw [Nat.add_comm])
    (by
      intro a b ha hb
      have hb2 : b < 2 := by omega
      interval_cases a <;> interval_cases b <;> simp [Mem.ofList])

/-! ## BLAS closed forms -/

theorem pairIndex_comm (a b : Nat) : pairIndex a b = pairIndex b a := by
  unfold pairIndex
  by_cases h1 : b ≤ a <;> by_cases h2 : a ≤ b
  · have : a = b := by omega
    subst this; rfl
  · rw [if_pos h1, if_neg h2]
  · rw [if_neg h1, if_pos h2]
  · omega

theorem unpackSym_comm {R : Type} (packed : Mem R) (P i a b : Nat) :
    unpackSym packed P i a b = unpackSym packed P i b a := by
  unfold unpackSym; rw [pairIndex_comm]

theorem mul_add_lt {d n r c : Nat} (hr : r < d) (hc : c < n) : c * d + r < n * d := by
  have h1 : (c + 1) * d ≤ n * d := Nat.mul_le_mul_right d hc
  have h2 : (c + 1) * d = c * d + d := by ring
  omega

/-- Column-by-column sweep of an `m x n` block that updates each cell from its own old value. -/
theorem colLoop_at {R : Type} (m n : Nat) (pos : Nat → Nat → Nat) (val : Nat → Nat → R → R)
    (C0 : Mem R) (r c : Nat) (hr : r < m) (hc : c < n)
    (hinj : ∀ i j, i < m → j < n → pos r c = pos i j → i = r ∧ j = c) :
    forLoop n (fun j C => forLoop m (fun i C => store C (pos i j) (val i j (C (pos i j)))) C) C0
        (pos r c)
      = val r c (C0 (pos r c)) := by
  have hcol : ∀ (j k : Nat) (C : Mem R), j < n → k ≤ m → j ≠ c ∨ k ≤ r →
      forLoop k (fun i C => store C (pos i j) (val i j (C (pos i j)))) C (pos r c)
        = C (pos r c) := by
    intro j k C hj hk hne
    apply forLoop_proj_frame (fun C : Mem R => C (pos r c))
    intro i hi C'
    rw [store_other]
    intro h
    have := hinj i j (by omega) hj h
    omega
  rw [forLoop_proj_at (fun C : Mem R => C (pos r c)) n _ C0 c hc]
  · rw [forLoop_proj_at (fun C : Mem R => C (pos r c)) m _ _ r hr]
    · rw [store_same]
      congr 1
      rw [hcol c r _ hc (by omega) (Or.inr (Nat.le_refl r))]
      apply forLoop_proj_frame (fun C : Mem R => C (pos r c))
      intro j hj C
      exact hcol j m C (by omega) (Nat.le_refl m) (Or.inl (by omega))
    · intro i hri hi C
      rw [store_other]
      intro h
      have := hinj i c hi hc h
      omega
  · intro j hcj hj C
    exact hcol j m C hj (Nat.le_refl m) (Or.inl (by omega))

theorem colLoop_frame {R : Type} (m n : Nat) (pos : Nat → Nat → Nat) (val : Nat → Nat → R → R)
    (C0 : Mem R) (off : Nat) (h : ∀ i j, i < m → j < n → off ≠ pos i j) :
    forLoop n (fun j C => forLoop m (fun i C => store C (pos i j) (val i j (C (pos i j)))) C) C0 off
      = C0 off := by
  apply forLoop_proj_frame (fun C : Mem R => C off)
  intro j hj C
  apply forLoop_proj_frame (fun C : Mem R => C off)
  intro i hi C'
  rw [store_other]
  exact h i j hi hj

theorem colmajor_inj {ldc m r c i j : Nat} (off : Nat) (hm : m ≤ ldc) (hr : r < m) (hi : i < m)
    (h : off + (r + c * ldc) = off + (i + j * ldc)) : i = r ∧ j = c := by
  have h1 : c * ldc + r = j * ldc + i := by omega
  have := idx2_inj (by omega : r < ldc) (by omega : i < ldc) h1
  omega

/-- Closed form of `dsymm_` (left, upper) on the cells of the output block. -/
theorem dsymm_LU_at {R : Type} [CommRing R] (m n : Nat) (alpha : R) (A : Mem R) (lda : Nat)
    (B : Mem R) (ldb : Nat) (beta : R) (c_base : Mem R) (c_off ldc : Nat) (hm : m ≤ ldc)
    (r c : Nat) (hr : r < m) (hc : c < n) :
    dsymm_LU m n alpha A lda B ldb beta c_base c_off ldc (c_off + (r + c * ldc))
      = alpha * (∑ t in Finset.range m,
            (if t ≤ r then A (t + r * lda) else A (r + t * lda)) * B (t + c * ldb))
        + beta * c_base (c_off + (r + c * ldc)) := by
  unfold dsymm_LU
  rw [colLoop_at m n (fun i j => c_off + (i + j * ldc))
    (fun i j x => alpha * forLoop m (fun t acc =>
        acc + (if t ≤ i then A (t + i * lda) else A (i + t * lda)) * B (t + j * ldb)) 0
      + beta * x) c_base r c hr hc]
  · rw [forLoop_sum]
  · intro i j hi _ h
    exact colmajor_inj c_off hm hr hi h

theorem dsymm_LU_frame {R : Type} [CommRing R] (m n : Nat) (alpha : R) (A : Mem R) (lda : Nat)
    (B : Mem R) (ldb : Nat) (beta : R) (c_base : Mem R) (c_off ldc : Nat) (off : Nat)
    (h : ∀ i j, i < m → j < n → off ≠ c_off + (i + j * ldc)) :
    dsymm_LU m n alpha A lda B ldb beta c_base c_off ldc off = c_base off := by
  unfold dsymm_LU
  exact colLoop_frame m n (fun i j => c_off + (i + j * ldc))
    (fun i j x => alpha * forLoop m (fun t acc =>
        acc + (if t ≤ i then A (t + i * lda) else A (i + t * lda)) * B (t + j * ldb)) 0
      + beta * x) c_base off h

/-- Closed form of `cublasDgemm` (no transposes) on the cells of the output block. -/
theorem cublasDgemm_NN_at {R : Type} [CommRing R] (m n k : Nat) (alpha : R) (A : Mem R)
    (lda : Nat) (B : Mem R) (ldb : Nat) (beta : R) (C : Mem R) (ldc : Nat) (hm : m ≤ ldc)
    (r c : Nat) (hr : r < m) (hc : c < n) :
    cublasDgemm_NN m n k alpha A lda B ldb beta C ldc (r + c * ldc)
      = alpha * (∑ l in Finset.range k, A (r + l * lda) * B (l + c * ldb))
        + beta * C (r + c * ldc) := by
  unfold cublasDgemm_NN
  rw [colLoop_at m n (fun i j => i + j * ldc)
    (fun i j x => alpha * forLoop k (fun l acc => acc + A (i + l * lda) * B (l + j * ldb)) 0
      + beta * x) C r c hr hc]
  · rw [forLoop_sum]
  · intro i j hi _ h
    exact colmajor_inj 0 hm hr hi (by omega)

theorem cublasDgemm_NN_frame {R : Type} [CommRing R] (m n k : Nat) (alpha : R) (A : Mem R)
    (lda : Nat) (B : Mem R) (ldb : Nat) (beta : R) (C : Mem R) (ldc : Nat) (off : Nat)
    (h : ∀ i j, i < m → j < n → off ≠ i + j * ldc) :
    cublasDgemm_NN m n k alpha A lda B ldb beta C ldc off = C off := by
  unfold cublasDgemm_NN
  exact colLoop_frame m n (fun i j => i + j * ldc)
    (fun i j x => alpha * forLoop k (fun l acc => acc + A (i + l * lda) * B (l + j * ldb)) 0
      + beta * x) C off h

/-! ## The transform driver `fdrv` -/

theorem fdrv_unpack_step_counter {R : Type} (vin : Mem R) (nao nao2 i b_off _i _j : Nat)
    (s : Mem R × Nat) : (fdrv_unpack_step vin nao nao2 i b_off _i _j s).2 = s.2 + 1 := rfl

theorem fdrv_unpack_step_same {R : Type} (vin : Mem R) (nao nao2 i b_off _i _j : Nat)
    (s : Mem R × Nat) :
    (fdrv_unpack_step vin nao nao2 i b_off _i _j s).1 (b_off + (_i * nao + _j))
      = vin (nao2 * i + s.2) := by
  simp only [fdrv_unpack_step]
  rw [store_same]

/-- The scratch of `fdrv` after the unpack: entry `(a, b)`, `b ≤ a`, of the packed row. -/
theorem fdrv_unpack_at {R : Type} (vin : Mem R) (nao nao2 i : Nat) (_buf : Mem R) (b_off : Nat)
    (a b : Nat) (ha : a < nao) (hb : b ≤ a) :
    (fdrv_unpack vin nao nao2 i _buf b_off).1 (b_off + (a * nao + b))
      = vin (nao2 * i + (a * (a + 1) / 2 + b)) := by
  have hcnt := triLoop_counter (fun s : Mem R × Nat => s.2)
    (fdrv_unpack_step vin nao nao2 i b_off)
    (fdrv_unpack_step_counter vin nao nao2 i b_off) (_buf, 0) a b
  simp only [Nat.zero_add] at hcnt
  unfold fdrv_unpack
  rw [triLoop_at (fun s : Mem R × Nat => s.1 (b_off + (a * nao + b))) nao
    (fdrv_unpack_step vin nao nao2 i b_off) (_buf, 0) a b ha hb]
  · rw [fdrv_unpack_step_same, hcnt]
  · intro j k s hj hk hlater
    simp only [fdrv_unpack_step]
    rw [store_other]
    intro h
    have := idx2_inj (d := nao) (by omega) (by omega) (Nat.add_left_cancel h)
    omega

/-- One iteration of `fdrv`: the slab written by the symmetric multiply. -/
theorem fdrv_iter_at {R : Type} [CommRing R] (vin mo_coeff : Mem R)
    (nao bra_start bra_count it i : Nat) (st : Mem R × Mem R) (r c : Nat) (hr : r < nao)
    (hc : c < bra_count) :
    (fdrv_iter vin mo_coeff nao bra_start bra_count it i st).1
        (bra_count * nao * i + (r + c * nao))
      = ∑ t in Finset.range nao,
          unpackSym vin (nao * (nao + 1) / 2) i r t * mo_coeff (bra_start * nao + (t + c * nao)) := by
  unfold fdrv_iter
  simp only
  rw [dsymm_LU_at nao bra_count 1 _ nao _ nao 0 st.1 _ nao (Nat.le_refl nao) r c hr hc]
  rw [one_mul, zero_mul, add_zero]
  apply Finset.sum_congr rfl
  intro t ht
  have htn : t < nao := Finset.mem_range.mp ht
  congr 1
  unfold unpackSym pairIndex
  rw [Nat.mul_comm i]
  by_cases htr : t ≤ r
  · rw [if_pos htr, if_pos htr, Nat.add_comm t (r * nao)]
    exact fdrv_unpack_at vin nao _ i st.2 _ r t hr htr
  · rw [if_neg htr, if_neg htr, Nat.add_comm r (t * nao)]
    exact fdrv_unpack_at vin nao _ i st.2 _ t r htn (by omega)

theorem fdrv_iter_frame {R : Type} [CommRing R] (vin mo_coeff : Mem R)
    (nao bra_start bra_count it i : Nat) (st : Mem R × Mem R) (off : Nat)
    (h : ∀ r c, r < nao → c < bra_count → off ≠ bra_count * nao * i + (r + c * nao)) :
    (fdrv_iter vin mo_coeff nao bra_start bra_count it i st).1 off = st.1 off := by
  unfold fdrv_iter
  simp only
  exact dsymm_LU_frame nao bra_count 1 _ nao _ nao 0 st.1 _ nao off h

/-- Closed form of `fdrv`: column-major cell `(r, c)` of slab `i` is `Σ_t S_i[r,t] * M[t,c]`,
with `S_i` the symmetric unpack of row `i` and `M[t,c] = mo_coeff[(bra_start + c) * nao + t]`. -/
theorem fdrv_at {R : Type} [CommRing R] (tid : Nat → Nat) (vout vin mo_coeff : Mem R)
    (nij nao : Nat) (orbs_slice : Nat → Nat) (_buf : Mem R) (i r c : Nat) (hi : i < nij)
    (hr : r < nao) (hc : c < orbs_slice 1 - orbs_slice 0) :
    (fdrv tid vout vin mo_coeff nij nao orbs_slice _buf).1
        ((orbs_slice 1 - orbs_slice 0) * nao * i + (r + c * nao))
      = ∑ t in Finset.range nao,
          unpackSym vin (nao * (nao + 1) / 2) i r t
            * mo_coeff (orbs_slice 0 * nao + (t + c * nao)) := by
  unfold fdrv
  simp only
  rw [forLoop_proj_at (fun st : Mem R × Mem R =>
    st.1 ((orbs_slice 1 - orbs_slice 0) * nao * i + (r + c * nao))) nij _ _ i hi]
  · exact fdrv_iter_at vin mo_coeff nao _ _ (tid i) i _ r c hr hc
  · intro i' hii' hi' st
    apply fdrv_iter_frame
    intro r' c' hr' hc' h
    have h1 : c * nao + r < (orbs_slice 1 - orbs_slice 0) * nao := mul_add_lt hr hc
    have h2 : c' * nao + r' < (orbs_slice 1 - orbs_slice 0) * nao := mul_add_lt hr' hc'
    have h3 : i * ((orbs_slice 1 - orbs_slice 0) * nao) + (c * nao + r)
        = i' * ((orbs_slice 1 - orbs_slice 0) * nao) + (c' * nao + r') := by
      rw [Nat.mul_comm i, Nat.mul_comm i']; omega
    have := idx2_inj h1 h2 h3
    omega


/-- C7: `fdrv` computes the per-auxiliary transform. With bra slice `i_start = orbs_slice[0]`,
`i_count = orbs_slice[1] - orbs_slice[0]`, slab `i` of the output starts at offset
`i * i_count * N` and holds, in row-major flat storage,
`out[i * i_count * N + a * N + b] = Σ_t C[i_start + a, t] * S_i[t, b]` for `a < i_count`, `b < N`,
where `S_i` is the symmetric unpack of `in[i, :]`; for the full-range slice `{0, N, 0, N}` this is
`out[i] = C * S_i`. -/
theorem fdrv_transform {R : Type} [CommRing R] (tid : Nat → Nat) (vout vin mo_coeff : Mem R)
    (nij nao : Nat) (orbs_slice : Nat → Nat) (_buf : Mem R) (i a b : Nat) (hi : i < nij)
    (ha : a < orbs_slice 1 - orbs_slice 0) (hb : b < nao) :
    (fdrv tid vout vin mo_coeff nij nao orbs_slice _buf).1
        (i * ((orbs_slice 1 - orbs_slice 0) * nao) + a * nao + b)
      = ∑ t in Finset.range nao,
          mo_coeff ((orbs_slice 0 + a) * nao + t) * unpackSym vin (nao * (nao + 1) / 2) i t b := by
  have hidx : i * ((orbs_slice 1 - orbs_slice 0) * nao) + a * nao + b
      = (orbs_slice 1 - orbs_slice 0) * nao * i + (b + a * nao) := by ring
  rw [hidx, fdrv_at tid vout vin mo_coeff nij nao orbs_slice _buf i b a hi hb ha]
  apply Finset.sum_congr rfl
  intro t _
  have ht : orbs_slice 0 * nao + (t + a * nao) = (orbs_slice 0 + a) * nao + t := by ring
  rw [ht, unpackSym_comm, mul_comm]

/-- C7 at `n_aux = 1`, `N = 2`, packed row `[1,1,0]` (so `S_0 = [[1,1],[1,0]]`),
`C = [[1,2],[3,4]]`, full-range slice: `out[0] = C * S_0 = [[3,1],[7,3]]`. -/
theorem fdrv_transform_witness :
    (fdrv (fun _ => 0) (fun _ => 0) (Mem.ofList [1, 1, 0]) (Mem.ofList [(1 : ℤ), 2, 3, 4]) 1 2
        (fun t => if t = 1 ∨ t = 3 then 2 else 0) (fun _ => 0)).1 0 = 3 ∧
    (fdrv (fun _ => 0) (fun _ => 0) (Mem.ofList [1, 1, 0]) (Mem.ofList [(1 : ℤ), 2, 3, 4]) 1 2
        (fun t => if t = 1 ∨ t = 3 then 2 else 0) (fun _ => 0)).1 1 = 1 ∧
    (fdrv (fun _ => 0) (fun _ => 0) (Mem.ofList [1, 1, 0]) (Mem.ofList [(1 : ℤ), 2, 3, 4]) 1 2
        (fun t => if t = 1 ∨ t = 3 then 2 else 0) (fun _ => 0)).1 2 = 7 ∧
    (fdrv (fun _ => 0) (fun _ => 0) (Mem.ofList [1, 1, 0]) (Mem.ofList [(1 : ℤ), 2, 3, 4]) 1 2
        (fun t => if t = 1 ∨ t = 3 then 2 else 0) (fun _ => 0)).1 3 = 3 := by
  have h := fun a b ha hb => fdrv_transform (fun _ => 0) (fun _ => 0) (Mem.ofList [1, 1, 0])
    (Mem.ofList [(1 : ℤ), 2, 3, 4]) 1 2 (fun t => if t = 1 ∨ t = 3 then 2 else 0) (fun _ => 0)
    0 a b (by decide) ha hb
  have h00 := h 0 0 (by decide) (by decide)
  have h01 := h 0 1 (by decide) (by decide)
  have h10 := h 1 0 (by decide) (by decide)
  have h11 := h 1 1 (by decide) (by decide)
  simp [Finset.sum_range_succ, unpackSym, pairIndex, Mem.ofList] at h00 h01 h10 h11
  exact ⟨h00, h01, h10, h11⟩

/-! ## Phase K -/

theorem sum_range_mul_split {R : Type} [CommRing R] (n m : Nat) (f : Nat → R) :
    ∑ l in Finset.range (n * m), f l
      = ∑ i in Finset.range n, ∑ j in Finset.range m, f (i * m + j) := by
  induction n with
  | zero => simp
  | succ n ih =>
    rw [Finset.sum_range_succ, ← ih, Nat.succ_mul, Finset.sum_range_add]

theorem idx3_lt {n d i j k : Nat} (hi : i < n) (hj : j < d) (hk : k < d) :
    (i * d + j) * d + k < n * d * d :=
  mul_add_lt hk (mul_add_lt hj hi)

/-- Closed form of the permutation `da_buf3(k,i,j) = da_buf1(i,j,k)`. -/
theorem get_jk_permute_at {R : Type} (naux nao : Nat) (buf_tmp buf3 : Mem R) (i j k : Nat)
    (hi : i < naux) (hj : j < nao) (hk : k < nao) :
    get_jk_permute naux nao buf_tmp buf3 ((k * naux + i) * nao + j)
      = buf_tmp ((i * nao + j) * nao + k) := by
  unfold get_jk_permute
  simp only [DevArray3D]
  have hne : ∀ (i' j' k' : Nat), i' < naux → j' < nao → (i', j', k') ≠ (i, j, k) →
      (k * naux + i) * nao + j ≠ (k' * naux + i') * nao + j' := by
    intro i' j' k' hi' hj' hne h
    have h1 := idx2_inj hj hj' h
    have h2 := idx2_inj hi hi' h1.1
    apply hne
    rw [h1.2, h2.1, h2.2]
  rw [forLoop_proj_at (fun m : Mem R => m ((k * naux + i) * nao + j)) naux _ _ i hi]
  · rw [forLoop_proj_at (fun m : Mem R => m ((k * naux + i) * nao + j)) nao _ _ j hj]
    · rw [forLoop_proj_at (fun m : Mem R => m ((k * naux + i) * nao + j)) nao _ _ k hk]
      · rw [store_same]
      · intro k' hkk' _ m
        rw [store_other]
        exact hne i j k' hi hj (by intro h; injection h with _ h; injection h with _ h; omega)
    · intro j' hjj' hj' m
      apply forLoop_proj_frame (fun m : Mem R => m ((k * naux + i) * nao + j))
      intro k' _ m'
      rw [store_other]
      exact hne i j' k' hi hj' (by intro h; injection h with _ h; injection h with h _; omega)
  · intro i' hii' hi' m
    apply forLoop_proj_frame (fun m : Mem R => m ((k * naux + i) * nao + j))
    intro j' hj' m'
    apply forLoop_proj_frame (fun m : Mem R => m ((k * naux + i) * nao + j))
    intro k' _ m''
    rw [store_other]
    exact hne i' j' k' hi' hj' (by intro h; injection h with h _; omega)

/-- The product summed by the GEMM of iteration `indxK`, in terms of the inputs. -/
theorem get_jk_gemm_sum {R : Type} [CommRing R] (tid : Nat → Nat) (naux nao blksize : Nat)
    (eri1 dms buf_tmp0 buf_fdrv0 buf30 d_buf20 d_buf30 : Mem R) (hB : naux ≤ blksize)
    (r c : Nat) (hr : r < nao) (hc : c < nao) :
    (∑ l in Finset.range (naux * nao),
      dev_push d_buf20 (fun t => get_jk_unpack blksize naux nao eri1
          (fdrv tid buf_tmp0 eri1 dms naux nao (fun t => if t = 1 ∨ t = 3 then nao else 0)
            buf_fdrv0).1 (blksize * nao * nao + t)) (blksize * nao * nao * 8) (r + l * nao)
      * dev_push d_buf30 (get_jk_permute naux nao (get_jk_unpack blksize naux nao eri1
          (fdrv tid buf_tmp0 eri1 dms naux nao (fun t => if t = 1 ∨ t = 3 then nao else 0)
            buf_fdrv0).1) buf30) (blksize * nao * nao * 8) (l + c * (naux * nao)))
      = ∑ i in Finset.range naux, ∑ j in Finset.range nao,
          unpackSym eri1 (nao * (nao + 1) / 2) i j r
          * ∑ t in Finset.range nao,
              unpackSym eri1 (nao * (nao + 1) / 2) i c t * dms (j * nao + t) := by
  rw [sum_range_mul_split]
  apply Finset.sum_congr rfl
  intro i hi
  have hi' : i < naux := Finset.mem_range.mp hi
  apply Finset.sum_congr rfl
  intro j hj
  have hj' : j < nao := Finset.mem_range.mp hj
  have hle : naux * nao * nao ≤ blksize * nao * nao :=
    Nat.mul_le_mul_right nao (Nat.mul_le_mul_right nao hB)
  have hdiv : blksize * nao * nao * 8 / 8 = blksize * nao * nao :=
    Nat.mul_div_cancel _ (by decide)
  have hA : r + (i * nao + j) * nao < blksize * nao * nao := by
    have := idx3_lt hi' hj' hr
    omega
  have hBi : (i * nao + j) + c * (naux * nao) < blksize * nao * nao := by
    have h1 : (c * naux + i) * nao + j < nao * naux * nao := mul_add_lt hj' (mul_add_lt hi' hc)
    have h2 : (c * naux + i) * nao + j = (i * nao + j) + c * (naux * nao) := by ring
    have h3 : nao * naux * nao = naux * nao * nao := by ring
    omega
  congr 1
  · simp only [dev_push, hdiv, if_pos hA]
    rw [Nat.add_comm r, get_jk_unpack_at blksize naux nao eri1 _ i j r hi' hj' hr]
  · simp only [dev_push, hdiv, if_pos hBi]
    have h2 : (i * nao + j) + c * (naux * nao) = (c * naux + i) * nao + j := by ring
    rw [h2, get_jk_permute_at naux nao _ _ i j c hi' hj' hc]
    rw [get_jk_unpack_below blksize naux nao eri1 _ _
      (by have := idx3_lt hi' hj' hc; omega)]
    have h3 : (i * nao + j) * nao + c
        = ((fun t => if t = 1 ∨ t = 3 then nao else 0) 1
            - (fun t => if t = 1 ∨ t = 3 then nao else 0) 0) * nao * i + (c + j * nao) := by
      simp only [if_pos (Or.inl rfl : (1 : Nat) = 1 ∨ (1 : Nat) = 3)]
      simp
      ring
    rw [h3, fdrv_at tid buf_tmp0 eri1 dms naux nao _ buf_fdrv0 i c j hi' hc
      (by simp; exact hj')]
    apply Finset.sum_congr rfl
    intro t _
    congr 2
    simp
    ring


/-- One iteration of Phase K on the cells of its block: the GEMM result is added to `beta`
times the old value. -/
theorem get_jk_iterK_at {R : Type} [CommRing R] (tid : Nat → Nat) (naux nao nset : Nat)
    (eri1 : Mem R) (_dms_list : Nat → Mem R) (count : Int) (indxK : Nat)
    (st : Device R × Mem R) (hB : naux ≤ st.1.blksize.toNat) (hK : indxK < nset)
    (r c : Nat) (hr : r < nao) (hc : c < nao) :
    (get_jk_iterK tid naux nao nset eri1 _dms_list count indxK st).2
        (indxK * nao + (r + c * (nset * nao)))
      = (∑ i in Finset.range naux, ∑ j in Finset.range nao,
          unpackSym eri1 (nao * (nao + 1) / 2) i j r
          * ∑ t in Finset.range nao,
              unpackSym eri1 (nao * (nao + 1) / 2) i c t * _dms_list indxK (j * nao + t))
        + (if count = 0 then 0 else 1) * st.2 (indxK * nao + (r + c * (nset * nao))) := by
  have hdiv : nset * nao * nao * 8 / 8 = nset * nao * nao := Nat.mul_div_cancel _ (by decide)
  have hm : nao ≤ nset * nao := Nat.le_mul_of_pos_left nao (by omega)
  have hlt : r + c * (nset * nao) < nset * nao * nao := by
    have h1 : c * (nset * nao) + r < nao * (nset * nao) := mul_add_lt (by omega) hc
    have h2 : nao * (nset * nao) = nset * nao * nao := by ring
    omega
  unfold get_jk_iterK
  simp only [dev_pull, hdiv]
  rw [if_pos ⟨by omega, by omega⟩, Nat.add_sub_cancel_left]
  rw [cublasDgemm_NN_at nao nao (naux * nao) 1 _ nao _ (naux * nao) _ _ (nset * nao) hm r c hr hc]
  rw [one_mul, get_jk_gemm_sum tid naux nao st.1.blksize.toNat eri1 (_dms_list indxK)
    st.1.buf_tmp.mem st.1.buf_fdrv.mem st.1.buf3.mem st.1.d_buf2.mem st.1.d_buf3.mem hB r c hr hc]
  congr 2
  simp only [dev_push, hdiv, if_pos hlt]

/-- One iteration of Phase K leaves every cell outside its block as it was. -/
theorem get_jk_iterK_frame {R : Type} [CommRing R] (tid : Nat → Nat) (naux nao nset : Nat)
    (eri1 : Mem R) (_dms_list : Nat → Mem R) (count : Int) (indxK : Nat)
    (st : Device R × Mem R) (off : Nat)
    (h : ∀ r c, r < nao → c < nao → off ≠ indxK * nao + (r + c * (nset * nao))) :
    (get_jk_iterK tid naux nao nset eri1 _dms_list count indxK st).2 off = st.2 off := by
  have hdiv : nset * nao * nao * 8 / 8 = nset * nao * nao := Nat.mul_div_cancel _ (by decide)
  unfold get_jk_iterK
  simp only [dev_pull, hdiv]
  by_cases hin : indxK * nao ≤ off ∧ off < indxK * nao + nset * nao * nao
  · rw [if_pos hin]
    rw [cublasDgemm_NN_frame nao nao (naux * nao) 1 _ nao _ (naux * nao) _ _ (nset * nao)]
    · simp only [dev_push, hdiv]
      rw [if_pos (by omega)]
      have e : indxK * nao + (off - indxK * nao) = off := by omega
      rw [e]
    · intro i j hi hj heq
      exact h i j hi hj (by omega)
  · rw [if_neg hin]

theorem vk_pos_inj {nset nao k r c k' r' c' : Nat} (hk : k < nset) (hk' : k' < nset)
    (hr : r < nao) (hr' : r' < nao)
    (h : k * nao + (r + c * (nset * nao)) = k' * nao + (r' + c' * (nset * nao))) :
    k = k' ∧ r = r' ∧ c = c' := by
  have h1 : (c * nset + k) * nao + r = (c' * nset + k') * nao + r' := by
    have e1 : (c * nset + k) * nao + r = k * nao + (r + c * (nset * nao)) := by ring
    have e2 : (c' * nset + k') * nao + r' = k' * nao + (r' + c' * (nset * nao)) := by ring
    rw [e1, e2, h]
  have h2 := idx2_inj hr hr' h1
  have h3 := idx2_inj hk hk' h2.1
  exact ⟨h3.2, h2.2, h3.1⟩

theorem get_jk_loopK_blksize {R : Type} [CommRing R] (tid : Nat → Nat) (naux nao nset : Nat)
    (eri1 : Mem R) (_dms_list : Nat → Mem R) (count : Int) (n : Nat) (st : Device R × Mem R) :
    (forLoop n (fun indxK st =>
      get_jk_iterK tid naux nao nset eri1 _dms_list count indxK st) st).1.blksize
      = st.1.blksize := by
  apply forLoop_proj_frame (fun st : Device R × Mem R => st.1.blksize)
  intro j _ s
  rfl

/-- Closed form of Phase K on the cells of block `k`. -/
theorem get_jk_loopK_at {R : Type} [CommRing R] (tid : Nat → Nat) (naux nao nset : Nat)
    (eri1 : Mem R) (_dms_list : Nat → Mem R) (count : Int) (st : Device R × Mem R)
    (hB : naux ≤ st.1.blksize.toNat) (k r c : Nat) (hk : k < nset) (hr : r < nao) (hc : c < nao) :
    (forLoop nset (fun indxK st =>
      get_jk_iterK tid naux nao nset eri1 _dms_list count indxK st) st).2
        (k * nao + (r + c * (nset * nao)))
      = (∑ i in Finset.range naux, ∑ j in Finset.range nao,
          unpackSym eri1 (nao * (nao + 1) / 2) i j r
          * ∑ t in Finset.range nao,
              unpackSym eri1 (nao * (nao + 1) / 2) i c t * _dms_list k (j * nao + t))
        + (if count = 0 then 0 else 1) * st.2 (k * nao + (r + c * (nset * nao))) := by
  rw [forLoop_proj_at (fun st : Device R × Mem R => st.2 (k * nao + (r + c * (nset * nao))))
    nset _ st k hk]
  · rw [get_jk_iterK_at tid naux nao nset eri1 _dms_list count k _
      (by rw [get_jk_loopK_blksize]; exact hB) hk r c hr hc]
    congr 2
    apply forLoop_proj_frame (fun st : Device R × Mem R => st.2 (k * nao + (r + c * (nset * nao))))
    intro k' hk' s
    apply get_jk_iterK_frame
    intro r' c' hr' _ h
    have := vk_pos_inj hk (by omega) hr hr' h
    omega
  · intro k' hkk' hk' s
    apply get_jk_iterK_frame
    intro r' c' hr' _ h
    have := vk_pos_inj hk hk' hr hr' h
    omega


/-! ## Buffer pool -/

theorem get_jk_rho_alloc_shape {R : Type} (d : Device R) (_eri1 _dmtril : PyArray R) :
    ∃ (s : Int) (r : Buf R) (p : PM R),
      get_jk_rho_alloc d _eri1 _dmtril = { d with size_rho := s, rho := r, pm := p } := by
  rw [get_jk_rho_alloc]
  by_cases h : _size_rho _eri1 _dmtril > d.size_rho
  · simp only [if_pos h]
    exact ⟨_, _, _, rfl⟩
  · simp only [if_neg h]
    exact ⟨d.size_rho, d.rho, d.pm, rfl⟩

theorem get_jk_rho_alloc_blksize {R : Type} (d : Device R) (_eri1 _dmtril : PyArray R) :
    (get_jk_rho_alloc d _eri1 _dmtril).blksize = d.blksize := by
  obtain ⟨s, r, p, h⟩ := get_jk_rho_alloc_shape d _eri1 _dmtril
  rw [h]

theorem get_jk_dev_blksize {R : Type} [CommRing R] (d : Device R) (tid : Nat → Nat)
    (naux nao nset : Nat) (_eri1 _dmtril : PyArray R) (_dms_list : Nat → Mem R)
    (_vj _vk : PyArray R) (count : Int) :
    (get_jk d tid naux nao nset _eri1 _dmtril _dms_list _vj _vk count).dev.blksize
      = d.blksize := by
  rw [get_jk]
  simp only
  rw [get_jk_loopK_blksize]
  obtain ⟨s, r, p, h⟩ := get_jk_rho_alloc_shape d _eri1 _dmtril
  rw [h]


theorem forLoop_zero_fill {R : Type} [Zero R] (n : Nat) (p : Mem R) (i : Nat) (hi : i < n) :
    forLoop n (fun i p => store p i 0) p i = 0 := by
  rw [forLoop_proj_at (fun m : Mem R => m i) n _ p i hi]
  · exact store_same _ _ _
  · intro j hij _ m
    exact store_other _ _ _ _ (by omega)

/-- Contract of lines 25-31 (`vj` scratch). -/
theorem init_vj_contract {R : Type} [Zero R] (d : Device R) (_eri1 _dmtril : PyArray R) :
    ∃ (b : Buf R) (p : PM R),
      init_vj d _eri1 _dmtril
        = { d with size_vj := max d.size_vj (_size_vj _eri1 _dmtril),
                   vj := b, pm := p } ∧
      (_size_vj _eri1 _dmtril ≤ d.size_vj →
        b.ptr = d.vj.ptr ∧ b.bytes = d.vj.bytes ∧ p = d.pm) ∧
      (d.size_vj < _size_vj _eri1 _dmtril →
        b.bytes = bytesOf (_size_vj _eri1 _dmtril)) ∧
      (∀ i, i < (_size_vj _eri1 _dmtril).toNat → b.mem i = 0) := by
  rw [init_vj]
  by_cases h : _size_vj _eri1 _dmtril > d.size_vj
  · simp only [if_pos h]
    rw [max_eq_right (le_of_lt h)]
    refine ⟨_, _, rfl, ?_, ?_, ?_⟩
    · intro h'; omega
    · intro _; rfl
    · intro i hi
      exact forLoop_zero_fill _ _ i hi
  · simp only [if_neg h]
    rw [max_eq_left (not_lt.mp h)]
    refine ⟨_, d.pm, rfl, ?_, ?_, ?_⟩
    · intro _; exact ⟨rfl, rfl, rfl⟩
    · intro h'; omega
    · intro i hi
      exact forLoop_zero_fill _ _ i hi

/-- Contract of lines 33-49 (`d_vkk`). -/
theorem init_vk_contract {R : Type} (d : Device R) (nset nao : Int) :
    ∃ (b : Buf R) (p : PM R),
      init_vk d nset nao
        = { d with size_vk := max d.size_vk (_size_vk nset nao),
                   d_vkk := b, pm := p } ∧
      (_size_vk nset nao ≤ d.size_vk → b = d.d_vkk ∧ p = d.pm) ∧
      (d.size_vk < _size_vk nset nao →
        b.bytes = bytesOf (_size_vk nset nao)) := by
  rw [init_vk]
  by_cases h : _size_vk nset nao > d.size_vk
  · simp only [if_pos h]
    rw [max_eq_right (le_of_lt h)]
    refine ⟨_, _, rfl, ?_, ?_⟩
    · intro h'; omega
    · intro _; rfl
  · simp only [if_neg h]
    rw [max_eq_left (not_lt.mp h)]
    refine ⟨d.d_vkk, d.pm, rfl, ?_, ?_⟩
    · intro _; exact ⟨rfl, rfl⟩
    · intro h'; omega

/-- Contract of lines 52-76 (`buf_tmp`, `buf3`, `buf4`, `d_buf2`, `d_buf3`). -/
theorem init_buf_contract {R : Type} (d : Device R) (nao : Int) :
    ∃ (bt b3 b4 d2 d3 : Buf R) (p : PM R),
      init_buf d nao
        = { d with size_buf := max d.size_buf (_size_buf d.blksize nao),
                   buf_tmp := bt, buf3 := b3, buf4 := b4, d_buf2 := d2, d_buf3 := d3, pm := p } ∧
      (_size_buf d.blksize nao ≤ d.size_buf →
        bt = d.buf_tmp ∧ b3 = d.buf3 ∧ b4 = d.buf4 ∧ d2 = d.d_buf2 ∧ d3 = d.d_buf3 ∧ p = d.pm) ∧
      (d.size_buf < _size_buf d.blksize nao →
        bt.bytes = bytesOf (wrap32 (2 * _size_buf d.blksize nao)) ∧
        b3.bytes = bytesOf (_size_buf d.blksize nao) ∧
        b4.bytes = bytesOf (_size_buf d.blksize nao) ∧
        d2.bytes = bytesOf (_size_buf d.blksize nao) ∧
        d3.bytes = bytesOf (_size_buf d.blksize nao)) := by
  rw [init_buf]
  by_cases h : _size_buf d.blksize nao > d.size_buf
  · simp only [if_pos h]
    rw [max_eq_right (le_of_lt h)]
    refine ⟨_, _, _, _, _, _, rfl, ?_, ?_⟩
    · intro h'; omega
    · intro _; exact ⟨rfl, rfl, rfl, rfl, rfl⟩
  · simp only [if_neg h]
    rw [max_eq_left (not_lt.mp h)]
    refine ⟨d.buf_tmp, d.buf3, d.buf4, d.d_buf2, d.d_buf3, d.pm, rfl, ?_, ?_⟩
    · intro _; exact ⟨rfl, rfl, rfl, rfl, rfl, rfl⟩
    · intro h'; omega

/-- Contract of lines 78-83 (`buf_fdrv`). -/
theorem init_fdrv_contract {R : Type} (d : Device R) (nao : Int) :
    ∃ (b : Buf R) (p : PM R),
      init_fdrv d nao
        = { d with size_fdrv :=
                     max d.size_fdrv (_size_fdrv nao d.num_threads),
                   buf_fdrv := b, pm := p } ∧
      (_size_fdrv nao d.num_threads ≤ d.size_fdrv →
        b = d.buf_fdrv ∧ p = d.pm) ∧
      (d.size_fdrv < _size_fdrv nao d.num_threads →
        b.bytes = bytesOf (_size_fdrv nao d.num_threads)) := by
  rw [init_fdrv]
  by_cases h : _size_fdrv nao d.num_threads > d.size_fdrv
  · simp only [if_pos h]
    rw [max_eq_right (le_of_lt h)]
    refine ⟨_, _, rfl, ?_, ?_⟩
    · intro h'; omega
    · intro _; rfl
  · simp only [if_neg h]
    rw [max_eq_left (not_lt.mp h)]
    refine ⟨d.buf_fdrv, d.pm, rfl, ?_, ?_⟩
    · intro _; exact ⟨rfl, rfl⟩
    · intro h'; omega

/-- Contract of lines 87-100 (handle and stream). -/
theorem init_handle_stream_contract {R : Type} (d : Device R) :
    ∃ (h s : Nat), init_handle_stream d = { d with handle := h, stream := s } := by
  rw [init_handle_stream]
  by_cases h1 : d.handle = 0
  · by_cases h2 : d.stream = 0
    · simp only [if_pos h1, if_pos h2]
      exact ⟨1, 1, rfl⟩
    · simp only [if_pos h1, if_neg h2]
      exact ⟨1, d.stream, rfl⟩
  · by_cases h2 : d.stream = 0
    · simp only [if_neg h1, if_pos h2]
      exact ⟨d.handle, 1, rfl⟩
    · simp only [if_neg h1, if_neg h2]
      exact ⟨d.handle, d.stream, rfl⟩

/-- Contract of `init_get_jk`: the device object after the call, field by field. -/
theorem init_get_jk_contract {R : Type} [Zero R] (d : Device R) (_eri1 _dmtril : PyArray R)
    (_blksize nset nao : Int) :
    ∃ (vj vkk bt b3 b4 d2 d3 bf : Buf R) (p : PM R) (h s : Nat),
      init_get_jk d _eri1 _dmtril _blksize nset nao
        = { blksize := _blksize, num_threads := d.num_threads, size_rho := d.size_rho,
            size_vj := max d.size_vj (_size_vj _eri1 _dmtril),
            size_vk := max d.size_vk (_size_vk nset nao),
            size_buf := max d.size_buf (_size_buf _blksize nao),
            size_fdrv := max d.size_fdrv (_size_fdrv nao d.num_threads),
            rho := d.rho, vj := vj, buf_tmp := bt, buf3 := b3, buf4 := b4, buf_fdrv := bf,
            d_buf2 := d2, d_buf3 := d3, d_vkk := vkk, handle := h, stream := s, pm := p } ∧
      ((_size_vj _eri1 _dmtril ≤ d.size_vj → vj.ptr = d.vj.ptr ∧ vj.bytes = d.vj.bytes) ∧
       (d.size_vj < _size_vj _eri1 _dmtril → vj.bytes = bytesOf (_size_vj _eri1 _dmtril)) ∧
       (∀ i, i < (_size_vj _eri1 _dmtril).toNat → vj.mem i = 0)) ∧
      ((_size_vk nset nao ≤ d.size_vk → vkk = d.d_vkk) ∧
       (d.size_vk < _size_vk nset nao → vkk.bytes = bytesOf (_size_vk nset nao))) ∧
      ((_size_buf _blksize nao ≤ d.size_buf →
          bt = d.buf_tmp ∧ b3 = d.buf3 ∧ b4 = d.buf4 ∧ d2 = d.d_buf2 ∧ d3 = d.d_buf3) ∧
       (d.size_buf < _size_buf _blksize nao →
          bt.bytes = bytesOf (wrap32 (2 * _size_buf _blksize nao)) ∧
          b3.bytes = bytesOf (_size_buf _blksize nao) ∧
          b4.bytes = bytesOf (_size_buf _blksize nao) ∧
          d2.bytes = bytesOf (_size_buf _blksize nao) ∧
          d3.bytes = bytesOf (_size_buf _blksize nao))) ∧
      ((_size_fdrv nao d.num_threads ≤ d.size_fdrv → bf = d.buf_fdrv) ∧
       (d.size_fdrv < _size_fdrv nao d.num_threads →
          bf.bytes = bytesOf (_size_fdrv nao d.num_threads))) ∧
      (_size_vj _eri1 _dmtril ≤ d.size_vj → _size_vk nset nao ≤ d.size_vk →
        _size_buf _blksize nao ≤ d.size_buf → _size_fdrv nao d.num_threads ≤ d.size_fdrv →
        p = d.pm) := by
  rw [init_get_jk]
  obtain ⟨b1, p1, e1, f1a, f1b, f1c⟩ := init_vj_contract { d with blksize := _blksize } _eri1 _dmtril
  simp only at e1 f1a f1b
  obtain ⟨b2, p2, e2, f2a, f2b⟩ :=
    init_vk_contract (init_vj { d with blksize := _blksize } _eri1 _dmtril) nset nao
  rw [e1] at e2 f2a f2b
  simp only at e2 f2a f2b
  obtain ⟨b3, b4, b5, b6, b7, p3, e3, f3a, f3b⟩ :=
    init_buf_contract (init_vk (init_vj { d with blksize := _blksize } _eri1 _dmtril) nset nao) nao
  rw [e1, e2] at e3 f3a f3b
  simp only at e3 f3a f3b
  obtain ⟨b8, p4, e4, f4a, f4b⟩ :=
    init_fdrv_contract (init_buf (init_vk (init_vj { d with blksize := _blksize } _eri1 _dmtril)
      nset nao) nao) nao
  rw [e1, e2, e3] at e4 f4a f4b
  simp only at e4 f4a f4b
  obtain ⟨h, s, e5⟩ :=
    init_handle_stream_contract (init_fdrv (init_buf (init_vk (init_vj
      { d with blksize := _blksize } _eri1 _dmtril) nset nao) nao) nao)
  rw [e1, e2, e3, e4] at e5
  simp only at e5
  rw [e1, e2, e3, e4, e5]
  refine ⟨b1, b2, b3, b4, b5, b6, b7, b8, p4, h, s, rfl, ⟨?_, f1b, f1c⟩, ⟨?_, f2b⟩,
    ⟨?_, f3b⟩, ⟨?_, f4b⟩, ?_⟩
  · intro hle; exact ⟨(f1a hle).1, (f1a hle).2.1⟩
  · intro hle; exact (f2a hle).1
  · intro hle
    obtain ⟨a1, a2, a3, a4, a5, _⟩ := f3a hle
    exact ⟨a1, a2, a3, a4, a5⟩
  · intro hle; exact (f4a hle).1
  · intro h1 h2 h3 h4
    rw [(f4a h4).2, (f3a h3).2.2.2.2.2, (f2a h2).2, (f1a h1).2.2]

theorem init_get_jk_blksize {R : Type} [Zero R] (d : Device R) (_eri1 _dmtril : PyArray R)
    (_blksize nset nao : Int) :
    (init_get_jk d _eri1 _dmtril _blksize nset nao).blksize = _blksize := by
  obtain ⟨vj, vkk, bt, b3, b4, d2, d3, bf, p, h, s, e, _⟩ :=
    init_get_jk_contract d _eri1 _dmtril _blksize nset nao
  rw [e]

theorem wrap32_of_fits (x : Int) (h1 : -2147483648 ≤ x) (h2 : x < 2147483648) : wrap32 x = x := by
  unfold wrap32
  omega

theorem wrap32_mul_wrap32 (a b : Int) : wrap32 (wrap32 a * b) = wrap32 (a * b) := by
  unfold wrap32
  have h : ((a + 2147483648) % 4294967296 - 2147483648) * b + 2147483648
      = (a * b + 2147483648) + 4294967296 * (-((a + 2147483648) / 4294967296) * b) := by
    have := Int.emod_add_ediv (a + 2147483648) 4294967296
    have e : (a + 2147483648) % 4294967296
        = (a + 2147483648) - 4294967296 * ((a + 2147483648) / 4294967296) := by omega
    rw [e]; ring
  rw [h, Int.add_mul_emod_self_left]

theorem bytesOf_capacity (n : Int) (h1 : 0 ≤ n) (h2 : n < 2147483648) :
    ((bytesOf n / 8 : Nat) : Int) = n := by
  unfold bytesOf toSizeT
  omega

/-- C8: monotonic allocation. For a call of `init_get_jk` from any state of the device object
(so for every call of any sequence of calls): each watermark `size_vj`, `size_vk`, `size_buf`,
`size_fdrv` after the call is the maximum of its previous value and the size `_size_*` the call
computes for the current shape, hence non-decreasing; and when every computed size is at most
the current watermark the call makes no allocation and no release (the trace of the memory
manager is unchanged) and leaves every buffer pointer unchanged. -/
theorem init_get_jk_monotonic {R : Type} [Zero R] (d : Device R) (_eri1 _dmtril : PyArray R)
    (_blksize nset nao : Int) :
    ((init_get_jk d _eri1 _dmtril _blksize nset nao).size_vj
        = max d.size_vj (_size_vj _eri1 _dmtril) ∧
     (init_get_jk d _eri1 _dmtril _blksize nset nao).size_vk
        = max d.size_vk (_size_vk nset nao) ∧
     (init_get_jk d _eri1 _dmtril _blksize nset nao).size_buf
        = max d.size_buf (_size_buf _blksize nao) ∧
     (init_get_jk d _eri1 _dmtril _blksize nset nao).size_fdrv
        = max d.size_fdrv (_size_fdrv nao d.num_threads)) ∧
    (d.size_vj ≤ (init_get_jk d _eri1 _dmtril _blksize nset nao).size_vj ∧
     d.size_vk ≤ (init_get_jk d _eri1 _dmtril _blksize nset nao).size_vk ∧
     d.size_buf ≤ (init_get_jk d _eri1 _dmtril _blksize nset nao).size_buf ∧
     d.size_fdrv ≤ (init_get_jk d _eri1 _dmtril _blksize nset nao).size_fdrv) ∧
    (_size_vj _eri1 _dmtril ≤ d.size_vj → _size_vk nset nao ≤ d.size_vk →
      _size_buf _blksize nao ≤ d.size_buf → _size_fdrv nao d.num_threads ≤ d.size_fdrv →
      (init_get_jk d _eri1 _dmtril _blksize nset nao).pm.trace = d.pm.trace ∧
      (init_get_jk d _eri1 _dmtril _blksize nset nao).vj.ptr = d.vj.ptr ∧
      (init_get_jk d _eri1 _dmtril _blksize nset nao).d_vkk.ptr = d.d_vkk.ptr ∧
      (init_get_jk d _eri1 _dmtril _blksize nset nao).buf_tmp.ptr = d.buf_tmp.ptr ∧
      (init_get_jk d _eri1 _dmtril _blksize nset nao).buf3.ptr = d.buf3.ptr ∧
      (init_get_jk d _eri1 _dmtril _blksize nset nao).buf4.ptr = d.buf4.ptr ∧
      (init_get_jk d _eri1 _dmtril _blksize nset nao).d_buf2.ptr = d.d_buf2.ptr ∧
      (init_get_jk d _eri1 _dmtril _blksize nset nao).d_buf3.ptr = d.d_buf3.ptr ∧
      (init_get_jk d _eri1 _dmtril _blksize nset nao).buf_fdrv.ptr = d.buf_fdrv.ptr ∧
      (init_get_jk d _eri1 _dmtril _blksize nset nao).rho.ptr = d.rho.ptr) := by
  obtain ⟨vj, vkk, bt, b3, b4, d2, d3, bf, p, h, s, e, f1, f2, f3, f4, f5⟩ :=
    init_get_jk_contract d _eri1 _dmtril _blksize nset nao
  rw [e]
  refine ⟨⟨rfl, rfl, rfl, rfl⟩, ⟨le_max_left _ _, le_max_left _ _, le_max_left _ _,
    le_max_left _ _⟩, ?_⟩
  intro h1 h2 h3 h4
  obtain ⟨a1, a2, a3, a4, a5⟩ := f3.1 h3
  refine ⟨?_, (f1.1 h1).1, ?_, ?_, ?_, ?_, ?_, ?_, ?_, rfl⟩
  · show p.trace = d.pm.trace
    rw [f5 h1 h2 h3 h4]
  · show vkk.ptr = d.d_vkk.ptr
    rw [f2.1 h2]
  · show bt.ptr = d.buf_tmp.ptr
    rw [a1]
  · show b3.ptr = d.buf3.ptr
    rw [a2]
  · show b4.ptr = d.buf4.ptr
    rw [a3]
  · show d2.ptr = d.d_buf2.ptr
    rw [a4]
  · show d3.ptr = d.d_buf3.ptr
    rw [a5]
  · show bf.ptr = d.buf_fdrv.ptr
    rw [f4.1 h4]

theorem _size_vj_eval {R : Type} (a b c e : Int) (p q : Mem R) (h1 : -2147483648 ≤ c * b)
    (h2 : c * b < 2147483648) : _size_vj (⟨[a, b], p⟩ : PyArray R) ⟨[c, e], q⟩ = c * b := by
  unfold _size_vj PyArray.dim
  simp only [List.getD_cons_zero, List.getD_cons_succ]
  exact wrap32_of_fits _ h1 h2


theorem _size_vk_eval (nset nao : Int) (h1 : -2147483648 ≤ nset * nao * nao)
    (h2 : nset * nao * nao < 2147483648) : _size_vk nset nao = nset * nao * nao := by
  unfold _size_vk
  rw [wrap32_mul_wrap32, wrap32_of_fits _ h1 h2]

theorem _size_buf_eval (blksize nao : Int) (h1 : -2147483648 ≤ blksize * nao * nao)
    (h2 : blksize * nao * nao < 2147483648) : _size_buf blksize nao = blksize * nao * nao := by
  unfold _size_buf
  rw [wrap32_mul_wrap32, wrap32_of_fits _ h1 h2]

theorem _size_fdrv_eval (nao T : Int) (h1 : -2147483648 ≤ 4 * nao * nao * T)
    (h2 : 4 * nao * nao * T < 2147483648) : _size_fdrv nao T = 4 * nao * nao * T := by
  unfold _size_fdrv
  rw [wrap32_mul_wrap32, mul_assoc, wrap32_mul_wrap32, ← mul_assoc, wrap32_of_fits _ h1 h2]

theorem init_get_jk_num_threads {R : Type} [Zero R] (d : Device R) (_eri1 _dmtril : PyArray R)
    (_blksize nset nao : Int) :
    (init_get_jk d _eri1 _dmtril _blksize nset nao).num_threads = d.num_threads := by
  obtain ⟨vj, vkk, bt, b3, b4, d2, d3, bf, p, h, s, e, _⟩ :=
    init_get_jk_contract d _eri1 _dmtril _blksize nset nao
  rw [e]

/-- C8, the scenario of shapes `(N = 8, n_aux = 4, S = 1)` then `(N = 4, n_aux = 2, S = 1)`
(`B = n_aux`, one worker), starting with nothing allocated: the second call makes no allocation
and no release and keeps every buffer pointer. -/
theorem init_get_jk_monotonic_witness :
    (init_get_jk (init_get_jk (Device.empty ℤ 1) ⟨[4, 36], fun _ => 0⟩ ⟨[1, 36], fun _ => 0⟩ 4 1 8)
        ⟨[2, 10], fun _ => 0⟩ ⟨[1, 10], fun _ => 0⟩ 2 1 4).pm.trace
      = (init_get_jk (Device.empty ℤ 1) ⟨[4, 36], fun _ => 0⟩ ⟨[1, 36], fun _ => 0⟩
          4 1 8).pm.trace ∧
    (init_get_jk (init_get_jk (Device.empty ℤ 1) ⟨[4, 36], fun _ => 0⟩ ⟨[1, 36], fun _ => 0⟩ 4 1 8)
        ⟨[2, 10], fun _ => 0⟩ ⟨[1, 10], fun _ => 0⟩ 2 1 4).buf_tmp.ptr
      = (init_get_jk (Device.empty ℤ 1) ⟨[4, 36], fun _ => 0⟩ ⟨[1, 36], fun _ => 0⟩
          4 1 8).buf_tmp.ptr := by
  have first := (init_get_jk_monotonic (Device.empty ℤ 1) ⟨[4, 36], fun _ => 0⟩
    ⟨[1, 36], fun _ => 0⟩ 4 1 8).1
  have hT := init_get_jk_num_threads (Device.empty ℤ 1) ⟨[4, 36], fun _ => 0⟩
    ⟨[1, 36], fun _ => 0⟩ 4 1 8
  have e0 : (Device.empty ℤ 1).size_vj = 0 ∧ (Device.empty ℤ 1).size_vk = 0 ∧
      (Device.empty ℤ 1).size_buf = 0 ∧ (Device.empty ℤ 1).size_fdrv = 0 ∧
      (Device.empty ℤ 1).num_threads = 1 := ⟨rfl, rfl, rfl, rfl, rfl⟩
  have second := (init_get_jk_monotonic
    (init_get_jk (Device.empty ℤ 1) ⟨[4, 36], fun _ => 0⟩ ⟨[1, 36], fun _ => 0⟩ 4 1 8)
    ⟨[2, 10], fun _ => 0⟩ ⟨[1, 10], fun _ => 0⟩ 2 1 4).2.2
    (by rw [first.1, e0.1, _size_vj_eval 4 36 1 36 _ _ (by norm_num) (by norm_num),
          _size_vj_eval 2 10 1 10 _ _ (by norm_num) (by norm_num)]; norm_num)
    (by rw [first.2.1, e0.2.1, _size_vk_eval 1 8 (by norm_num) (by norm_num),
          _size_vk_eval 1 4 (by norm_num) (by norm_num)]; norm_num)
    (by rw [first.2.2.1, e0.2.2.1, _size_buf_eval 4 8 (by norm_num) (by norm_num),
          _size_buf_eval 2 4 (by norm_num) (by norm_num)]; norm_num)
    (by rw [first.2.2.2, hT, e0.2.2.2.1, e0.2.2.2.2, _size_fdrv_eval 8 1 (by norm_num) (by norm_num),
          _size_fdrv_eval 4 1 (by norm_num) (by norm_num)]; norm_num)
  exact ⟨second.1, second.2.2.2.1⟩

theorem pool_slot {R : Type} (b old : Buf R) (size req : Int) (h0 : 0 ≤ req)
    (hfit : req < 2147483648) (hinv : size ≤ (old.capacity : Int))
    (hkeep : req ≤ size → b.bytes = old.bytes) (hnew : size < req → b.bytes = bytesOf req) :
    req ≤ (b.capacity : Int) ∧ max size req ≤ (b.capacity : Int) := by
  unfold Buf.capacity at *
  by_cases h : req ≤ size
  · rw [hkeep h, max_eq_left h]
    exact ⟨le_trans h hinv, hinv⟩
  · rw [hnew (by omega), bytesOf_capacity req h0 hfit, max_eq_right (by omega)]
    exact ⟨le_refl _, le_refl _⟩

theorem pool_slot2 {R : Type} (b old : Buf R) (size req : Int) (h0 : 0 ≤ req)
    (hfit : 2 * req < 2147483648) (hinv : 2 * size ≤ (old.capacity : Int))
    (hkeep : req ≤ size → b.bytes = old.bytes)
    (hnew : size < req → b.bytes = bytesOf (wrap32 (2 * req))) :
    2 * req ≤ (b.capacity : Int) ∧ 2 * max size req ≤ (b.capacity : Int) := by
  unfold Buf.capacity at *
  by_cases h : req ≤ size
  · rw [hkeep h, max_eq_left h]
    exact ⟨by omega, hinv⟩
  · rw [hnew (by omega), wrap32_of_fits _ (by omega) hfit,
      bytesOf_capacity (2 * req) (by omega) hfit, max_eq_right (by omega)]
    exact ⟨le_refl _, le_refl _⟩

/-- C9: buffer-pool postcondition. From a device object that satisfies the pool invariant
(nothing allocated, or the state left by earlier calls), with array shapes `ERI : (n_aux, P)`,
`DM_tril : (S, P)`, `P = N(N+1)/2`, `T = num_threads` workers and sizes that fit in `int`:
after `init_get_jk(ERI, DM_tril, B, S, N)` the capacities (in doubles) satisfy
`buf_tmp ≥ 2·B·N·N`, `buf3, buf4, d_buf2, d_buf3 ≥ B·N·N`, `d_vkk ≥ S·N·N`,
`buf_fdrv ≥ 4·N·N·T`, `vj ≥ S·P`, the `vj` scratch is zero on its first `S·P` entries, and the
pool invariant holds again; the call may or may not have reallocated. -/
theorem init_get_jk_pool_postcondition {R : Type} [Zero R] (d : Device R) (hinv : PoolInv d)
    (_eri1 _dmtril : PyArray R) (B S N : Int) (hB : 0 ≤ B) (hS : 0 ≤ S) (hN : 0 ≤ N)
    (hT : 0 ≤ d.num_threads) (hdm : _dmtril.dim 0 = S) (he : _eri1.dim 1 = N * (N + 1) / 2)
    (fvj : S * (N * (N + 1) / 2) < 2147483648) (fvk : S * N * N < 2147483648)
    (fbuf : 2 * (B * N * N) < 2147483648) (ffd : 4 * N * N * d.num_threads < 2147483648) :
    2 * (B * N * N) ≤ ((init_get_jk d _eri1 _dmtril B S N).buf_tmp.capacity : Int) ∧
    B * N * N ≤ ((init_get_jk d _eri1 _dmtril B S N).buf3.capacity : Int) ∧
    B * N * N ≤ ((init_get_jk d _eri1 _dmtril B S N).buf4.capacity : Int) ∧
    B * N * N ≤ ((init_get_jk d _eri1 _dmtril B S N).d_buf2.capacity : Int) ∧
    B * N * N ≤ ((init_get_jk d _eri1 _dmtril B S N).d_buf3.capacity : Int) ∧
    S * N * N ≤ ((init_get_jk d _eri1 _dmtril B S N).d_vkk.capacity : Int) ∧
    4 * N * N * d.num_threads ≤ ((init_get_jk d _eri1 _dmtril B S N).buf_fdrv.capacity : Int) ∧
    S * (N * (N + 1) / 2) ≤ ((init_get_jk d _eri1 _dmtril B S N).vj.capacity : Int) ∧
    (∀ i : Nat, (i : Int) < S * (N * (N + 1) / 2) →
      (init_get_jk d _eri1 _dmtril B S N).vj.mem i = 0) ∧
    PoolInv (init_get_jk d _eri1 _dmtril B S N) := by
  have nP : 0 ≤ N * (N + 1) / 2 := Int.ediv_nonneg (mul_nonneg hN (by omega)) (by norm_num)
  have nvj : 0 ≤ S * (N * (N + 1) / 2) := mul_nonneg hS nP
  have nvk : 0 ≤ S * N * N := mul_nonneg (mul_nonneg hS hN) hN
  have nbuf : 0 ≤ B * N * N := mul_nonneg (mul_nonneg hB hN) hN
  have nfd : 0 ≤ 4 * N * N * d.num_threads :=
    mul_nonneg (mul_nonneg (mul_nonneg (by norm_num) hN) hN) hT
  have evj : _size_vj _eri1 _dmtril = S * (N * (N + 1) / 2) := by
    unfold _size_vj
    rw [hdm, he]
    exact wrap32_of_fits _ (by omega) fvj
  have evk := _size_vk_eval S N (by omega) fvk
  have ebuf := _size_buf_eval B N (by omega) (by omega)
  have efd := _size_fdrv_eval N d.num_threads (by omega) ffd
  obtain ⟨vj, vkk, bt, b3, b4, d2, d3, bf, p, h, s, e, f1, f2, f3, f4, _⟩ :=
    init_get_jk_contract d _eri1 _dmtril B S N
  rw [evj] at f1 e
  rw [evk] at f2 e
  rw [ebuf] at f3 e
  rw [efd] at f4 e
  obtain ⟨i1, i2, i3, i4, i5, i6, i7, i8⟩ := hinv
  have kvj := pool_slot vj d.vj d.size_vj _ nvj fvj i1 (fun hle => (f1.1 hle).2) f1.2.1
  have kvk := pool_slot vkk d.d_vkk d.size_vk _ nvk fvk i2
    (fun hle => by rw [f2.1 hle]) f2.2
  have kbt := pool_slot2 bt d.buf_tmp d.size_buf _ nbuf fbuf i3
    (fun hle => by rw [(f3.1 hle).1]) (fun hlt => (f3.2 hlt).1)
  have kb3 := pool_slot b3 d.buf3 d.size_buf _ nbuf (by omega) i4
    (fun hle => by rw [(f3.1 hle).2.1]) (fun hlt => (f3.2 hlt).2.1)
  have kb4 := pool_slot b4 d.buf4 d.size_buf _ nbuf (by omega) i5
    (fun hle => by rw [(f3.1 hle).2.2.1]) (fun hlt => (f3.2 hlt).2.2.1)
  have kd2 := pool_slot d2 d.d_buf2 d.size_buf _ nbuf (by omega) i6
    (fun hle => by rw [(f3.1 hle).2.2.2.1]) (fun hlt => (f3.2 hlt).2.2.2.1)
  have kd3 := pool_slot d3 d.d_buf3 d.size_buf _ nbuf (by omega) i7
    (fun hle => by rw [(f3.1 hle).2.2.2.2]) (fun hlt => (f3.2 hlt).2.2.2.2)
  have kbf := pool_slot bf d.buf_fdrv d.size_fdrv _ nfd ffd i8
    (fun hle => by rw [f4.1 hle]) f4.2
  rw [e]
  refine ⟨kbt.1, kb3.1, kb4.1, kd2.1, kd3.1, kvk.1, kbf.1, kvj.1, ?_, ?_⟩
  · intro i hi
    exact f1.2.2 i (by omega)
  · exact ⟨kvj.2, kvk.2, kbt.2, kb3.2, kb4.2, kd2.2, kd3.2, kbf.2⟩

theorem poolInv_empty (T : Int) : PoolInv (Device.empty ℤ T) := by
  unfold PoolInv Device.empty Buf.capacity Buf.null
  simp

/-- C9 at `B = 4, S = 1, N = 8`, one worker, `ERI : (4, 36)`, `DM_tril : (1, 36)`, starting
with nothing allocated. -/
theorem init_get_jk_pool_postcondition_witness :
    PoolInv (Device.empty ℤ 1) ∧
    (2 * (4 * 8 * 8) : Int) ≤ ((init_get_jk (Device.empty ℤ 1) ⟨[4, 36], fun _ => 0⟩
        ⟨[1, 36], fun _ => 0⟩ 4 1 8).buf_tmp.capacity : Int) ∧
    (1 * (8 * (8 + 1) / 2) : Int) ≤ ((init_get_jk (Device.empty ℤ 1) ⟨[4, 36], fun _ => 0⟩
        ⟨[1, 36], fun _ => 0⟩ 4 1 8).vj.capacity : Int) ∧
    (∀ i : Nat, (i : Int) < 1 * (8 * (8 + 1) / 2) →
      (init_get_jk (Device.empty ℤ 1) ⟨[4, 36], fun _ => 0⟩
        ⟨[1, 36], fun _ => 0⟩ 4 1 8).vj.mem i = 0) ∧
    PoolInv (init_get_jk (Device.empty ℤ 1) ⟨[4, 36], fun _ => 0⟩ ⟨[1, 36], fun _ => 0⟩ 4 1 8) := by
  have hT : (Device.empty ℤ 1).num_threads = 1 := rfl
  have h := init_get_jk_pool_postcondition (Device.empty ℤ 1) (poolInv_empty 1)
    ⟨[4, 36], fun _ => 0⟩ ⟨[1, 36], fun _ => 0⟩ 4 1 8 (by norm_num) (by norm_num) (by norm_num)
    (by rw [hT]; norm_num) rfl (by simp [PyArray.dim]) (by norm_num) (by norm_num)
    (by norm_num) (by rw [hT]; norm_num)
  exact ⟨poolInv_empty 1, h.1, h.2.2.2.2.2.2.2.1, h.2.2.2.2.2.2.2.2.1, h.2.2.2.2.2.2.2.2.2⟩

/-! ## Phase K: the output -/

/-- The sum computed by the GEMM is the block `Σ_i transpose(D_k * E_i) * E_i`. -/
theorem kBlock_eq {R : Type} [CommRing R] (naux nao : Nat) (eri1 : Mem R)
    (_dms_list : Nat → Mem R) (k a b : Nat) :
    (∑ i in Finset.range naux, ∑ j in Finset.range nao,
        unpackSym eri1 (nao * (nao + 1) / 2) i j b
        * ∑ t in Finset.range nao,
            unpackSym eri1 (nao * (nao + 1) / 2) i a t * _dms_list k (j * nao + t))
      = kBlock naux nao eri1 _dms_list k a b := by
  unfold kBlock matMul matT dmsEntry
  apply Finset.sum_congr rfl
  intro i _
  apply Finset.sum_congr rfl
  intro j _
  rw [mul_comm]
  congr 1
  apply Finset.sum_congr rfl
  intro t _
  rw [mul_comm, unpackSym_comm]

theorem get_jk_vk_eq {R : Type} [CommRing R] (d : Device R) (tid : Nat → Nat)
    (naux nao nset : Nat) (_eri1 _dmtril : PyArray R) (_dms_list : Nat → Mem R)
    (_vj _vk : PyArray R) (count : Int) :
    ∃ d2 : Device R, d2.blksize = d.blksize ∧
      (get_jk d tid naux nao nset _eri1 _dmtril _dms_list _vj _vk count).vk
        = (forLoop nset (fun indxK st =>
            get_jk_iterK tid naux nao nset _eri1.ptr _dms_list count indxK st) (d2, _vk.ptr)).2 := by
  obtain ⟨s, r, p, h⟩ := get_jk_rho_alloc_shape d _eri1 _dmtril
  rw [get_jk, h]
  exact ⟨{ ({ d with size_rho := s, rho := r, pm := p } : Device R) with
    rho := { r with mem := get_jk_rho naux nao nset _eri1.ptr _dmtril.ptr r.mem } }, rfl, rfl⟩

/-- Closed form of the `vk` output of `get_jk`: cell `(a, b)` of block `k` sits at offset
`a * (S * N) + k * N + b`. -/
theorem get_jk_vk_block {R : Type} [CommRing R] (d : Device R) (tid : Nat → Nat)
    (naux nao nset : Nat) (_eri1 _dmtril : PyArray R) (_dms_list : Nat → Mem R)
    (_vj _vk : PyArray R) (count : Int) (hB : (naux : Int) ≤ d.blksize) (k a b : Nat)
    (hk : k < nset) (ha : a < nao) (hb : b < nao) :
    (get_jk d tid naux nao nset _eri1 _dmtril _dms_list _vj _vk count).vk
        (a * (nset * nao) + k * nao + b)
      = kBlock naux nao _eri1.ptr _dms_list k a b
        + (if count = 0 then 0 else 1) * _vk.ptr (a * (nset * nao) + k * nao + b) := by
  have hidx : a * (nset * nao) + k * nao + b = k * nao + (b + a * (nset * nao)) := by ring
  obtain ⟨d2, hd2, e⟩ := get_jk_vk_eq d tid naux nao nset _eri1 _dmtril _dms_list _vj _vk count
  rw [hidx, e, get_jk_loopK_at tid naux nao nset _eri1.ptr _dms_list count (d2, _vk.ptr)
    (by show naux ≤ d2.blksize.toNat; rw [hd2]; omega) k b a hk hb ha, kBlock_eq]

theorem vk_pos_surj {nset nao off : Nat} (h : off < nset * nao * nao) :
    ∃ k a b, k < nset ∧ a < nao ∧ b < nao ∧ off = a * (nset * nao) + k * nao + b := by
  have hn : 0 < nao := by
    rcases Nat.eq_zero_or_pos nao with h0 | h0
    · subst h0; simp at h
    · exact h0
  have hs : 0 < nset := by
    rcases Nat.eq_zero_or_pos nset with h0 | h0
    · subst h0; simp at h
    · exact h0
  have hsn : 0 < nset * nao := Nat.mul_pos hs hn
  refine ⟨off % (nset * nao) / nao, off / (nset * nao), off % (nset * nao) % nao, ?_, ?_, ?_, ?_⟩
  · rw [Nat.div_lt_iff_lt_mul hn]
    exact Nat.mod_lt _ hsn
  · rw [Nat.div_lt_iff_lt_mul hsn]
    have : nao * (nset * nao) = nset * nao * nao := by ring
    omega
  · exact Nat.mod_lt _ hn
  · have h1 := Nat.div_add_mod off (nset * nao)
    have h2 := Nat.div_add_mod (off % (nset * nao)) nao
    have h3 : off / (nset * nao) * (nset * nao) = nset * nao * (off / (nset * nao)) := by ring
    have h4 : off % (nset * nao) / nao * nao = nao * (off % (nset * nao) / nao) := by ring
    omega

/-! ## Claims on K -/

/-- C2 as stated fails: with `S = 1, N = 2, n_aux = 1, B = 1`, `ERI = [[0,1,0]]` (so
`E_0 = [[0,1],[1,0]]`), the symmetric density `D_0 = [[1,0],[0,0]]` and `count = 0`, `get_jk`
leaves `VK[0][0,0] = 0` and `VK[0][1,1] = 1`, while `Σ_i (D_0 · E_i) · E_i = D_0` has entry
`[0,0] = 1` and entry `[1,1] = 0`. -/
theorem get_jk_vk_spec_formula_counterexample :
    (get_jk (init_get_jk (Device.empty ℤ 1) ⟨[1, 3], Mem.ofList [0, 1, 0]⟩
          ⟨[1, 3], Mem.ofList [1, 0, 0]⟩ 1 1 2)
        (fun _ => 0) 1 2 1 ⟨[1, 3], Mem.ofList [0, 1, 0]⟩ ⟨[1, 3], Mem.ofList [1, 0, 0]⟩
        (fun _ => Mem.ofList [1, 0, 0, 0]) ⟨[1, 3], Mem.ofList [0, 0, 0]⟩
        ⟨[1, 2, 2], Mem.ofList [0, 0, 0, 0]⟩ 0).vk (0 * (1 * 2) + 0 * 2 + 0) = 0 ∧
    kSpec 1 2 (Mem.ofList [(0 : ℤ), 1, 0]) (fun _ => Mem.ofList [1, 0, 0, 0]) 0 0 0 = 1 ∧
    (get_jk (init_get_jk (Device.empty ℤ 1) ⟨[1, 3], Mem.ofList [0, 1, 0]⟩
          ⟨[1, 3], Mem.ofList [1, 0, 0]⟩ 1 1 2)
        (fun _ => 0) 1 2 1 ⟨[1, 3], Mem.ofList [0, 1, 0]⟩ ⟨[1, 3], Mem.ofList [1, 0, 0]⟩
        (fun _ => Mem.ofList [1, 0, 0, 0]) ⟨[1, 3], Mem.ofList [0, 0, 0]⟩
        ⟨[1, 2, 2], Mem.ofList [0, 0, 0, 0]⟩ 0).vk (1 * (1 * 2) + 0 * 2 + 1) = 1 ∧
    kSpec 1 2 (Mem.ofList [(0 : ℤ), 1, 0]) (fun _ => Mem.ofList [1, 0, 0, 0]) 0 1 1 = 0 := by
  have h := fun a b ha hb => get_jk_vk_block
    (init_get_jk (Device.empty ℤ 1) ⟨[1, 3], Mem.ofList [0, 1, 0]⟩
      ⟨[1, 3], Mem.ofList [1, 0, 0]⟩ 1 1 2)
    (fun _ => 0) 1 2 1 ⟨[1, 3], Mem.ofList [0, 1, 0]⟩ ⟨[1, 3], Mem.ofList [1, 0, 0]⟩
    (fun _ => Mem.ofList [1, 0, 0, 0]) ⟨[1, 3], Mem.ofList [0, 0, 0]⟩
    ⟨[1, 2, 2], Mem.ofList [0, 0, 0, 0]⟩ 0 (by rw [init_get_jk_blksize]; decide) 0 a b
    (by decide) ha hb
  have h00 := h 0 0 (by decide) (by decide)
  have h11 := h 1 1 (by decide) (by decide)
  refine ⟨?_, ?_, ?_, ?_⟩
  · rw [h00]
    simp [kBlock, matMul, matT, dmsEntry, unpackSym, pairIndex, Finset.sum_range_succ,
      Mem.ofList]
  · simp [kSpec, matMul, dmsEntry, unpackSym, pairIndex, Finset.sum_range_succ, Mem.ofList]
  · rw [h11]
    simp [kBlock, matMul, matT, dmsEntry, unpackSym, pairIndex, Finset.sum_range_succ,
      Mem.ofList]
  · simp [kSpec, matMul, dmsEntry, unpackSym, pairIndex, Finset.sum_range_succ, Mem.ofList]

/-- With `n_aux ≤ B` and `count = 0` the cell `(a, b)` of the block of density `s` is
`(Σ_i transpose(D_s · E_i) · E_i)[a, b]`; `get_jk` stores it at flat offset
`a * (S * N) + s * N + b` of `VK`. -/
theorem get_jk_vk_block_count_zero {R : Type} [CommRing R] (d : Device R) (tid : Nat → Nat)
    (naux nao nset blksize : Nat) (_eri1 _dmtril : PyArray R) (_dms_list : Nat → Mem R)
    (_vj _vk : PyArray R) (hB : naux ≤ blksize) (s a b : Nat) (hs : s < nset) (ha : a < nao)
    (hb : b < nao) :
    (get_jk (init_get_jk d _eri1 _dmtril blksize nset nao) tid naux nao nset _eri1 _dmtril
        _dms_list _vj _vk 0).vk (a * (nset * nao) + s * nao + b)
      = kBlock naux nao _eri1.ptr _dms_list s a b := by
  rw [get_jk_vk_block _ tid naux nao nset _eri1 _dmtril _dms_list _vj _vk 0
    (by rw [init_get_jk_blksize]; exact_mod_cast hB) s a b hs ha hb]
  simp

/-- C2 as amended: for a single density (`S = 1`) and `n_aux ≤ B` (pool prepared by
`init_get_jk`), after `get_jk` with `count = 0` the output read as a row-major `N x N` matrix is
`VK[0] = Σ_i transpose(D_0 · E_i) · E_i` (equal to `Σ_i E_i · transpose(D_0) · E_i`), the product
of the reference comment of the source, where `E_i` is the symmetric unpack of `ERI[i, :]`. -/
theorem get_jk_vk_single_density {R : Type} [CommRing R] (d : Device R) (tid : Nat → Nat)
    (naux nao blksize : Nat) (_eri1 _dmtril : PyArray R) (_dms_list : Nat → Mem R)
    (_vj _vk : PyArray R) (hB : naux ≤ blksize) (a b : Nat) (ha : a < nao) (hb : b < nao) :
    (get_jk (init_get_jk d _eri1 _dmtril blksize 1 nao) tid naux nao 1 _eri1 _dmtril
        _dms_list _vj _vk 0).vk (a * nao + b)
      = kBlock naux nao _eri1.ptr _dms_list 0 a b := by
  have hidx : a * nao + b = a * (1 * nao) + 0 * nao + b := by ring
  rw [hidx, get_jk_vk_block _ tid naux nao 1 _eri1 _dmtril _dms_list _vj _vk 0
    (by rw [init_get_jk_blksize]; exact_mod_cast hB) 0 a b (by decide) ha hb]
  simp

/-- C2 as amended, at `S = 1, N = 2, n_aux = 1, B = 1`, `ERI = [[0,1,0]]`,
`D_0 = [[1,0],[0,0]]`: the entry `[1,1]` of `VK[0]`. -/
theorem get_jk_vk_single_density_witness :
    (1 ≤ 1 ∧ 1 < 2 ∧ 1 < 2) ∧
    (get_jk (init_get_jk (Device.empty ℤ 1) ⟨[1, 3], Mem.ofList [0, 1, 0]⟩
          ⟨[1, 3], Mem.ofList [1, 0, 0]⟩ ((1 : Nat) : Int) 1 ((2 : Nat) : Int))
        (fun _ => 0) 1 2 1 ⟨[1, 3], Mem.ofList [0, 1, 0]⟩ ⟨[1, 3], Mem.ofList [1, 0, 0]⟩
        (fun _ => Mem.ofList [1, 0, 0, 0]) ⟨[1, 3], Mem.ofList [0, 0, 0]⟩
        ⟨[1, 2, 2], Mem.ofList [0, 0, 0, 0]⟩ 0).vk (1 * 2 + 1)
      = kBlock 1 2 (Mem.ofList [(0 : ℤ), 1, 0]) (fun _ => Mem.ofList [1, 0, 0, 0]) 0 1 1 :=
  ⟨⟨by decide, by decide, by decide⟩,
   get_jk_vk_single_density (Device.empty ℤ 1) (fun _ => 0) 1 2 1
     ⟨[1, 3], Mem.ofList [0, 1, 0]⟩ ⟨[1, 3], Mem.ofList [1, 0, 0]⟩
     (fun _ => Mem.ofList [1, 0, 0, 0]) ⟨[1, 3], Mem.ofList [0, 0, 0]⟩
     ⟨[1, 2, 2], Mem.ofList [0, 0, 0, 0]⟩ (by decide) 1 1 (by decide) (by decide)⟩

/-- C4: accumulation law. With `n_aux ≤ B`, running `get_jk` with `count = 0` and then again
with `count = 1` on the same `ERI`, `DM_tril`, densities and the arrays left by the first call
gives `VK_final = 2 * VK_single` at every offset of the `S·N·N` output. -/
theorem get_jk_accumulation_law {R : Type} [CommRing R] (d : Device R) (tid tid2 : Nat → Nat)
    (naux nao nset : Nat) (_eri1 _dmtril : PyArray R) (_dms_list : Nat → Mem R)
    (_vj _vk : PyArray R) (hB : (naux : Int) ≤ d.blksize) (off : Nat)
    (hoff : off < nset * nao * nao) :
    (get_jk (get_jk d tid naux nao nset _eri1 _dmtril _dms_list _vj _vk 0).dev tid2 naux nao nset
        _eri1 _dmtril _dms_list
        ⟨_vj.shape, (get_jk d tid naux nao nset _eri1 _dmtril _dms_list _vj _vk 0).vj⟩
        ⟨_vk.shape, (get_jk d tid naux nao nset _eri1 _dmtril _dms_list _vj _vk 0).vk⟩ 1).vk off
      = 2 * (get_jk d tid naux nao nset _eri1 _dmtril _dms_list _vj _vk 0).vk off := by
  obtain ⟨k, a, b, hk, ha, hb, rfl⟩ := vk_pos_surj hoff
  rw [get_jk_vk_block _ tid2 naux nao nset _eri1 _dmtril _dms_list _ _ 1
    (by rw [get_jk_dev_blksize]; exact hB) k a b hk ha hb]
  simp only [if_neg (by decide : ¬ ((1 : Int) = 0))]
  rw [get_jk_vk_block d tid naux nao nset _eri1 _dmtril _dms_list _vj _vk 0 hB k a b hk ha hb]
  simp only [if_true]
  ring

/-- C4 at `S = 1, N = 2, n_aux = 1, B = 1`, `ERI = [[1,1,0]]`, `D_0 = [[1,2],[3,4]]`, offset 0. -/
theorem get_jk_accumulation_law_witness :
    ((1 : Int) ≤ 1 ∧ 0 < 1 * 2 * 2) ∧
    (get_jk (get_jk (init_get_jk (Device.empty ℤ 1) ⟨[1, 3], Mem.ofList [1, 1, 0]⟩
            ⟨[1, 3], Mem.ofList [1, 0, 0]⟩ 1 1 2)
          (fun _ => 0) 1 2 1 ⟨[1, 3], Mem.ofList [1, 1, 0]⟩ ⟨[1, 3], Mem.ofList [1, 0, 0]⟩
          (fun _ => Mem.ofList [1, 2, 3, 4]) ⟨[1, 3], Mem.ofList [0, 0, 0]⟩
          ⟨[1, 2, 2], Mem.ofList [0, 0, 0, 0]⟩ 0).dev
        (fun _ => 0) 1 2 1 ⟨[1, 3], Mem.ofList [1, 1, 0]⟩ ⟨[1, 3], Mem.ofList [1, 0, 0]⟩
        (fun _ => Mem.ofList [1, 2, 3, 4])
        ⟨[1, 3], (get_jk (init_get_jk (Device.empty ℤ 1) ⟨[1, 3], Mem.ofList [1, 1, 0]⟩
            ⟨[1, 3], Mem.ofList [1, 0, 0]⟩ 1 1 2)
          (fun _ => 0) 1 2 1 ⟨[1, 3], Mem.ofList [1, 1, 0]⟩ ⟨[1, 3], Mem.ofList [1, 0, 0]⟩
          (fun _ => Mem.ofList [1, 2, 3, 4]) ⟨[1, 3], Mem.ofList [0, 0, 0]⟩
          ⟨[1, 2, 2], Mem.ofList [0, 0, 0, 0]⟩ 0).vj⟩
        ⟨[1, 2, 2], (get_jk (init_get_jk (Device.empty ℤ 1) ⟨[1, 3], Mem.ofList [1, 1, 0]⟩
            ⟨[1, 3], Mem.ofList [1, 0, 0]⟩ 1 1 2)
          (fun _ => 0) 1 2 1 ⟨[1, 3], Mem.ofList [1, 1, 0]⟩ ⟨[1, 3], Mem.ofList [1, 0, 0]⟩
          (fun _ => Mem.ofList [1, 2, 3, 4]) ⟨[1, 3], Mem.ofList [0, 0, 0]⟩
          ⟨[1, 2, 2], Mem.ofList [0, 0, 0, 0]⟩ 0).vk⟩ 1).vk 0
      = 2 * (get_jk (init_get_jk (Device.empty ℤ 1) ⟨[1, 3], Mem.ofList [1, 1, 0]⟩
            ⟨[1, 3], Mem.ofList [1, 0, 0]⟩ 1 1 2)
          (fun _ => 0) 1 2 1 ⟨[1, 3], Mem.ofList [1, 1, 0]⟩ ⟨[1, 3], Mem.ofList [1, 0, 0]⟩
          (fun _ => Mem.ofList [1, 2, 3, 4]) ⟨[1, 3], Mem.ofList [0, 0, 0]⟩
          ⟨[1, 2, 2], Mem.ofList [0, 0, 0, 0]⟩ 0).vk 0 :=
  ⟨⟨by decide, by decide⟩,
   get_jk_accumulation_law (init_get_jk (Device.empty ℤ 1) ⟨[1, 3], Mem.ofList [1, 1, 0]⟩
      ⟨[1, 3], Mem.ofList [1, 0, 0]⟩ 1 1 2) (fun _ => 0) (fun _ => 0) 1 2 1
     ⟨[1, 3], Mem.ofList [1, 1, 0]⟩ ⟨[1, 3], Mem.ofList [1, 0, 0]⟩
     (fun _ => Mem.ofList [1, 2, 3, 4]) ⟨[1, 3], Mem.ofList [0, 0, 0]⟩
     ⟨[1, 2, 2], Mem.ofList [0, 0, 0, 0]⟩ (by rw [init_get_jk_blksize]; decide) 0 (by decide)⟩

/-- C5: `VK` is overwritten when `count = 0`. With `n_aux ≤ B`, at every offset of the `S·N·N`
output the value after `get_jk` with `count = 0` is the same for any two initial contents of
`VK`; with `count ≠ 0` the value is what `VK` held before plus the value of the `count = 0`
run. -/
theorem get_jk_vk_overwritten_at_count_zero {R : Type} [CommRing R] (d : Device R)
    (tid : Nat → Nat) (naux nao nset : Nat) (_eri1 _dmtril : PyArray R)
    (_dms_list : Nat → Mem R) (_vj _vk : PyArray R) (hB : (naux : Int) ≤ d.blksize) (off : Nat)
    (hoff : off < nset * nao * nao) :
    (∀ _vk2 : PyArray R,
      (get_jk d tid naux nao nset _eri1 _dmtril _dms_list _vj _vk 0).vk off
        = (get_jk d tid naux nao nset _eri1 _dmtril _dms_list _vj _vk2 0).vk off) ∧
    (∀ count : Int, count ≠ 0 →
      (get_jk d tid naux nao nset _eri1 _dmtril _dms_list _vj _vk count).vk off
        = _vk.ptr off
          + (get_jk d tid naux nao nset _eri1 _dmtril _dms_list _vj _vk 0).vk off) := by
  obtain ⟨k, a, b, hk, ha, hb, rfl⟩ := vk_pos_surj hoff
  constructor
  · intro _vk2
    rw [get_jk_vk_block d tid naux nao nset _eri1 _dmtril _dms_list _vj _vk 0 hB k a b hk ha hb,
      get_jk_vk_block d tid naux nao nset _eri1 _dmtril _dms_list _vj _vk2 0 hB k a b hk ha hb]
    simp only [if_true, zero_mul]
  · intro count hc
    rw [get_jk_vk_block d tid naux nao nset _eri1 _dmtril _dms_list _vj _vk count hB k a b hk ha hb,
      get_jk_vk_block d tid naux nao nset _eri1 _dmtril _dms_list _vj _vk 0 hB k a b hk ha hb]
    simp only [if_true, if_neg hc]
    ring

/-- C5 at `S = 1, N = 2, n_aux = 1, B = 1`, `ERI = [[1,1,0]]`, `D_0 = [[1,2],[3,4]]`, initial
`VK = [[10,20],[30,40]]`, offset 0. -/
theorem get_jk_vk_overwritten_at_count_zero_witness :
    ((1 : Int) ≤ 1 ∧ 0 < 1 * 2 * 2) ∧
    (∀ _vk2 : PyArray ℤ,
      (get_jk (init_get_jk (Device.empty ℤ 1) ⟨[1, 3], Mem.ofList [1, 1, 0]⟩
            ⟨[1, 3], Mem.ofList [1, 0, 0]⟩ 1 1 2)
          (fun _ => 0) 1 2 1 ⟨[1, 3], Mem.ofList [1, 1, 0]⟩ ⟨[1, 3], Mem.ofList [1, 0, 0]⟩
          (fun _ => Mem.ofList [1, 2, 3, 4]) ⟨[1, 3], Mem.ofList [0, 0, 0]⟩
          ⟨[1, 2, 2], Mem.ofList [10, 20, 30, 40]⟩ 0).vk 0
        = (get_jk (init_get_jk (Device.empty ℤ 1) ⟨[1, 3], Mem.ofList [1, 1, 0]⟩
            ⟨[1, 3], Mem.ofList [1, 0, 0]⟩ 1 1 2)
          (fun _ => 0) 1 2 1 ⟨[1, 3], Mem.ofList [1, 1, 0]⟩ ⟨[1, 3], Mem.ofList [1, 0, 0]⟩
          (fun _ => Mem.ofList [1, 2, 3, 4]) ⟨[1, 3], Mem.ofList [0, 0, 0]⟩ _vk2 0).vk 0) :=
  ⟨⟨by decide, by decide⟩,
   (get_jk_vk_overwritten_at_count_zero (init_get_jk (Device.empty ℤ 1)
      ⟨[1, 3], Mem.ofList [1, 1, 0]⟩ ⟨[1, 3], Mem.ofList [1, 0, 0]⟩ 1 1 2) (fun _ => 0) 1 2 1
     ⟨[1, 3], Mem.ofList [1, 1, 0]⟩ ⟨[1, 3], Mem.ofList [1, 0, 0]⟩
     (fun _ => Mem.ofList [1, 2, 3, 4]) ⟨[1, 3], Mem.ofList [0, 0, 0]⟩
     ⟨[1, 2, 2], Mem.ofList [10, 20, 30, 40]⟩ (by rw [init_get_jk_blksize]; decide) 0
     (by decide)).1⟩

/-- The flat storage of `VK` in the scenario `S = 2, N = 2, n_aux = 2, B = 2, count = 0`,
`ERI = [[1,0,0],[0,0,1]]`, `DM_tril = [[1,0,0],[0,0,1]]`, `D_0 = D_1 = I`, zero outputs, as the
code leaves it: `[1,0,1,0,0,1,0,1]`, from every state of the device object and for every
assignment of workers. -/
theorem get_jk_two_density_scenario (d : Device ℤ) (tid : Nat → Nat) :
    (List.range 8).map (get_jk (init_get_jk d ⟨[2, 3], Mem.ofList [1, 0, 0, 0, 0, 1]⟩
          ⟨[2, 3], Mem.ofList [1, 0, 0, 0, 0, 1]⟩ 2 2 2)
        tid 2 2 2 ⟨[2, 3], Mem.ofList [1, 0, 0, 0, 0, 1]⟩
        ⟨[2, 3], Mem.ofList [1, 0, 0, 0, 0, 1]⟩ (fun _ => Mem.ofList [1, 0, 0, 1])
        ⟨[2, 3], fun _ => 0⟩ ⟨[2, 2, 2], fun _ => 0⟩ 0).vk
      = [1, 0, 1, 0, 0, 1, 0, 1] := by
  have h := fun k a b hk ha hb => get_jk_vk_block
    (init_get_jk d ⟨[2, 3], Mem.ofList [1, 0, 0, 0, 0, 1]⟩
      ⟨[2, 3], Mem.ofList [1, 0, 0, 0, 0, 1]⟩ 2 2 2)
    tid 2 2 2 ⟨[2, 3], Mem.ofList [1, 0, 0, 0, 0, 1]⟩
    ⟨[2, 3], Mem.ofList [1, 0, 0, 0, 0, 1]⟩ (fun _ => Mem.ofList [1, 0, 0, 1])
    ⟨[2, 3], fun _ => 0⟩ ⟨[2, 2, 2], fun _ => 0⟩ 0 (by rw [init_get_jk_blksize]; decide) k a b
    hk ha hb
  have h0 := h 0 0 0 (by decide) (by decide) (by decide)
  have h1 := h 0 0 1 (by decide) (by decide) (by decide)
  have h2 := h 1 0 0 (by decide) (by decide) (by decide)
  have h3 := h 1 0 1 (by decide) (by decide) (by decide)
  have h4 := h 0 1 0 (by decide) (by decide) (by decide)
  have h5 := h 0 1 1 (by decide) (by decide) (by decide)
  have h6 := h 1 1 0 (by decide) (by decide) (by decide)
  have h7 := h 1 1 1 (by decide) (by decide) (by decide)
  simp only [Nat.reduceMul, Nat.reduceAdd] at h0 h1 h2 h3 h4 h5 h6 h7
  simp only [List.range, List.range.loop, List.map, h0, h1, h2, h3, h4, h5, h6, h7]
  simp [kBlock, matMul, matT, dmsEntry, unpackSym, pairIndex, Finset.sum_range_succ,
    Mem.ofList]

/-! ## Claims on the symmetry of K -/

/-- For a symmetric density the block `Σ_i transpose(D_k * E_i) * E_i` is symmetric. -/
theorem kBlock_symm {R : Type} [CommRing R] (naux nao : Nat) (eri1 : Mem R)
    (_dms_list : Nat → Mem R) (k : Nat)
    (hD : ∀ a b, a < nao → b < nao → _dms_list k (a * nao + b) = _dms_list k (b * nao + a))
    (a b : Nat) :
    kBlock naux nao eri1 _dms_list k a b = kBlock naux nao eri1 _dms_list k b a := by
  unfold kBlock matMul matT dmsEntry
  apply Finset.sum_congr rfl
  intro i _
  simp only [Finset.sum_mul]
  rw [Finset.sum_comm]
  apply Finset.sum_congr rfl
  intro t ht
  apply Finset.sum_congr rfl
  intro j hj
  rw [hD j t (Finset.mem_range.mp hj) (Finset.mem_range.mp ht)]
  ring

/-- C11, the code at `S = 2, N = 2, n_aux = 2, B = 2, count = 0`, `ERI = [[1,0,0],[0,0,1]]`,
`D_0 = D_1 = I` (symmetric): in the output read as a row-major `(S, N, N)` array, `VK[0][0,1]`
(offset 1) is `0` and `VK[0][1,0]` (offset 2) is `1`, so `VK[0]` is not symmetric. -/
theorem get_jk_vk_rowmajor_block_not_symmetric :
    (get_jk (init_get_jk (Device.empty ℤ 1) ⟨[2, 3], Mem.ofList [1, 0, 0, 0, 0, 1]⟩
          ⟨[2, 3], Mem.ofList [1, 0, 0, 0, 0, 1]⟩ 2 2 2)
        (fun _ => 0) 2 2 2 ⟨[2, 3], Mem.ofList [1, 0, 0, 0, 0, 1]⟩
        ⟨[2, 3], Mem.ofList [1, 0, 0, 0, 0, 1]⟩ (fun _ => Mem.ofList [1, 0, 0, 1])
        ⟨[2, 3], fun _ => 0⟩ ⟨[2, 2, 2], fun _ => 0⟩ 0).vk (0 * (2 * 2) + 0 * 2 + 1) = 0 ∧
    (get_jk (init_get_jk (Device.empty ℤ 1) ⟨[2, 3], Mem.ofList [1, 0, 0, 0, 0, 1]⟩
          ⟨[2, 3], Mem.ofList [1, 0, 0, 0, 0, 1]⟩ 2 2 2)
        (fun _ => 0) 2 2 2 ⟨[2, 3], Mem.ofList [1, 0, 0, 0, 0, 1]⟩
        ⟨[2, 3], Mem.ofList [1, 0, 0, 0, 0, 1]⟩ (fun _ => Mem.ofList [1, 0, 0, 1])
        ⟨[2, 3], fun _ => 0⟩ ⟨[2, 2, 2], fun _ => 0⟩ 0).vk (0 * (2 * 2) + 1 * 2 + 0) = 1 := by
  have h := fun k a b hk ha hb => get_jk_vk_block
    (init_get_jk (Device.empty ℤ 1) ⟨[2, 3], Mem.ofList [1, 0, 0, 0, 0, 1]⟩
      ⟨[2, 3], Mem.ofList [1, 0, 0, 0, 0, 1]⟩ 2 2 2)
    (fun _ => 0) 2 2 2 ⟨[2, 3], Mem.ofList [1, 0, 0, 0, 0, 1]⟩
    ⟨[2, 3], Mem.ofList [1, 0, 0, 0, 0, 1]⟩ (fun _ => Mem.ofList [1, 0, 0, 1])
    ⟨[2, 3], fun _ => 0⟩ ⟨[2, 2, 2], fun _ => 0⟩ 0 (by rw [init_get_jk_blksize]; decide) k a b
    hk ha hb
  constructor
  · rw [h 0 0 1 (by decide) (by decide) (by decide)]
    simp [kBlock, matMul, matT, dmsEntry, unpackSym, pairIndex, Finset.sum_range_succ,
      Mem.ofList]
  · rw [h 1 0 0 (by decide) (by decide) (by decide)]
    simp [kBlock, matMul, matT, dmsEntry, unpackSym, pairIndex, Finset.sum_range_succ,
      Mem.ofList]

/-- Symmetry of the block that `get_jk` computes: for `n_aux ≤ B`, if the density `D_s` is
symmetric then after `get_jk` with `count = 0` the cells `(a, b)` and `(b, a)` of the block of
density `s`, stored at flat offsets `a * (S * N) + s * N + b` and `b * (S * N) + s * N + a`,
hold the same value. For `S = 1` the block is the row-major `N x N` matrix `VK[0]`. -/
theorem get_jk_vk_block_symmetric {R : Type} [CommRing R] (d : Device R) (tid : Nat → Nat)
    (naux nao nset : Nat) (_eri1 _dmtril : PyArray R) (_dms_list : Nat → Mem R)
    (_vj _vk : PyArray R) (hB : (naux : Int) ≤ d.blksize) (s : Nat) (hs : s < nset)
    (hD : ∀ a b, a < nao → b < nao → _dms_list s (a * nao + b) = _dms_list s (b * nao + a))
    (a b : Nat) (ha : a < nao) (hb : b < nao) :
    (get_jk d tid naux nao nset _eri1 _dmtril _dms_list _vj _vk 0).vk
        (a * (nset * nao) + s * nao + b)
      = (get_jk d tid naux nao nset _eri1 _dmtril _dms_list _vj _vk 0).vk
        (b * (nset * nao) + s * nao + a) := by
  rw [get_jk_vk_block d tid naux nao nset _eri1 _dmtril _dms_list _vj _vk 0 hB s a b hs ha hb,
    get_jk_vk_block d tid naux nao nset _eri1 _dmtril _dms_list _vj _vk 0 hB s b a hs hb ha,
    kBlock_symm naux nao _eri1.ptr _dms_list s hD a b]
  simp only [if_true, zero_mul]

/-- Symmetry of the computed block at `S = 2, N = 2, n_aux = 2, B = 2`,
`ERI = [[1,1,0],[0,1,1]]`, the symmetric density `D_1 = [[1,2],[2,3]]`, cells `(0,1)` and
`(1,0)` of block 1. -/
theorem get_jk_vk_block_symmetric_witness :
    ((2 : Int) ≤ 2 ∧ 1 < 2 ∧
      (∀ a b, a < 2 → b < 2 → (Mem.ofList [1, 2, 2, 3] : Mem ℤ) (a * 2 + b)
        = (Mem.ofList [1, 2, 2, 3] : Mem ℤ) (b * 2 + a))) ∧
    (get_jk (init_get_jk (Device.empty ℤ 1) ⟨[2, 3], Mem.ofList [1, 1, 0, 0, 1, 1]⟩
          ⟨[2, 3], Mem.ofList [1, 0, 0, 0, 0, 1]⟩ 2 2 2)
        (fun _ => 0) 2 2 2 ⟨[2, 3], Mem.ofList [1, 1, 0, 0, 1, 1]⟩
        ⟨[2, 3], Mem.ofList [1, 0, 0, 0, 0, 1]⟩ (fun _ => Mem.ofList [1, 2, 2, 3])
        ⟨[2, 3], fun _ => 0⟩ ⟨[2, 2, 2], fun _ => 0⟩ 0).vk (0 * (2 * 2) + 1 * 2 + 1)
      = (get_jk (init_get_jk (Device.empty ℤ 1) ⟨[2, 3], Mem.ofList [1, 1, 0, 0, 1, 1]⟩
          ⟨[2, 3], Mem.ofList [1, 0, 0, 0, 0, 1]⟩ 2 2 2)
        (fun _ => 0) 2 2 2 ⟨[2, 3], Mem.ofList [1, 1, 0, 0, 1, 1]⟩
        ⟨[2, 3], Mem.ofList [1, 0, 0, 0, 0, 1]⟩ (fun _ => Mem.ofList [1, 2, 2, 3])
        ⟨[2, 3], fun _ => 0⟩ ⟨[2, 2, 2], fun _ => 0⟩ 0).vk (1 * (2 * 2) + 1 * 2 + 0) := by
  have hD : ∀ a b, a < 2 → b < 2 → (Mem.ofList [1, 2, 2, 3] : Mem ℤ) (a * 2 + b)
      = (Mem.ofList [1, 2, 2, 3] : Mem ℤ) (b * 2 + a) := by
    intro a b ha hb
    interval_cases a <;> interval_cases b <;> simp [Mem.ofList]
  exact ⟨⟨by decide, by decide, hD⟩,
    get_jk_vk_block_symmetric (init_get_jk (Device.empty ℤ 1)
      ⟨[2, 3], Mem.ofList [1, 1, 0, 0, 1, 1]⟩ ⟨[2, 3], Mem.ofList [1, 0, 0, 0, 0, 1]⟩ 2 2 2)
    (fun _ => 0) 2 2 2 ⟨[2, 3], Mem.ofList [1, 1, 0, 0, 1, 1]⟩
    ⟨[2, 3], Mem.ofList [1, 0, 0, 0, 0, 1]⟩ (fun _ => Mem.ofList [1, 2, 2, 3])
    ⟨[2, 3], fun _ => 0⟩ ⟨[2, 2, 2], fun _ => 0⟩ (by rw [init_get_jk_blksize]; decide) 1
    (by decide) hD 0 1 (by decide) (by decide)⟩

/-! ## Claims on the rank facade -/

/-- C12: rank facade. From a running process, `MPI_Comm_rank(comm)` and `MPI_Comm_size(comm)`
return (do not exit) if and only if `comm` is the sentinel `MPI_COMM_WORLD = 0`; with the
sentinel the rank is set to `0` and the size to `1`; for every other `comm` each of them exits
with status `1` and leaves its output unwritten. -/
theorem MPI_Comm_rank_size_facade (comm : Int) (st : MpiState) (hrun : st.exited = none) :
    (((MPI_Comm_rank comm st).exited = none ↔ comm = MPI_COMM_WORLD) ∧
     ((MPI_Comm_size comm st).exited = none ↔ comm = MPI_COMM_WORLD)) ∧
    (comm = MPI_COMM_WORLD →
      (MPI_Comm_rank comm st).out = 0 ∧ (MPI_Comm_size comm st).out = 1) ∧
    (comm ≠ MPI_COMM_WORLD →
      (MPI_Comm_rank comm st).exited = some 1 ∧ (MPI_Comm_rank comm st).out = st.out ∧
      (MPI_Comm_size comm st).exited = some 1 ∧ (MPI_Comm_size comm st).out = st.out) := by
  unfold MPI_COMM_WORLD
  rw [MPI_Comm_rank, MPI_Comm_size]
  by_cases h : comm = 0
  · simp only [h, ne_eq, not_true_eq_false, if_false, hrun, true_and, and_self, implies_true,
      IsEmpty.forall_iff, and_true]
  · simp only [ne_eq, h, not_false_eq_true, if_true, false_iff, true_and, and_self,
      implies_true, and_true, IsEmpty.forall_iff]
    simp

/-- C12 at `comm = 5` from a running process whose output cell holds `7`. -/
theorem MPI_Comm_rank_size_facade_witness :
    (⟨7, [], none⟩ : MpiState).exited = none ∧
    (MPI_Comm_rank 5 ⟨7, [], none⟩).exited = some 1 ∧ (MPI_Comm_rank 5 ⟨7, [], none⟩).out = 7 ∧
    (MPI_Comm_size 5 ⟨7, [], none⟩).exited = some 1 ∧ (MPI_Comm_size 5 ⟨7, [], none⟩).out = 7 ∧
    (MPI_Comm_rank MPI_COMM_WORLD ⟨7, [], none⟩).out = 0 ∧
    (MPI_Comm_size MPI_COMM_WORLD ⟨7, [], none⟩).out = 1 :=
  ⟨rfl,
   ((MPI_Comm_rank_size_facade 5 ⟨7, [], none⟩ rfl).2.2 (by decide)).1,
   ((MPI_Comm_rank_size_facade 5 ⟨7, [], none⟩ rfl).2.2 (by decide)).2.1,
   ((MPI_Comm_rank_size_facade 5 ⟨7, [], none⟩ rfl).2.2 (by decide)).2.2.1,
   ((MPI_Comm_rank_size_facade 5 ⟨7, [], none⟩ rfl).2.2 (by decide)).2.2.2,
   ((MPI_Comm_rank_size_facade MPI_COMM_WORLD ⟨7, [], none⟩ rfl).2.1 rfl).1,
   ((MPI_Comm_rank_size_facade MPI_COMM_WORLD ⟨7, [], none⟩ rfl).2.1 rfl).2⟩

/-! ## Claims on the K iteration -/

/-- C13: K-block placement and frame. For `n_aux ≤ B` and `k < S`, iteration `k` of Phase K
sets the flat `VK` element at offset `a * (S * N) + k * N + b` (`a, b < N`) to
`Σ_i (E_i · transpose(D_k) · E_i)[a, b]` when `count = 0` and adds that sum to the old value
when `count ≠ 0`; every other offset holds after the iteration what it held before; and the
offsets of the blocks of two different densities are distinct, so the interleaved blocks never
overwrite one another. -/
theorem get_jk_iterK_block_placement {R : Type} [CommRing R] (tid : Nat → Nat)
    (naux nao nset : Nat) (eri1 : Mem R) (_dms_list : Nat → Mem R) (count : Int) (k : Nat)
    (st : Device R × Mem R) (hB : (naux : Int) ≤ st.1.blksize) (hk : k < nset) :
    (∀ a b, a < nao → b < nao →
      (get_jk_iterK tid naux nao nset eri1 _dms_list count k st).2
          (a * (nset * nao) + k * nao + b)
        = (∑ i in Finset.range naux,
            matMul nao (matMul nao (unpackSym eri1 (nao * (nao + 1) / 2) i)
                (matT (dmsEntry _dms_list nao k)))
              (unpackSym eri1 (nao * (nao + 1) / 2) i) a b)
          + (if count = 0 then 0 else 1) * st.2 (a * (nset * nao) + k * nao + b)) ∧
    (∀ off, (∀ a b, a < nao → b < nao → off ≠ a * (nset * nao) + k * nao + b) →
      (get_jk_iterK tid naux nao nset eri1 _dms_list count k st).2 off = st.2 off) ∧
    (∀ k2 a b a2 b2, k2 < nset → k2 ≠ k → b < nao → b2 < nao →
      a * (nset * nao) + k * nao + b ≠ a2 * (nset * nao) + k2 * nao + b2) := by
  refine ⟨?_, ?_, ?_⟩
  · intro a b ha hb
    have hidx : a * (nset * nao) + k * nao + b = k * nao + (b + a * (nset * nao)) := by ring
    rw [hidx, get_jk_iterK_at tid naux nao nset eri1 _dms_list count k st (by omega) hk b a hb ha]
    congr 1
    unfold matMul matT dmsEntry
    apply Finset.sum_congr rfl
    intro i _
    apply Finset.sum_congr rfl
    intro j _
    rw [mul_comm]
  · intro off hoff
    apply get_jk_iterK_frame
    intro r c hr hc h
    exact hoff c r hc hr (by rw [h]; ring)
  · intro k2 a b a2 b2 hk2 hne hb hb2 h
    have h2 : k * nao + (b + a * (nset * nao)) = k2 * nao + (b2 + a2 * (nset * nao)) := by
      have e1 : k * nao + (b + a * (nset * nao)) = a * (nset * nao) + k * nao + b := by ring
      have e2 : k2 * nao + (b2 + a2 * (nset * nao)) = a2 * (nset * nao) + k2 * nao + b2 := by
        ring
      rw [e1, e2, h]
    have := vk_pos_inj hk hk2 hb hb2 h2
    omega

/-- C13 at `S = 2, N = 2, n_aux = 1, B = 1`, iteration `k = 1`, `count = 0`: cell `(0, 0)` of
block 1 sits at offset 2. -/
theorem get_jk_iterK_block_placement_witness :
    (((1 : Nat) : Int) ≤ (1 : Int) ∧ 1 < 2) ∧
    (get_jk_iterK (fun _ => 0) 1 2 2 (Mem.ofList [1, 1, 0]) (fun _ => Mem.ofList [1, 2, 3, 4]) 0 1
        (init_get_jk (Device.empty ℤ 1) ⟨[1, 3], Mem.ofList [1, 1, 0]⟩
          ⟨[2, 3], fun _ => 0⟩ 1 2 2, fun _ => 9)).2 (0 * (2 * 2) + 1 * 2 + 0)
      = (∑ i in Finset.range 1,
          matMul 2 (matMul 2 (unpackSym (Mem.ofList [(1 : ℤ), 1, 0]) (2 * (2 + 1) / 2) i)
              (matT (dmsEntry (fun _ => Mem.ofList [1, 2, 3, 4]) 2 1)))
            (unpackSym (Mem.ofList [(1 : ℤ), 1, 0]) (2 * (2 + 1) / 2) i) 0 0)
        + (if (0 : Int) = 0 then 0 else 1) * (fun _ => (9 : ℤ)) (0 * (2 * 2) + 1 * 2 + 0) :=
  ⟨⟨by decide, by decide⟩,
   (get_jk_iterK_block_placement (fun _ => 0) 1 2 2 (Mem.ofList [1, 1, 0])
      (fun _ => Mem.ofList [1, 2, 3, 4]) 0 1
      (init_get_jk (Device.empty ℤ 1) ⟨[1, 3], Mem.ofList [1, 1, 0]⟩
        ⟨[2, 3], fun _ => 0⟩ 1 2 2, fun _ => 9)
      (by show ((1 : Nat) : Int) ≤ (init_get_jk (Device.empty ℤ 1) _ _ 1 2 2).blksize
          rw [init_get_jk_blksize]; decide)
      (by decide)).1 0 0 (by decide) (by decide)⟩

/-! ## Claims on the GEMM path -/

/-- The `vk` left by an iteration of Phase K is the GEMM path run on the buffers produced by
`fdrv` and the unpack. -/
theorem get_jk_iterK_gemm_stage {R : Type} [CommRing R] (tid : Nat → Nat) (naux nao nset : Nat)
    (eri1 : Mem R) (_dms_list : Nat → Mem R) (count : Int) (indxK : Nat)
    (st : Device R × Mem R) :
    (get_jk_iterK tid naux nao nset eri1 _dms_list count indxK st).2
      = get_jk_gemm_stage naux nao nset st.1.blksize.toNat count indxK
          (get_jk_unpack st.1.blksize.toNat naux nao eri1
            (fdrv tid st.1.buf_tmp.mem eri1 (_dms_list indxK) naux nao
              (fun t => if t = 1 ∨ t = 3 then nao else 0) st.1.buf_fdrv.mem).1)
          st.1.buf3.mem st.1.d_buf2.mem st.1.d_buf3.mem st.1.d_vkk.mem st.2 := rfl

/-- C14: the GEMM path equals the row-major reference. For `S = 1` and `n_aux ≤ B`, the
permutation of `buf1` into `buf3` followed by the column-major GEMM (no transposes,
`m = n = N`, `k = n_aux·N`, `A = buf2` with leading dimension `N`, `B = buf3` with leading
dimension `n_aux·N`, `C` with leading dimension `S·N`, `alpha = 1`, `beta = 0` if `count = 0`
else `1`) leaves the row-major `N x N` array `VK` equal to
`beta · VK_old + transpose(reshape(buf1, (n_aux·N, N))) · reshape(buf2, (n_aux·N, N))`, for any
contents of the buffers. -/
theorem get_jk_gemm_stage_refines_reference {R : Type} [CommRing R] (naux nao blksize : Nat)
    (count : Int) (buf_tmp buf3 d_buf2 d_buf3 d_vkk vk : Mem R) (hB : naux ≤ blksize)
    (a b : Nat) (ha : a < nao) (hb : b < nao) :
    get_jk_gemm_stage naux nao 1 blksize count 0 buf_tmp buf3 d_buf2 d_buf3 d_vkk vk
        (a * nao + b)
      = refGemm (if count = 0 then 0 else 1) vk buf_tmp
          (fun t => buf_tmp (blksize * nao * nao + t)) naux nao a b := by
  have hdiv1 : 1 * nao * nao * 8 / 8 = 1 * nao * nao := Nat.mul_div_cancel _ (by decide)
  have hdivB : blksize * nao * nao * 8 / 8 = blksize * nao * nao :=
    Nat.mul_div_cancel _ (by decide)
  have hlt : a * nao + b < 1 * nao * nao := by
    rw [Nat.one_mul]; exact mul_add_lt hb ha
  have hle : naux * nao * nao ≤ blksize * nao * nao :=
    Nat.mul_le_mul_right nao (Nat.mul_le_mul_right nao hB)
  have hpos : a * nao + b = b + a * (1 * nao) := by ring
  have hlt2 : b + a * (1 * nao) < 1 * nao * nao := by rw [← hpos]; exact hlt
  unfold get_jk_gemm_stage refGemm
  simp only [dev_pull, hdiv1, Nat.zero_mul, Nat.zero_le, true_and, Nat.zero_add, if_pos hlt,
    Nat.sub_zero]
  rw [hpos, cublasDgemm_NN_at nao nao (naux * nao) 1 _ nao _ (naux * nao) _ _ (1 * nao)
    (by rw [Nat.one_mul]) b a hb ha, one_mul, add_comm]
  congr 1
  · simp only [dev_push, hdiv1]
    rw [if_pos hlt2]
  · apply Finset.sum_congr rfl
    intro l hl
    have hl' : l < naux * nao := Finset.mem_range.mp hl
    have hn : 0 < nao := by omega
    have hi : l / nao < naux := by
      rw [Nat.div_lt_iff_lt_mul hn]; exact hl'
    have hj : l % nao < nao := Nat.mod_lt _ hn
    have hl2 : l = (l / nao) * nao + l % nao := by
      have := Nat.div_add_mod l nao
      rw [Nat.mul_comm]; omega
    have hA : b + l * nao < blksize * nao * nao := by
      have := mul_add_lt hb hl'
      omega
    have hBl : l + a * (naux * nao) < blksize * nao * nao := by
      have h1 : a * (naux * nao) + l < nao * (naux * nao) := mul_add_lt hl' ha
      have h3 : nao * (naux * nao) = naux * nao * nao := by ring
      omega
    simp only [dev_push, hdivB, if_pos hA, if_pos hBl]
    have e3 : l + a * (naux * nao) = (a * naux + l / nao) * nao + l % nao := by
      have : (a * naux + l / nao) * nao + l % nao = a * (naux * nao) + ((l / nao) * nao + l % nao) := by
        ring
      omega
    rw [e3, get_jk_permute_at naux nao _ _ (l / nao) (l % nao) a hi hj ha, ← hl2, mul_comm,
      Nat.add_comm b (l * nao)]

/-- C14 at `n_aux = 1, N = 2, B = 1`, `count = 1`, entry `[0, 1]`. -/
theorem get_jk_gemm_stage_refines_reference_witness :
    (1 ≤ 1 ∧ 0 < 2 ∧ 1 < 2) ∧
    get_jk_gemm_stage 1 2 1 1 1 0 (Mem.ofList [(3 : ℤ), 1, 7, 3, 1, 1, 1, 0]) (fun _ => 0)
        (fun _ => 0) (fun _ => 0) (fun _ => 0) (Mem.ofList [10, 20, 30, 40]) (0 * 2 + 1)
      = refGemm (if (1 : Int) = 0 then 0 else 1) (Mem.ofList [10, 20, 30, 40])
          (Mem.ofList [(3 : ℤ), 1, 7, 3, 1, 1, 1, 0])
          (fun t => (Mem.ofList [(3 : ℤ), 1, 7, 3, 1, 1, 1, 0]) (1 * 2 * 2 + t)) 1 2 0 1 :=
  ⟨⟨by decide, by decide, by decide⟩,
   get_jk_gemm_stage_refines_reference 1 2 1 1 (Mem.ofList [(3 : ℤ), 1, 7, 3, 1, 1, 1, 0])
     (fun _ => 0) (fun _ => 0) (fun _ => 0) (fun _ => 0) (Mem.ofList [10, 20, 30, 40])
     (by decide) 0 1 (by decide) (by decide)⟩

/-! ## Frames of the scratch buffers -/

theorem fdrv_frame_above {R : Type} [CommRing R] (tid : Nat → Nat) (vout vin mo_coeff : Mem R)
    (nij nao : Nat) (orbs_slice : Nat → Nat) (_buf : Mem R) (off : Nat)
    (h : (orbs_slice 1 - orbs_slice 0) * nao * nij ≤ off) :
    (fdrv tid vout vin mo_coeff nij nao orbs_slice _buf).1 off = vout off := by
  unfold fdrv
  simp only
  apply forLoop_proj_frame (fun st : Mem R × Mem R => st.1 off)
  intro i hi st
  apply fdrv_iter_frame
  intro r c hr hc heq
  have h1 : c * nao + r < (orbs_slice 1 - orbs_slice 0) * nao := mul_add_lt hr hc
  have h2 : (orbs_slice 1 - orbs_slice 0) * nao * (i + 1)
      ≤ (orbs_slice 1 - orbs_slice 0) * nao * nij := Nat.mul_le_mul_left _ hi
  have h3 : (orbs_slice 1 - orbs_slice 0) * nao * (i + 1)
      = (orbs_slice 1 - orbs_slice 0) * nao * i + (orbs_slice 1 - orbs_slice 0) * nao := by ring
  omega

theorem fdrv_unpack_frame {R : Type} (vin : Mem R) (nao nao2 i : Nat) (_buf : Mem R)
    (b_off off : Nat) (h : ¬ (b_off ≤ off ∧ off < b_off + nao * nao)) :
    (fdrv_unpack vin nao nao2 i _buf b_off).1 off = _buf off := by
  unfold fdrv_unpack
  rw [triLoop_frame (fun s : Mem R × Nat => s.1 off) nao
    (fdrv_unpack_step vin nao nao2 i b_off) (_buf, 0)]
  intro j k s hj hk
  simp only [fdrv_unpack_step]
  rw [store_other]
  intro heq
  have := mul_add_lt (by omega : k < nao) hj
  omega

theorem fdrv_iter_scratch {R : Type} [CommRing R] (vin mo_coeff : Mem R)
    (nao bra_start bra_count it i : Nat) (st : Mem R × Mem R) (off : Nat)
    (h : ¬ (it * 4 * nao * nao ≤ off ∧ off < it * 4 * nao * nao + nao * nao)) :
    (fdrv_iter vin mo_coeff nao bra_start bra_count it i st).2 off = st.2 off := by
  unfold fdrv_iter
  simp only
  exact fdrv_unpack_frame vin nao _ i st.2 _ off h

theorem get_jk_unpack_frame {R : Type} (blksize naux nao : Nat) (eri1 p : Mem R) (off : Nat)
    (h : off < blksize * nao * nao ∨ blksize * nao * nao + naux * nao * nao ≤ off) :
    get_jk_unpack blksize naux nao eri1 p off = p off := by
  unfold get_jk_unpack
  apply forLoop_proj_frame (fun m : Mem R => m off)
  intro i hi m
  apply get_jk_unpack_row_frame
  intro j k hj hk heq
  have := idx3_lt hi hj hk
  omega

theorem get_jk_permute_frame {R : Type} (naux nao : Nat) (buf_tmp buf3 : Mem R) (off : Nat)
    (h : nao * naux * nao ≤ off) : get_jk_permute naux nao buf_tmp buf3 off = buf3 off := by
  unfold get_jk_permute
  simp only [DevArray3D]
  apply forLoop_proj_frame (fun m : Mem R => m off)
  intro i hi m
  apply forLoop_proj_frame (fun m : Mem R => m off)
  intro j hj m2
  apply forLoop_proj_frame (fun m : Mem R => m off)
  intro k hk m3
  rw [store_other]
  intro heq
  have := mul_add_lt hj (mul_add_lt hi hk)
  omega

/-! ## Claims on the scratch buffers -/

theorem get_jk_iterK_buf_tmp {R : Type} [CommRing R] (tid : Nat → Nat) (naux nao nset : Nat)
    (eri1 : Mem R) (_dms_list : Nat → Mem R) (count : Int) (indxK : Nat)
    (st : Device R × Mem R) :
    (get_jk_iterK tid naux nao nset eri1 _dms_list count indxK st).1.buf_tmp.mem
      = get_jk_unpack st.1.blksize.toNat naux nao eri1
          (fdrv tid st.1.buf_tmp.mem eri1 (_dms_list indxK) naux nao
            (fun t => if t = 1 ∨ t = 3 then nao else 0) st.1.buf_fdrv.mem).1 := rfl

theorem get_jk_iterK_buf3 {R : Type} [CommRing R] (tid : Nat → Nat) (naux nao nset : Nat)
    (eri1 : Mem R) (_dms_list : Nat → Mem R) (count : Int) (indxK : Nat)
    (st : Device R × Mem R) :
    (get_jk_iterK tid naux nao nset eri1 _dms_list count indxK st).1.buf3.mem
      = get_jk_permute naux nao
          (get_jk_unpack st.1.blksize.toNat naux nao eri1
            (fdrv tid st.1.buf_tmp.mem eri1 (_dms_list indxK) naux nao
              (fun t => if t = 1 ∨ t = 3 then nao else 0) st.1.buf_fdrv.mem).1)
          st.1.buf3.mem := rfl

/-! ## Recorded scratch accesses -/

theorem forLoop_fst {σ τ : Type} (n : Nat) (body : Nat → σ × τ → σ × τ) (f : Nat → σ → σ)
    (s0 : σ × τ) (h : ∀ i s, (body i s).1 = f i s.1) :
    (forLoop n body s0).1 = forLoop n f s0.1 := by
  induction n with
  | zero => rfl
  | succ n ih => rw [forLoop_succ, forLoop_succ, h, ih]

theorem forLoop_log {σ : Type} (P : Access → Prop) (n : Nat)
    (body : Nat → σ × List Access → σ × List Access) (s0 : σ × List Access)
    (h0 : ∀ a ∈ s0.2, P a)
    (h : ∀ i, i < n → ∀ s, (∀ a ∈ s.2, P a) → ∀ a ∈ (body i s).2, P a) :
    ∀ a ∈ (forLoop n body s0).2, P a := by
  induction n with
  | zero => exact h0
  | succ n ih =>
    rw [forLoop_succ]
    exact h n (Nat.lt_succ_self n) _ (ih (fun i hi => h i (Nat.lt_succ_of_lt hi)))

theorem storeAcc_log {R : Type} (P : Access → Prop) (b : Scratch) (p : Mem R) (i : Nat) (v : R)
    (log : List Access) (h0 : ∀ a ∈ log, P a) (h : P ⟨b, i, true⟩) :
    ∀ a ∈ (storeAcc b p i v log).2, P a := by
  intro a ha
  simp only [storeAcc, List.mem_append, List.mem_singleton] at ha
  rcases ha with ha | ha
  · exact h0 a ha
  · rw [ha]; exact h

theorem loadAcc_log {R : Type} (P : Access → Prop) (b : Scratch) (p : Mem R) (i : Nat)
    (log : List Access) (h0 : ∀ a ∈ log, P a) (h : P ⟨b, i, false⟩) :
    ∀ a ∈ (loadAcc b p i log).2, P a := by
  intro a ha
  simp only [loadAcc, List.mem_append, List.mem_singleton] at ha
  rcases ha with ha | ha
  · exact h0 a ha
  · rw [ha]; exact h

theorem dev_push_acc_log {R : Type} (P : Access → Prop) (h_id : Scratch) (d_ptr h_base : Mem R)
    (h_off bytes : Nat) (log : List Access) (h0 : ∀ a ∈ log, P a)
    (h : ∀ t, t < bytes / 8 → P ⟨h_id, h_off + t, false⟩) :
    ∀ a ∈ (dev_push_acc h_id d_ptr h_base h_off bytes log).2, P a := by
  intro a ha
  simp only [dev_push_acc, List.mem_append, List.mem_map, List.mem_range] at ha
  rcases ha with ha | ⟨t, ht, rfl⟩
  · exact h0 a ha
  · exact h t ht

theorem dsymm_LU_acc_log {R : Type} [CommRing R] (P : Access → Prop) (a_id c_id : Scratch)
    (m n : Nat) (alpha : R) (a_base : Mem R) (a_off lda : Nat) (B : Mem R) (ldb : Nat) (beta : R)
    (c_base : Mem R) (c_off ldc : Nat) (log : List Access) (h0 : ∀ a ∈ log, P a)
    (hA : ∀ c r, c < m → r ≤ c → P ⟨a_id, a_off + (r + c * lda), false⟩)
    (hC : ∀ j i, j < n → i < m → P ⟨c_id, c_off + (i + j * ldc), true⟩) :
    ∀ a ∈ (dsymm_LU_acc a_id c_id m n alpha a_base a_off lda B ldb beta c_base c_off ldc log).2,
      P a := by
  intro a ha
  simp only [dsymm_LU_acc, List.mem_append, List.mem_flatMap, List.mem_map, List.mem_range] at ha
  rcases ha with (ha | ⟨c, hc, r, hr, rfl⟩) | ⟨j, hj, i, hi, rfl⟩
  · exact h0 a ha
  · exact hA c r hc (by omega)
  · exact hC j i hj hi

theorem fdrv_unpack_acc_fst {R : Type} (vin : Mem R) (nao nao2 i it : Nat) (_buf : Mem R)
    (b_off : Nat) (log : List Access) :
    (fdrv_unpack_acc vin nao nao2 i it _buf b_off log).1 = fdrv_unpack vin nao nao2 i _buf b_off := by
  unfold fdrv_unpack_acc fdrv_unpack
  rw [forLoop_fst nao _ (fun _i s => forLoop (_i + 1) (fun _j s =>
    fdrv_unpack_step vin nao nao2 i b_off _i _j s) s)]
  intro _i s
  rw [forLoop_fst (_i + 1) _ (fun _j s => fdrv_unpack_step vin nao nao2 i b_off _i _j s)]
  intro _j s
  rfl

theorem fdrv_unpack_acc_log {R : Type} (P : Access → Prop) (vin : Mem R)
    (nao nao2 i it : Nat) (_buf : Mem R) (b_off : Nat) (log : List Access)
    (h0 : ∀ a ∈ log, P a)
    (h : ∀ _i _j, _i < nao → _j ≤ _i → P ⟨Scratch.buf_fdrv it, b_off + (_i * nao + _j), true⟩) :
    ∀ a ∈ (fdrv_unpack_acc vin nao nao2 i it _buf b_off log).2, P a := by
  unfold fdrv_unpack_acc
  apply forLoop_log P nao _ _ h0
  intro _i hi s hs
  apply forLoop_log P (_i + 1) _ _ hs
  intro _j hj s2 hs2
  unfold fdrv_unpack_step_acc
  simp only
  exact storeAcc_log P _ _ _ _ _ hs2 (h _i _j hi (by omega))

theorem fdrv_iter_acc_fst {R : Type} [CommRing R] (vout_id : Scratch) (vin mo_coeff : Mem R)
    (nao bra_start bra_count it i : Nat) (st : (Mem R × Mem R) × List Access) :
    (fdrv_iter_acc vout_id vin mo_coeff nao bra_start bra_count it i st).1
      = fdrv_iter vin mo_coeff nao bra_start bra_count it i st.1 := by
  unfold fdrv_iter_acc fdrv_iter
  simp only [dsymm_LU_acc, fdrv_unpack_acc_fst]

theorem fdrv_iter_acc_log {R : Type} [CommRing R] (P : Access → Prop) (vout_id : Scratch)
    (vin mo_coeff : Mem R) (nao bra_start bra_count it i : Nat)
    (st : (Mem R × Mem R) × List Access) (h0 : ∀ a ∈ st.2, P a)
    (hU : ∀ _i _j, _i < nao → _j ≤ _i →
      P ⟨Scratch.buf_fdrv it, it * 4 * nao * nao + (_i * nao + _j), true⟩)
    (hA : ∀ c r, c < nao → r ≤ c →
      P ⟨Scratch.buf_fdrv it, it * 4 * nao * nao + (r + c * nao), false⟩)
    (hC : ∀ j r, j < bra_count → r < nao → P ⟨vout_id, bra_count * nao * i + (r + j * nao), true⟩) :
    ∀ a ∈ (fdrv_iter_acc vout_id vin mo_coeff nao bra_start bra_count it i st).2, P a := by
  unfold fdrv_iter_acc
  simp only
  exact dsymm_LU_acc_log P _ _ _ _ _ _ _ _ _ _ _ _ _ _ _
    (fdrv_unpack_acc_log P vin nao _ i it st.1.2 _ st.2 h0 hU) hA hC

theorem fdrv_acc_fst {R : Type} [CommRing R] (tid : Nat → Nat) (vout_id : Scratch)
    (vout vin mo_coeff : Mem R) (nij nao : Nat) (orbs_slice : Nat → Nat) (_buf : Mem R)
    (log : List Access) :
    (fdrv_acc tid vout_id vout vin mo_coeff nij nao orbs_slice _buf log).1
      = fdrv tid vout vin mo_coeff nij nao orbs_slice _buf := by
  unfold fdrv_acc fdrv
  simp only
  rw [forLoop_fst nij _ (fun i st => fdrv_iter vin mo_coeff nao (orbs_slice 0)
    (orbs_slice 1 - orbs_slice 0) (tid i) i st)]
  intro i s
  exact fdrv_iter_acc_fst _ _ _ _ _ _ _ _ _

theorem fdrv_acc_log {R : Type} [CommRing R] (P : Access → Prop) (tid : Nat → Nat)
    (vout_id : Scratch) (vout vin mo_coeff : Mem R) (nij nao : Nat) (orbs_slice : Nat → Nat)
    (_buf : Mem R) (log : List Access) (h0 : ∀ a ∈ log, P a)
    (hU : ∀ i _i _j, i < nij → _i < nao → _j ≤ _i →
      P ⟨Scratch.buf_fdrv (tid i), tid i * 4 * nao * nao + (_i * nao + _j), true⟩)
    (hA : ∀ i c r, i < nij → c < nao → r ≤ c →
      P ⟨Scratch.buf_fdrv (tid i), tid i * 4 * nao * nao + (r + c * nao), false⟩)
    (hC : ∀ i j r, i < nij → j < orbs_slice 1 - orbs_slice 0 → r < nao →
      P ⟨vout_id, (orbs_slice 1 - orbs_slice 0) * nao * i + (r + j * nao), true⟩) :
    ∀ a ∈ (fdrv_acc tid vout_id vout vin mo_coeff nij nao orbs_slice _buf log).2, P a := by
  unfold fdrv_acc
  simp only
  apply forLoop_log P nij _ _ h0
  intro i hi s hs
  exact fdrv_iter_acc_log P _ _ _ _ _ _ _ _ s hs (fun _i _j => hU i _i _j hi)
    (fun c r => hA i c r hi) (fun j r => hC i j r hi)

theorem get_jk_unpack_row_acc_fst {R : Type} (blksize nao : Nat) (eri1 : Mem R) (off2 i : Nat)
    (buf_tmp : Mem R) (log : List Access) :
    (get_jk_unpack_row_acc blksize nao eri1 off2 i buf_tmp log).1
      = get_jk_unpack_row blksize nao eri1 off2 i buf_tmp := by
  unfold get_jk_unpack_row_acc get_jk_unpack_row
  rw [forLoop_fst nao _ (fun j s => forLoop (j + 1) (fun k s =>
    get_jk_unpack_step blksize nao eri1 off2 i j k s) s)]
  intro j s
  rw [forLoop_fst (j + 1) _ (fun k s => get_jk_unpack_step blksize nao eri1 off2 i j k s)]
  intro k s
  rfl

theorem get_jk_unpack_row_acc_log {R : Type} (P : Access → Prop) (blksize nao : Nat)
    (eri1 : Mem R) (off2 i : Nat) (buf_tmp : Mem R) (log : List Access) (h0 : ∀ a ∈ log, P a)
    (h : ∀ j k, j < nao → k ≤ j →
      P ⟨Scratch.buf_tmp, off2 + DevArray3D blksize nao nao i j k, true⟩ ∧
      P ⟨Scratch.buf_tmp, off2 + DevArray3D blksize nao nao i k j, true⟩) :
    ∀ a ∈ (get_jk_unpack_row_acc blksize nao eri1 off2 i buf_tmp log).2, P a := by
  unfold get_jk_unpack_row_acc
  apply forLoop_log P nao _ _ h0
  intro j hj s hs
  apply forLoop_log P (j + 1) _ _ hs
  intro k hk s2 hs2
  unfold get_jk_unpack_step_acc
  simp only
  exact storeAcc_log P _ _ _ _ _ (storeAcc_log P _ _ _ _ _ hs2 (h j k hj (by omega)).1)
    (h j k hj (by omega)).2

theorem get_jk_unpack_acc_fst {R : Type} (blksize naux nao : Nat) (eri1 buf_tmp : Mem R)
    (log : List Access) :
    (get_jk_unpack_acc blksize naux nao eri1 buf_tmp log).1
      = get_jk_unpack blksize naux nao eri1 buf_tmp := by
  unfold get_jk_unpack_acc get_jk_unpack
  simp only
  rw [forLoop_fst naux _ (fun i p =>
    (get_jk_unpack_row blksize nao eri1 (blksize * nao * nao) i p).1)]
  intro i s
  simp only [get_jk_unpack_row_acc_fst]

theorem get_jk_unpack_acc_log {R : Type} (P : Access → Prop) (blksize naux nao : Nat)
    (eri1 buf_tmp : Mem R) (log : List Access) (h0 : ∀ a ∈ log, P a)
    (h : ∀ i j k, i < naux → j < nao → k ≤ j →
      P ⟨Scratch.buf_tmp, blksize * nao * nao + DevArray3D blksize nao nao i j k, true⟩ ∧
      P ⟨Scratch.buf_tmp, blksize * nao * nao + DevArray3D blksize nao nao i k j, true⟩) :
    ∀ a ∈ (get_jk_unpack_acc blksize naux nao eri1 buf_tmp log).2, P a := by
  unfold get_jk_unpack_acc
  simp only
  apply forLoop_log P naux _ _ h0
  intro i hi s hs
  exact get_jk_unpack_row_acc_log P _ _ _ _ _ _ _ hs (fun j k => h i j k hi)

theorem get_jk_permute_acc_fst {R : Type} (naux nao : Nat) (buf_tmp buf3 : Mem R)
    (log : List Access) :
    (get_jk_permute_acc naux nao buf_tmp buf3 log).1 = get_jk_permute naux nao buf_tmp buf3 := by
  unfold get_jk_permute_acc get_jk_permute
  rw [forLoop_fst naux _ (fun i p => forLoop nao (fun j p => forLoop nao (fun k p =>
    store p (DevArray3D nao naux nao k i j) (buf_tmp (DevArray3D naux nao nao i j k))) p) p)]
  intro i s
  rw [forLoop_fst nao _ (fun j p => forLoop nao (fun k p =>
    store p (DevArray3D nao naux nao k i j) (buf_tmp (DevArray3D naux nao nao i j k))) p)]
  intro j s
  rw [forLoop_fst nao _ (fun k p =>
    store p (DevArray3D nao naux nao k i j) (buf_tmp (DevArray3D naux nao nao i j k)))]
  intro k s
  rfl

theorem get_jk_permute_acc_log {R : Type} (P : Access → Prop) (naux nao : Nat)
    (buf_tmp buf3 : Mem R) (log : List Access) (h0 : ∀ a ∈ log, P a)
    (h : ∀ i j k, i < naux → j < nao → k < nao →
      P ⟨Scratch.buf_tmp, DevArray3D naux nao nao i j k, false⟩ ∧
      P ⟨Scratch.buf3, DevArray3D nao naux nao k i j, true⟩) :
    ∀ a ∈ (get_jk_permute_acc naux nao buf_tmp buf3 log).2, P a := by
  unfold get_jk_permute_acc
  apply forLoop_log P naux _ _ h0
  intro i hi s hs
  apply forLoop_log P nao _ _ hs
  intro j hj s2 hs2
  apply forLoop_log P nao _ _ hs2
  intro k hk s3 hs3
  exact storeAcc_log P _ _ _ _ _ (loadAcc_log P _ _ _ _ hs3 (h i j k hi hj hk).1)
    (h i j k hi hj hk).2

theorem get_jk_iterK_acc_fst {R : Type} [CommRing R] (tid : Nat → Nat) (naux nao nset : Nat)
    (eri1 : Mem R) (_dms_list : Nat → Mem R) (count : Int) (indxK : Nat)
    (st : Device R × Mem R) :
    (get_jk_iterK_acc tid naux nao nset eri1 _dms_list count indxK st).1
      = get_jk_iterK tid naux nao nset eri1 _dms_list count indxK st := by
  unfold get_jk_iterK_acc get_jk_iterK
  simp only [dev_push_acc, fdrv_acc_fst, get_jk_unpack_acc_fst, get_jk_permute_acc_fst,
    Nat.zero_add]

theorem get_jk_iterK_acc_log {R : Type} [CommRing R] (P : Access → Prop) (tid : Nat → Nat)
    (naux nao nset : Nat) (eri1 : Mem R) (_dms_list : Nat → Mem R) (count : Int) (indxK : Nat)
    (st : Device R × Mem R)
    (hU : ∀ i _i _j, i < naux → _i < nao → _j ≤ _i →
      P ⟨Scratch.buf_fdrv (tid i), tid i * 4 * nao * nao + (_i * nao + _j), true⟩)
    (hA : ∀ i c r, i < naux → c < nao → r ≤ c →
      P ⟨Scratch.buf_fdrv (tid i), tid i * 4 * nao * nao + (r + c * nao), false⟩)
    (hC : ∀ i j r, i < naux → j < nao → r < nao →
      P ⟨Scratch.buf_tmp, nao * nao * i + (r + j * nao), true⟩)
    (h2 : ∀ i j k, i < naux → j < nao → k ≤ j →
      P ⟨Scratch.buf_tmp, st.1.blksize.toNat * nao * nao
          + DevArray3D st.1.blksize.toNat nao nao i j k, true⟩ ∧
      P ⟨Scratch.buf_tmp, st.1.blksize.toNat * nao * nao
          + DevArray3D st.1.blksize.toNat nao nao i k j, true⟩)
    (h3 : ∀ i j k, i < naux → j < nao → k < nao →
      P ⟨Scratch.buf_tmp, DevArray3D naux nao nao i j k, false⟩ ∧
      P ⟨Scratch.buf3, DevArray3D nao naux nao k i j, true⟩)
    (hp2 : ∀ t, t < st.1.blksize.toNat * nao * nao * 8 / 8 →
      P ⟨Scratch.buf_tmp, st.1.blksize.toNat * nao * nao + t, false⟩)
    (hp3 : ∀ t, t < st.1.blksize.toNat * nao * nao * 8 / 8 → P ⟨Scratch.buf3, 0 + t, false⟩) :
    ∀ a ∈ (get_jk_iterK_acc tid naux nao nset eri1 _dms_list count indxK st).2, P a := by
  unfold get_jk_iterK_acc
  simp only
  apply dev_push_acc_log P _ _ _ _ _ _ _ hp3
  apply dev_push_acc_log P _ _ _ _ _ _ _ hp2
  apply get_jk_permute_acc_log P _ _ _ _ _ _ h3
  apply get_jk_unpack_acc_log P _ _ _ _ _ _ _ h2
  apply fdrv_acc_log P _ _ _ _ _ _ _ _ _ _ _ hU hA
  · intro i j r hi hj hr
    have e : ((fun t => if t = 1 ∨ t = 3 then nao else 0) 1
      - (fun t => if t = 1 ∨ t = 3 then nao else 0) 0) = nao := by simp
    simp only [e] at hj ⊢
    exact hC i j r hi hj hr
  · intro a ha
    exact absurd ha (List.not_mem_nil a)

/-- C15: scratch accesses are in bounds and the two halves of `buf_tmp` do not collide. With
`blksize = B` (set by `init_get_jk`) and `n_aux ≤ B`, for an iteration of Phase K run with its
scratch accesses recorded: the recorded run computes exactly what `get_jk_iterK` computes; every
recorded index, read or written, lies in `[0, 2·B·N·N)` for `buf_tmp` and in `[0, B·N·N)` for
`buf3`, and an access to `buf_fdrv` by worker `t` is made by a worker `t = tid i` of an iteration
`i < n_aux` and lies in `[t·4·N·N, (t+1)·4·N·N)`; what `fdrv` touches in `buf_tmp` are stores
in `[0, n_aux·N·N)` and what the unpack touches are stores to `buf_tmp` in
`[B·N·N, B·N·N + n_aux·N·N)`, two disjoint regions inside `[0, 2·B·N·N)`; and outside these
regions the stores behind `buf_tmp`, `buf3` and `buf_fdrv` are not changed. -/
theorem get_jk_scratch_in_bounds {R : Type} [CommRing R] (tid : Nat → Nat)
    (naux nao nset : Nat) (eri1 : Mem R) (_dms_list : Nat → Mem R) (count : Int) (indxK : Nat)
    (st : Device R × Mem R) (B : Nat) (hbl : st.1.blksize = (B : Int)) (hB : naux ≤ B) :
    (get_jk_iterK_acc tid naux nao nset eri1 _dms_list count indxK st).1
      = get_jk_iterK tid naux nao nset eri1 _dms_list count indxK st ∧
    (∀ a ∈ (get_jk_iterK_acc tid naux nao nset eri1 _dms_list count indxK st).2,
      (a.buf = Scratch.buf_tmp → a.idx < 2 * (B * nao * nao)) ∧
      (a.buf = Scratch.buf3 → a.idx < B * nao * nao) ∧
      (∀ it, a.buf = Scratch.buf_fdrv it →
        (∃ i, i < naux ∧ it = tid i) ∧
        it * 4 * nao * nao ≤ a.idx ∧ a.idx < (it + 1) * 4 * nao * nao)) ∧
    (∀ (vout _buf : Mem R),
      ∀ a ∈ (fdrv_acc tid Scratch.buf_tmp vout eri1 (_dms_list indxK) naux nao
          (fun t => if t = 1 ∨ t = 3 then nao else 0) _buf []).2,
        a.buf = Scratch.buf_tmp → a.write = true ∧ a.idx < naux * nao * nao) ∧
    (∀ (p : Mem R), ∀ a ∈ (get_jk_unpack_acc B naux nao eri1 p []).2,
      a.buf = Scratch.buf_tmp ∧ a.write = true ∧
      B * nao * nao ≤ a.idx ∧ a.idx < B * nao * nao + naux * nao * nao) ∧
    (naux * nao * nao ≤ B * nao * nao ∧
      B * nao * nao + naux * nao * nao ≤ 2 * (B * nao * nao)) ∧
    (∀ off, 2 * (B * nao * nao) ≤ off →
      (get_jk_iterK tid naux nao nset eri1 _dms_list count indxK st).1.buf_tmp.mem off
        = st.1.buf_tmp.mem off) ∧
    (∀ (vout _buf : Mem R) off, naux * nao * nao ≤ off →
      (fdrv tid vout eri1 (_dms_list indxK) naux nao
        (fun t => if t = 1 ∨ t = 3 then nao else 0) _buf).1 off = vout off) ∧
    (∀ (p : Mem R) off, off < B * nao * nao ∨ B * nao * nao + naux * nao * nao ≤ off →
      get_jk_unpack B naux nao eri1 p off = p off) ∧
    (∀ off, B * nao * nao ≤ off →
      (get_jk_iterK tid naux nao nset eri1 _dms_list count indxK st).1.buf3.mem off
        = st.1.buf3.mem off) ∧
    (∀ (it i : Nat) (s : Mem R × Mem R) off,
      ¬ (it * 4 * nao * nao ≤ off ∧ off < (it + 1) * 4 * nao * nao) →
      (fdrv_iter eri1 (_dms_list indxK) nao 0 nao it i s).2 off = s.2 off) := by
  have hbn : st.1.blksize.toNat = B := by rw [hbl]; exact Int.toNat_ofNat B
  have hle : naux * nao * nao ≤ B * nao * nao :=
    Nat.mul_le_mul_right nao (Nat.mul_le_mul_right nao hB)
  have hslot : ∀ it : Nat, (it + 1) * 4 * nao * nao = it * 4 * nao * nao + 4 * (nao * nao) := by
    intro it; ring
  have hfull : ((fun t => if t = 1 ∨ t = 3 then nao else 0) 1
      - (fun t => if t = 1 ∨ t = 3 then nao else 0) 0) = nao := by simp
  have hcomm : nao * nao * naux = naux * nao * nao := by ring
  have h3c : nao * naux * nao = naux * nao * nao := by ring
  have hrow : ∀ i x, i < naux → x < nao * nao → nao * nao * i + x < naux * nao * nao := by
    intro i x hi hx
    have h1 : nao * nao * (i + 1) ≤ nao * nao * naux := Nat.mul_le_mul_left _ hi
    have h2 : nao * nao * (i + 1) = nao * nao * i + nao * nao := by ring
    omega
  refine ⟨get_jk_iterK_acc_fst _ _ _ _ _ _ _ _ _, ?_, ?_, ?_, ⟨hle, by omega⟩, ?_, ?_, ?_, ?_, ?_⟩
  · have ptmp : ∀ (x : Nat) (w : Bool), x < 2 * (B * nao * nao) →
        (fun a : Access => (a.buf = Scratch.buf_tmp → a.idx < 2 * (B * nao * nao)) ∧
          (a.buf = Scratch.buf3 → a.idx < B * nao * nao) ∧
          (∀ it, a.buf = Scratch.buf_fdrv it →
            (∃ i, i < naux ∧ it = tid i) ∧
            it * 4 * nao * nao ≤ a.idx ∧ a.idx < (it + 1) * 4 * nao * nao))
          ⟨Scratch.buf_tmp, x, w⟩ := by
      intro x w hx
      exact ⟨fun _ => hx, fun h => (by cases h), fun it h => (by cases h)⟩
    have p3 : ∀ (x : Nat) (w : Bool), x < B * nao * nao →
        (fun a : Access => (a.buf = Scratch.buf_tmp → a.idx < 2 * (B * nao * nao)) ∧
          (a.buf = Scratch.buf3 → a.idx < B * nao * nao) ∧
          (∀ it, a.buf = Scratch.buf_fdrv it →
            (∃ i, i < naux ∧ it = tid i) ∧
            it * 4 * nao * nao ≤ a.idx ∧ a.idx < (it + 1) * 4 * nao * nao))
          ⟨Scratch.buf3, x, w⟩ := by
      intro x w hx
      exact ⟨fun h => (by cases h), fun _ => hx, fun it h => (by cases h)⟩
    have pf : ∀ (i x : Nat) (w : Bool), i < naux → x < nao * nao →
        (fun a : Access => (a.buf = Scratch.buf_tmp → a.idx < 2 * (B * nao * nao)) ∧
          (a.buf = Scratch.buf3 → a.idx < B * nao * nao) ∧
          (∀ it, a.buf = Scratch.buf_fdrv it →
            (∃ i, i < naux ∧ it = tid i) ∧
            it * 4 * nao * nao ≤ a.idx ∧ a.idx < (it + 1) * 4 * nao * nao))
          ⟨Scratch.buf_fdrv (tid i), tid i * 4 * nao * nao + x, w⟩ := by
      intro i x w hi hx
      refine ⟨fun h => (by cases h), fun h => (by cases h), fun it h => ?_⟩
      cases h
      refine ⟨⟨i, hi, rfl⟩, Nat.le_add_right _ _, ?_⟩
      show tid i * 4 * nao * nao + x < (tid i + 1) * 4 * nao * nao
      rw [hslot]
      omega
    apply get_jk_iterK_acc_log
    · intro i _i _j hi h_i h_j
      exact pf i _ true hi (mul_add_lt (by omega) h_i)
    · intro i c r hi hc hr
      have h1 := mul_add_lt (by omega : r < nao) hc
      exact pf i _ false hi (by omega)
    · intro i j r hi hj hr
      have h1 := mul_add_lt hr hj
      have h2 := hrow i (r + j * nao) hi (by omega)
      exact ptmp _ true (by omega)
    · intro i j k hi hj hk
      rw [hbn]
      have h1 : DevArray3D B nao nao i j k < naux * nao * nao :=
        idx3_lt hi hj (by omega : k < nao)
      have h2 : DevArray3D B nao nao i k j < naux * nao * nao :=
        idx3_lt hi (by omega : k < nao) hj
      exact ⟨ptmp _ true (by omega), ptmp _ true (by omega)⟩
    · intro i j k hi hj hk
      have h1 : DevArray3D naux nao nao i j k < naux * nao * nao := idx3_lt hi hj hk
      have h2 : DevArray3D nao naux nao k i j < nao * naux * nao :=
        mul_add_lt hj (mul_add_lt hi hk)
      exact ⟨ptmp _ false (by omega), p3 _ true (by omega)⟩
    · intro t ht
      rw [hbn] at ht ⊢
      rw [Nat.mul_div_cancel _ (by decide : 0 < 8)] at ht
      exact ptmp _ false (by omega)
    · intro t ht
      rw [hbn] at ht
      rw [Nat.mul_div_cancel _ (by decide : 0 < 8)] at ht
      exact p3 _ false (by omega)
  · intro vout _buf
    apply fdrv_acc_log (fun a : Access =>
      a.buf = Scratch.buf_tmp → a.write = true ∧ a.idx < naux * nao * nao)
    · intro a ha
      exact absurd ha (List.not_mem_nil a)
    · intro i _i _j _ _ _ h
      cases h
    · intro i c r _ _ _ h
      cases h
    · intro i j r hi hj hr _
      rw [hfull] at hj ⊢
      have h1 := mul_add_lt hr hj
      have h2 := hrow i (r + j * nao) hi (by omega)
      exact ⟨rfl, h2⟩
  · intro p
    apply get_jk_unpack_acc_log (fun a : Access =>
      a.buf = Scratch.buf_tmp ∧ a.write = true ∧
      B * nao * nao ≤ a.idx ∧ a.idx < B * nao * nao + naux * nao * nao)
    · intro a ha
      exact absurd ha (List.not_mem_nil a)
    · intro i j k hi hj hk
      have h1 : DevArray3D B nao nao i j k < naux * nao * nao :=
        idx3_lt hi hj (by omega : k < nao)
      have h2 : DevArray3D B nao nao i k j < naux * nao * nao :=
        idx3_lt hi (by omega : k < nao) hj
      exact ⟨⟨rfl, rfl, Nat.le_add_right _ _, Nat.add_lt_add_left h1 _⟩,
        ⟨rfl, rfl, Nat.le_add_right _ _, Nat.add_lt_add_left h2 _⟩⟩
  · intro off hoff
    rw [get_jk_iterK_buf_tmp, hbn, get_jk_unpack_frame B naux nao eri1 _ off (by omega)]
    exact fdrv_frame_above tid _ eri1 _ naux nao _ _ off (by rw [hfull, hcomm]; omega)
  · intro vout _buf off hoff
    exact fdrv_frame_above tid vout eri1 _ naux nao _ _buf off (by rw [hfull, hcomm]; omega)
  · intro p off hoff
    exact get_jk_unpack_frame B naux nao eri1 p off hoff
  · intro off hoff
    rw [get_jk_iterK_buf3]
    apply get_jk_permute_frame
    omega
  · intro it i s off hoff
    apply fdrv_iter_scratch
    rw [hslot] at hoff
    omega

/-- C15 at `B = 2, n_aux = 1, N = 2` after `init_get_jk`: every recorded access of the
iteration is inside the claimed bounds. -/
theorem get_jk_scratch_in_bounds_witness :
    ((init_get_jk (Device.empty ℤ 1) ⟨[1, 3], Mem.ofList [1, 1, 0]⟩ ⟨[1, 3], fun _ => 0⟩
        ((2 : Nat) : Int) 1 2).blksize = ((2 : Nat) : Int) ∧ 1 ≤ 2) ∧
    (∀ a ∈ (get_jk_iterK_acc (fun _ => 0) 1 2 1 (Mem.ofList [1, 1, 0])
        (fun _ => Mem.ofList [1, 2, 3, 4]) 0 0
        (init_get_jk (Device.empty ℤ 1) ⟨[1, 3], Mem.ofList [1, 1, 0]⟩ ⟨[1, 3], fun _ => 0⟩
          ((2 : Nat) : Int) 1 2, fun _ => 0)).2,
      (a.buf = Scratch.buf_tmp → a.idx < 2 * (2 * 2 * 2)) ∧
      (a.buf = Scratch.buf3 → a.idx < 2 * 2 * 2) ∧
      (∀ it, a.buf = Scratch.buf_fdrv it →
        (∃ i, i < 1 ∧ it = (fun _ => 0) i) ∧
        it * 4 * 2 * 2 ≤ a.idx ∧ a.idx < (it + 1) * 4 * 2 * 2)) :=
  ⟨⟨init_get_jk_blksize _ _ _ _ _ _, by decide⟩,
   (get_jk_scratch_in_bounds (fun _ => 0) 1 2 1 (Mem.ofList [1, 1, 0])
      (fun _ => Mem.ofList [1, 2, 3, 4]) 0 0
      (init_get_jk (Device.empty ℤ 1) ⟨[1, 3], Mem.ofList [1, 1, 0]⟩ ⟨[1, 3], fun _ => 0⟩
        ((2 : Nat) : Int) 1 2, fun _ => 0) 2 (init_get_jk_blksize _ _ _ _ _ _) (by decide)).2.1⟩

/-- The record of one iteration at `B = 1, n_aux = 1, N = 2`, one worker: the three stores of
the unpack of `fdrv`, the three loads and four stores of the symmetric multiply, the six stores
of the unpack into `buf2` (offset 4), the four loads and stores of the permutation, and the loads
of the two transfers. -/
theorem get_jk_iterK_acc_record :
    (get_jk_iterK_acc (fun _ => 0) 1 2 1 (Mem.ofList [1, 1, 0])
        (fun _ => Mem.ofList [1, 2, 3, 4]) 0 0
        ({ Device.empty ℤ 1 with blksize := 1 }, fun _ => 0)).2
      = [⟨Scratch.buf_fdrv 0, 0, true⟩, ⟨Scratch.buf_fdrv 0, 2, true⟩,
         ⟨Scratch.buf_fdrv 0, 3, true⟩,
         ⟨Scratch.buf_fdrv 0, 0, false⟩, ⟨Scratch.buf_fdrv 0, 2, false⟩,
         ⟨Scratch.buf_fdrv 0, 3, false⟩,
         ⟨Scratch.buf_tmp, 0, true⟩, ⟨Scratch.buf_tmp, 1, true⟩, ⟨Scratch.buf_tmp, 2, true⟩,
         ⟨Scratch.buf_tmp, 3, true⟩,
         ⟨Scratch.buf_tmp, 4, true⟩, ⟨Scratch.buf_tmp, 4, true⟩, ⟨Scratch.buf_tmp, 6, true⟩,
         ⟨Scratch.buf_tmp, 5, true⟩, ⟨Scratch.buf_tmp, 7, true⟩, ⟨Scratch.buf_tmp, 7, true⟩,
         ⟨Scratch.buf_tmp, 0, false⟩, ⟨Scratch.buf3, 0, true⟩,
         ⟨Scratch.buf_tmp, 1, false⟩, ⟨Scratch.buf3, 2, true⟩,
         ⟨Scratch.buf_tmp, 2, false⟩, ⟨Scratch.buf3, 1, true⟩,
         ⟨Scratch.buf_tmp, 3, false⟩, ⟨Scratch.buf3, 3, true⟩,
         ⟨Scratch.buf_tmp, 4, false⟩, ⟨Scratch.buf_tmp, 5, false⟩,
         ⟨Scratch.buf_tmp, 6, false⟩, ⟨Scratch.buf_tmp, 7, false⟩,
         ⟨Scratch.buf3, 0, false⟩, ⟨Scratch.buf3, 1, false⟩,
         ⟨Scratch.buf3, 2, false⟩, ⟨Scratch.buf3, 3, false⟩] := by
  decide

/-! ## Claims on transfers and stale scratch -/

/-- C16, the code at `S = 2, N = 1, k = 1`: the caller's `VK` has `S·N·N = 2` elements
(offsets 0 and 1), yet after iteration `k = 1` cell 1 of the device accumulator holds what the
host memory holds at offset 2 of `VK`: the transfer of `nset * nao * nao` doubles starting at
`vk + k * nao` covers the offsets `[1, 3)`. This holds for every `n_aux`, every input and every
`count`. -/
theorem get_jk_iterK_transfer_beyond_vk {R : Type} [CommRing R] (tid : Nat → Nat) (naux : Nat)
    (eri1 : Mem R) (_dms_list : Nat → Mem R) (count : Int) (d : Device R) (vk : Mem R) :
    (get_jk_iterK tid naux 1 2 eri1 _dms_list count 1 (d, vk)).1.d_vkk.mem 1 = vk 2 := by
  unfold get_jk_iterK
  simp only
  rw [cublasDgemm_NN_frame]
  · simp [dev_push]
  · intro i j hi hj
    omega

/-- C17: results do not depend on stale scratch. For `n_aux ≤ B`, two runs of `get_jk` on the
same `ERI`, `DM_tril`, densities, initial `VJ` and `VK` and `count`, from two device objects
whose scratch buffers (`buf_tmp`, `buf3`, `buf_fdrv`, `rho`, `d_buf2`, `d_buf3`, `d_vkk`) hold
anything and with any assignment of workers, leave the same `VJ` on its `S x P` extent and the
same `VK` on its `S·N·N` extent; and the cells of the output of `fdrv` do not depend on the
prior contents of the per-worker scratch (nor of the output buffer). -/
theorem get_jk_independent_of_scratch {R : Type} [CommRing R] (d d2 : Device R)
    (tid tid2 : Nat → Nat) (naux nao nset : Nat) (_eri1 _dmtril : PyArray R)
    (_dms_list : Nat → Mem R) (_vj _vk : PyArray R) (count : Int)
    (hB : (naux : Int) ≤ d.blksize) (hB2 : (naux : Int) ≤ d2.blksize) :
    (∀ s p, s < nset → p < nao * (nao + 1) / 2 →
      (get_jk d tid naux nao nset _eri1 _dmtril _dms_list _vj _vk count).vj
          (s * (nao * (nao + 1) / 2) + p)
        = (get_jk d2 tid2 naux nao nset _eri1 _dmtril _dms_list _vj _vk count).vj
          (s * (nao * (nao + 1) / 2) + p)) ∧
    (∀ off, off < nset * nao * nao →
      (get_jk d tid naux nao nset _eri1 _dmtril _dms_list _vj _vk count).vk off
        = (get_jk d2 tid2 naux nao nset _eri1 _dmtril _dms_list _vj _vk count).vk off) ∧
    (∀ (vout vout2 _buf _buf2 mo_coeff : Mem R) (orbs_slice : Nat → Nat) i a b, i < naux →
      a < orbs_slice 1 - orbs_slice 0 → b < nao →
      (fdrv tid vout _eri1.ptr mo_coeff naux nao orbs_slice _buf).1
          (i * ((orbs_slice 1 - orbs_slice 0) * nao) + a * nao + b)
        = (fdrv tid2 vout2 _eri1.ptr mo_coeff naux nao orbs_slice _buf2).1
          (i * ((orbs_slice 1 - orbs_slice 0) * nao) + a * nao + b)) := by
  refine ⟨?_, ?_, ?_⟩
  · intro s p hs hp
    rw [get_jk_vj_eq, get_jk_vj_eq, get_jk_vj_at naux nao nset _ _ _ s p hs hp,
      get_jk_vj_at naux nao nset _ _ _ s p hs hp]
    congr 1
    apply Finset.sum_congr rfl
    intro i hi
    rw [get_jk_rho_at naux nao nset _ _ _ s i hs (Finset.mem_range.mp hi),
      get_jk_rho_at naux nao nset _ _ _ s i hs (Finset.mem_range.mp hi)]
  · intro off hoff
    obtain ⟨k, a, b, hk, ha, hb, rfl⟩ := vk_pos_surj hoff
    rw [get_jk_vk_block d tid naux nao nset _eri1 _dmtril _dms_list _vj _vk count hB k a b hk ha hb,
      get_jk_vk_block d2 tid2 naux nao nset _eri1 _dmtril _dms_list _vj _vk count hB2 k a b
        hk ha hb]
  · intro vout vout2 _buf _buf2 mo_coeff orbs_slice i a b hi ha hb
    have hidx : i * ((orbs_slice 1 - orbs_slice 0) * nao) + a * nao + b
        = (orbs_slice 1 - orbs_slice 0) * nao * i + (b + a * nao) := by ring
    rw [hidx, fdrv_at tid vout _ mo_coeff naux nao orbs_slice _buf i b a hi hb ha,
      fdrv_at tid2 vout2 _ mo_coeff naux nao orbs_slice _buf2 i b a hi hb ha]

/-- C17 at `S = 1, N = 2, n_aux = 1, B = 1`: from a device object whose buffers hold zeros and
from one whose buffers hold other values, `VK` is the same at offset 3. -/
theorem get_jk_independent_of_scratch_witness :
    ((((1 : Nat) : Int) ≤ (init_get_jk (Device.empty ℤ 1) ⟨[1, 3], Mem.ofList [1, 1, 0]⟩
        ⟨[1, 3], Mem.ofList [1, 0, 0]⟩ 1 1 2).blksize) ∧ 3 < 1 * 2 * 2) ∧
    (get_jk (init_get_jk (Device.empty ℤ 1) ⟨[1, 3], Mem.ofList [1, 1, 0]⟩
          ⟨[1, 3], Mem.ofList [1, 0, 0]⟩ 1 1 2)
        (fun _ => 0) 1 2 1 ⟨[1, 3], Mem.ofList [1, 1, 0]⟩ ⟨[1, 3], Mem.ofList [1, 0, 0]⟩
        (fun _ => Mem.ofList [1, 2, 3, 4]) ⟨[1, 3], fun _ => 0⟩ ⟨[1, 2, 2], fun _ => 0⟩ 0).vk 3
      = (get_jk { init_get_jk (Device.empty ℤ 1) ⟨[1, 3], Mem.ofList [1, 1, 0]⟩
            ⟨[1, 3], Mem.ofList [1, 0, 0]⟩ 1 1 2 with
            blksize := 1, buf_tmp := ⟨3, 64, fun _ => 5⟩, buf_fdrv := ⟨8, 128, fun _ => 7⟩ }
        (fun _ => 0) 1 2 1 ⟨[1, 3], Mem.ofList [1, 1, 0]⟩ ⟨[1, 3], Mem.ofList [1, 0, 0]⟩
        (fun _ => Mem.ofList [1, 2, 3, 4]) ⟨[1, 3], fun _ => 0⟩ ⟨[1, 2, 2], fun _ => 0⟩ 0).vk 3 :=
  ⟨⟨by rw [init_get_jk_blksize]; decide, by decide⟩,
   (get_jk_independent_of_scratch
      (init_get_jk (Device.empty ℤ 1) ⟨[1, 3], Mem.ofList [1, 1, 0]⟩
        ⟨[1, 3], Mem.ofList [1, 0, 0]⟩ 1 1 2)
      { init_get_jk (Device.empty ℤ 1) ⟨[1, 3], Mem.ofList [1, 1, 0]⟩
          ⟨[1, 3], Mem.ofList [1, 0, 0]⟩ 1 1 2 with
          blksize := 1, buf_tmp := ⟨3, 64, fun _ => 5⟩, buf_fdrv := ⟨8, 128, fun _ => 7⟩ }
      (fun _ => 0) (fun _ => 0) 1 2 1 ⟨[1, 3], Mem.ofList [1, 1, 0]⟩
      ⟨[1, 3], Mem.ofList [1, 0, 0]⟩ (fun _ => Mem.ofList [1, 2, 3, 4]) ⟨[1, 3], fun _ => 0⟩
      ⟨[1, 2, 2], fun _ => 0⟩ 0 (by rw [init_get_jk_blksize]; decide) (by decide)).2.1 3
      (by decide)⟩

/-! ## The product of the operand buffers -/

end Mrh
